import Mathlib

/-!
Verification of the Alcor2OS kernel specification against its C sources.

This file gives a shallow embedding, in Lean 4, of the kernel routines named
by the claims under scrutiny: the physical-memory bitmap allocator
(src/mm/pmm.c), the kernel heap (src/mm/heap.c), the virtual-memory manager
(src/mm/vmm.c), the syscall layer and its pipe primitive
(src/kernel/sys/syscalls.c), process fork (src/kernel/process/proc.c), and
the ext2 block mapping, read path and directory mutation (src/fs/ext2.c).

Machine integers (u64/u32) are embedded as `Nat`, with wraparound written
explicitly as `% 2 ^ 64` at the points where the C arithmetic can overflow.
Negative-errno returns are embedded as `Int` (the C returns the same value
cast to u64; the cast is injective on the range used).  Fallible paths are
`Option`/explicit outcome types.  Each definition carries a comment naming
the C function it embeds.
-/

namespace Alcor2

/-- Bytes per page (include/alcor2/pmm.h `PAGE_SIZE`). -/
def PAGE_SIZE : Nat := 4096

/-- `USER_SPACE_END` from include/alcor2/memory_layout.h: `0x00007FFFFFFFF000`,
which equals 2^47 - 4096. -/
def USER_SPACE_END : Nat := 0x00007FFFFFFFF000

/-- `PAGE_FRAME_MASK` from include/alcor2/memory_layout.h. -/
def PAGE_FRAME_MASK : Nat := 0x000FFFFFFFFFF000

/-- `PAGE_OFFSET_MASK` from include/alcor2/memory_layout.h. -/
def PAGE_OFFSET_MASK : Nat := 0xFFF

/-- `ALL_BITS_SET` from include/alcor2/memory_layout.h. -/
def ALL_BITS_SET : Nat := 0xFFFFFFFFFFFFFFFF

/-- Errno values from include/alcor2/errno.h. -/
def ENOENT : Int := 2
def EIO : Int := 5
def EBADF : Int := 9
def ENOMEM : Int := 12
def EFAULT : Int := 14
def ENOTDIR : Int := 20
def EISDIR : Int := 21
def EINVAL : Int := 22
def EMFILE : Int := 24
def EPIPE : Int := 32
def ENOTEMPTY : Int := 39

/-! ## Physical memory manager (src/mm/pmm.c)

The bitmap is an array of 64-bit words (`static u64 *bitmap`), embedded as a
`List Nat`; `free_pages` is the running free-page counter.  `total_pages`
bounds the scan of `pmm_alloc_pages`. -/

/-- State of the PMM: the bitmap word array, the free-page counter and the
page count, mirroring the file-scope statics of src/mm/pmm.c. -/
structure PmmState where
  words : List Nat
  free_pages : Nat
  total_pages : Nat
deriving Repr, DecidableEq

/-- `BITS_PER_ENTRY` in src/mm/pmm.c. -/
def BITS_PER_ENTRY : Nat := 64

/-- `bitmap_test(page)`: bit `page % 64` of word `page / 64`. -/
def bitmap_test (s : PmmState) (page : Nat) : Bool :=
  (s.words.getD (page / BITS_PER_ENTRY) 0).testBit (page % BITS_PER_ENTRY)

/-- `bitmap_set(page)`: `bitmap[page/64] |= 1 << (page % 64)`. -/
def bitmap_set (s : PmmState) (page : Nat) : PmmState :=
  { s with words := s.words.set (page / BITS_PER_ENTRY)
              ((s.words.getD (page / BITS_PER_ENTRY) 0) |||
                (1 <<< (page % BITS_PER_ENTRY))) }

/-- `bitmap_clear(page)`: `bitmap[page/64] &= ~(1 << (page % 64))`; the 64-bit
complement `~(1 << b)` is `ALL_BITS_SET ^^^ (1 <<< b)`. -/
def bitmap_clear (s : PmmState) (page : Nat) : PmmState :=
  { s with words := s.words.set (page / BITS_PER_ENTRY)
              ((s.words.getD (page / BITS_PER_ENTRY) 0) &&&
                (ALL_BITS_SET ^^^ (1 <<< (page % BITS_PER_ENTRY)))) }

/-- Inner loop of `pmm_alloc`: first bit `b < 64` clear in word `w`. -/
def findClearBit (w : Nat) : Option Nat :=
  (List.range BITS_PER_ENTRY).find? (fun b => ! w.testBit b)

/-- Word scan of `pmm_alloc`: words are skipped while equal to
`ALL_BITS_SET`; the first word with a clear bit among its low 64 yields a
page number `i * 64 + b`. -/
def pmmAllocScan : List Nat → Nat → Option Nat
  | [], _ => none
  | w :: ws, i =>
      if w ≠ ALL_BITS_SET then
        match findClearBit w with
        | some b => some (i * BITS_PER_ENTRY + b)
        | none => pmmAllocScan ws (i + 1)
      else pmmAllocScan ws (i + 1)

/-- `pmm_alloc`: first-fit scan; on success the bit is set, `free_pages`
is decremented, and the physical address `page * PAGE_SIZE` returned. -/
def pmm_alloc (s : PmmState) : Option (Nat × PmmState) :=
  match pmmAllocScan s.words 0 with
  | none => none
  | some page =>
      some (page * PAGE_SIZE,
        { bitmap_set s page with free_pages := s.free_pages - 1 })

/-- Scan of `pmm_alloc_pages`: walk pages `0 .. total_pages - 1` keeping the
`consecutive`/`start_page` counters of the C loop; returns the start page of
the first run of `count` clear pages. -/
def pmmAllocPagesScan (s : PmmState) (count : Nat) :
    List Nat → Nat → Nat → Option Nat
  | [], _, _ => none
  | p :: ps, consecutive, start_page =>
      if ! bitmap_test s p then
        let start' := if consecutive = 0 then p else start_page
        if consecutive + 1 = count then some start'
        else pmmAllocPagesScan s count ps (consecutive + 1) start'
      else pmmAllocPagesScan s count ps 0 start_page

/-- Mark pages `start .. start + count - 1` allocated (the success loop of
`pmm_alloc_pages`). -/
def setRange (s : PmmState) (start count : Nat) : PmmState :=
  (List.range count).foldl (fun t k => bitmap_set t (start + k)) s

/-- `pmm_alloc_pages(count)`. -/
def pmm_alloc_pages (s : PmmState) (count : Nat) : Option (Nat × PmmState) :=
  match pmmAllocPagesScan s count (List.range s.total_pages) 0 0 with
  | none => none
  | some start =>
      some (start * PAGE_SIZE,
        { setRange s start count with free_pages := s.free_pages - count })

/-- `pmm_free(addr)`: clear the bit and bump the counter only when the page
is currently marked allocated; otherwise do nothing. -/
def pmm_free (s : PmmState) (addr : Nat) : PmmState :=
  let page := addr / PAGE_SIZE
  if bitmap_test s page then
    { bitmap_clear s page with free_pages := s.free_pages + 1 }
  else s

/-- `pmm_free_pages(addr, count)`: per-page conditional clear. -/
def pmm_free_pages (s : PmmState) (addr : Nat) (count : Nat) : PmmState :=
  let page := addr / PAGE_SIZE
  (List.range count).foldl
    (fun t i =>
      if bitmap_test t (page + i) then
        { bitmap_clear t (page + i) with free_pages := t.free_pages + 1 }
      else t) s

/-- `pmm_get_free`. -/
def pmm_get_free (s : PmmState) : Nat := s.free_pages * PAGE_SIZE

/-! ## Kernel heap (src/mm/heap.c) -/

/-- `HEAP_HEADER_SIZE = sizeof(heap_block_t)` (packed: 4+4+1+7+8+8 = 32). -/
def HEAP_HEADER_SIZE : Nat := 32

/-- `HEAP_MIN_ALLOC` from include/alcor2/heap.h. -/
def HEAP_MIN_ALLOC : Nat := 32

/-- `HEAP_BLOCK_MAGIC` from include/alcor2/heap.h. -/
def HEAP_BLOCK_MAGIC : Nat := 0xDEADBEEF

/-- A heap block header (`heap_block_t`): magic tag, payload size, free
flag.  The doubly-linked list of blocks is embedded as a `List HeapBlock`
in address order (prev/next pointers become list adjacency). -/
structure HeapBlock where
  magic : Nat
  size : Nat
  free : Bool
deriving Repr, DecidableEq

/-- `split_block(block, size)`: split off the tail when the remainder
`block->size - size` exceeds `HEAP_HEADER_SIZE + HEAP_MIN_ALLOC`; the new
free block gets payload `remaining - HEAP_HEADER_SIZE` and the original
block is trimmed to `size`.  Returns the resulting one- or two-block
segment. -/
def split_block (block : HeapBlock) (size : Nat) : List HeapBlock :=
  let remaining := block.size - size
  if remaining ≤ HEAP_HEADER_SIZE + HEAP_MIN_ALLOC then
    [block]
  else
    [{ block with size := size },
     { magic := HEAP_BLOCK_MAGIC, size := remaining - HEAP_HEADER_SIZE,
       free := true }]

/-- The size normalisation at the top of `kmalloc`: align to 16 bytes
(`(size + 15) & ~15ULL`) then raise to `HEAP_MIN_ALLOC`. -/
def kmallocNormalize (size : Nat) : Nat :=
  let aligned := (size + 15) &&& (ALL_BITS_SET ^^^ 15)
  if aligned < HEAP_MIN_ALLOC then HEAP_MIN_ALLOC else aligned

/-- `find_free_block(size)`: index of the first block that is free and
large enough (first fit). -/
def find_free_block (blocks : List HeapBlock) (size : Nat) : Option Nat :=
  blocks.findIdx? (fun b => b.free && size ≤ b.size)

/-- Replace the block at `i` by the (possibly split) segment with the first
part marked allocated — the `split_block` + `block->free = 0` steps of
`kmalloc`. -/
def kmallocTake (blocks : List HeapBlock) (i : Nat) (size : Nat) :
    List HeapBlock :=
  match blocks.get? i with
  | none => blocks
  | some b =>
      (blocks.take i) ++
        (match split_block b size with
         | [] => []
         | hd :: tl => { hd with free := false } :: tl) ++
        (blocks.drop (i + 1))

/-- Outcome of `kfree`. -/
inductive KfreeOutcome where
  /-- `ptr == NULL`: silently ignored. -/
  | nullPtr
  /-- `block->magic != HEAP_BLOCK_MAGIC`: the C prints
  "[HEAP] Bad free: invalid magic" and returns to the caller. -/
  | badMagic
  /-- `block->free` already set: prints "[HEAP] Double free detected"
  and returns. -/
  | doubleFree
  /-- Block marked free and coalesced. -/
  | freed
deriving Repr, DecidableEq

/-- `coalesce(block)` at index `i`: merge with following free blocks, then
with the preceding block if free.  On merge the absorbing block grows by
`HEAP_HEADER_SIZE + next->size`. -/
def coalesceForward (b : HeapBlock) : List HeapBlock → HeapBlock × List HeapBlock
  | [] => (b, [])
  | n :: rest =>
      if n.free then
        coalesceForward { b with size := b.size + HEAP_HEADER_SIZE + n.size } rest
      else (b, n :: rest)

/-- Full `coalesce` around index `i` of the list (forward merges, then one
backward merge when the previous block is free). -/
def coalesceAt (blocks : List HeapBlock) (i : Nat) : List HeapBlock :=
  match blocks.get? i with
  | none => blocks
  | some b =>
      let (b', tail') := coalesceForward b (blocks.drop (i + 1))
      let front := blocks.take i
      match front.getLast? with
      | some p =>
          if p.free then
            front.dropLast ++
              [{ p with size := p.size + HEAP_HEADER_SIZE + b'.size }] ++ tail'
          else front ++ [b'] ++ tail'
      | none => [b'] ++ tail'

/-- `kfree(ptr)`: `isNull` models `ptr == NULL`; otherwise `i` indexes the
block whose payload `ptr` points into.  Validation failures print a message
and return with the heap unchanged; on success the block is marked free and
coalesced. -/
def kfree (blocks : List HeapBlock) (isNull : Bool) (i : Nat) :
    KfreeOutcome × List HeapBlock :=
  if isNull then (.nullPtr, blocks)
  else
    match blocks.get? i with
    | none => (.badMagic, blocks)
    | some b =>
        if b.magic ≠ HEAP_BLOCK_MAGIC then (.badMagic, blocks)
        else if b.free then (.doubleFree, blocks)
        else
          (.freed, coalesceAt (blocks.set i { b with free := true }) i)

/-! ## User-pointer validation and syscall argument checks
(src/mm/vmm.c lines 505-525, src/kernel/sys/syscalls.c) -/

/-- `vmm_is_user_ptr(ptr)`: `(u64)ptr < USER_SPACE_END`. -/
def vmm_is_user_ptr (ptr : Nat) : Bool := ptr < USER_SPACE_END

/-- `vmm_is_user_range(ptr, size)`: computes `end = start + size` in u64
arithmetic, rejects wraparound (`end < start`), and requires
`end ≤ USER_SPACE_END`. -/
def vmm_is_user_range (ptr size : Nat) : Bool :=
  let start := ptr
  let e := (start + size) % 2 ^ 64
  if e < start then false
  else e ≤ USER_SPACE_END

/-- Result of the argument-validation prefix of a syscall handler: the
handler either returns `-EFAULT`, returns `-EINVAL`, returns 0
immediately (`count == 0`), or goes on to its body. -/
inductive GateOutcome where
  | efault
  | einval
  | zeroEarly
  | proceeds
deriving Repr, DecidableEq

/-- Validation prefix of `sys_read` (syscalls.c lines 44-49): NULL check,
`vmm_is_user_range(buf, count)` check, `count == 0` early return. -/
def sys_read_gate (buf count : Nat) : GateOutcome :=
  if buf = 0 then .efault
  else if ! vmm_is_user_range buf count then .efault
  else if count = 0 then .zeroEarly
  else .proceeds

/-- Validation prefix of `sys_write` (syscalls.c lines 87-92): identical
shape to `sys_read`. -/
def sys_write_gate (buf count : Nat) : GateOutcome :=
  if buf = 0 then .efault
  else if ! vmm_is_user_range buf count then .efault
  else if count = 0 then .zeroEarly
  else .proceeds

/-- Validation prefix of `sys_getdents` (syscalls.c lines 910-923): NULL
check, `vmm_is_user_range(dirp, count)` check, then the `count < 32`
`-EINVAL` rejection. -/
def sys_getdents_gate (dirp count : Nat) : GateOutcome :=
  if dirp = 0 then .efault
  else if ! vmm_is_user_range dirp count then .efault
  else if count < 32 then .einval
  else .proceeds

/-- Validation prefix of `sys_getcwd` (syscalls.c lines 938-956): NULL
check, the `size == 0` `-EINVAL` rejection, then the
`vmm_is_user_range(buf, size)` check. -/
def sys_getcwd_gate (buf size : Nat) : GateOutcome :=
  if buf = 0 then .efault
  else if size = 0 then .einval
  else if ! vmm_is_user_range buf size then .efault
  else .proceeds

/-- `sizeof(struct linux_stat)` in syscalls.c (18 u64-sized slots after
packing: 144 bytes). -/
def LINUX_STAT_SIZE : Nat := 144

/-- `sys_stat(path, statbuf)` (syscalls.c lines 198-225).  `vfsOk` abstracts
the result of `vfs_stat`; the returned Bool records whether the handler
stored through `statbuf` (the `kzero`/field writes).  The only pointer
validation performed is the NULL test `!path || !statbuf`. -/
def sys_stat (vfsOk : Bool) (path statbuf : Nat) : Int × Bool :=
  if path = 0 ∨ statbuf = 0 then (-EFAULT, false)
  else if ! vfsOk then (-ENOENT, false)
  else (0, true)

/-! ## Pipes (src/kernel/sys/syscalls.c lines 454-639) -/

/-- `PIPE_BUF_SIZE`. -/
def PIPE_BUF_SIZE : Nat := 4096

/-- `MAX_PIPES`. -/
def MAX_PIPES : Nat := 16

/-- One `pipe_t` slot: ring buffer (indexed modulo `PIPE_BUF_SIZE`),
read/write positions, byte count, the two descriptor numbers and the
open flags of each end. -/
structure PipeSlot where
  buffer : Nat → Nat
  read_pos : Nat
  write_pos : Nat
  count : Nat
  read_fd : Nat
  write_fd : Nat
  read_open : Bool
  write_open : Bool

/-- `find_pipe_by_fd(fd, &is_read)`: scan the pipe table; per slot the read
end is checked before the write end.  Returns the slot index and the
`is_read` flag. -/
def find_pipe_by_fd (pipes : List PipeSlot) (fd : Nat) : Option (Nat × Bool) :=
  (go pipes 0)
where
  go : List PipeSlot → Nat → Option (Nat × Bool)
    | [], _ => none
    | p :: ps, i =>
        if p.read_open ∧ p.read_fd = fd then some (i, true)
        else if p.write_open ∧ p.write_fd = fd then some (i, false)
        else go ps (i + 1)

/-- Result of `pipe_read`/`pipe_write`.  `blocked` stands for the C busy-wait
loop (`while(...) pause;`), which this single-step embedding does not
execute. -/
inductive PipeIoResult where
  | notPipe
  | ebadf
  | epipe
  | eofZero
  | blocked
  | transferred (bytes : List Nat)
deriving Repr, DecidableEq

/-- The byte-copy loop of `pipe_read`: `to_read` bytes starting at
`read_pos`, advancing modulo `PIPE_BUF_SIZE`.  Returns the bytes and the
final read position. -/
def pipeCopyOut (buf : Nat → Nat) : Nat → Nat → List Nat × Nat
  | rp, 0 => ([], rp)
  | rp, n + 1 =>
      let b := buf rp
      let (rest, rp') := pipeCopyOut buf ((rp + 1) % PIPE_BUF_SIZE) n
      (b :: rest, rp')

/-- `pipe_read(fd, buf, count)` (syscalls.c lines 570-593).  Returns the
outcome and the updated pipe table. -/
def pipe_read (pipes : List PipeSlot) (fd : Nat) (cnt : Nat) :
    PipeIoResult × List PipeSlot :=
  match find_pipe_by_fd pipes fd with
  | none => (.notPipe, pipes)
  | some (i, is_read) =>
      if ! is_read then (.notPipe, pipes)
      else
        match pipes.get? i with
        | none => (.notPipe, pipes)
        | some p =>
            if ! p.read_open then (.ebadf, pipes)
            else if p.count = 0 ∧ ! p.write_open then (.eofZero, pipes)
            else if p.count = 0 ∧ p.write_open then (.blocked, pipes)
            else
              let to_read := if cnt > p.count then p.count else cnt
              let (bytes, rp') := pipeCopyOut p.buffer p.read_pos to_read
              (.transferred bytes,
                pipes.set i { p with read_pos := rp',
                                     count := p.count - to_read })

/-- The byte-copy loop of `pipe_write`: stores `src` starting at
`write_pos`, advancing modulo `PIPE_BUF_SIZE`. -/
def pipeCopyIn (buf : Nat → Nat) : Nat → List Nat → (Nat → Nat) × Nat
  | wp, [] => (buf, wp)
  | wp, b :: rest =>
      pipeCopyIn (fun j => if j = wp then b else buf j)
        ((wp + 1) % PIPE_BUF_SIZE) rest

/-- `pipe_write(fd, buf, count)` (syscalls.c lines 595-620), writing the
byte list `src`. -/
def pipe_write (pipes : List PipeSlot) (fd : Nat) (src : List Nat) :
    PipeIoResult × List PipeSlot :=
  match find_pipe_by_fd pipes fd with
  | none => (.notPipe, pipes)
  | some (i, is_read) =>
      if is_read then (.notPipe, pipes)
      else
        match pipes.get? i with
        | none => (.notPipe, pipes)
        | some p =>
            if ! p.write_open then (.ebadf, pipes)
            else if ! p.read_open then (.epipe, pipes)
            else if p.count ≥ PIPE_BUF_SIZE ∧ p.read_open then (.blocked, pipes)
            else
              let space := PIPE_BUF_SIZE - p.count
              let to_write := if src.length > space then space else src.length
              let (buf', wp') := pipeCopyIn p.buffer p.write_pos (src.take to_write)
              (.transferred (src.take to_write),
                pipes.set i { p with buffer := buf', write_pos := wp',
                                     count := p.count + to_write })

/-- The in-use test of the fd-allocation loop in `sys_pipe`: some pipe slot
already owns `fd` as an open read or write end. -/
def pipeFdInUse (pipes : List PipeSlot) (fd : Nat) : Bool :=
  pipes.any (fun q => (q.read_open && q.read_fd == fd) ||
    (q.write_open && q.write_fd == fd))

/-- The fd-selection loop of `sys_pipe` (syscalls.c lines 538-556): scan
fds 100..199 and keep the first two that are not in use. -/
def pickPipeFds (pipes : List PipeSlot) : List Nat → Option Nat → Option (Nat × Nat)
  | [], _ => none
  | fd :: rest, acc =>
      if pipeFdInUse pipes fd then pickPipeFds pipes rest acc
      else
        match acc with
        | none => pickPipeFds pipes rest (some fd)
        | some r => some (r, fd)

/-- The candidate descriptor numbers of `sys_pipe`: `for(fd = 100; fd < 200;
fd++)`. -/
def pipeFdCandidates : List Nat := (List.range 100).map (fun k => 100 + k)

/-- `sys_pipe` fd selection: returns the `(read_fd, write_fd)` pair stored
into the user array, or `-EMFILE` when fewer than two free fds exist. -/
def sys_pipe_fds (pipes : List PipeSlot) : Option (Nat × Nat) :=
  pickPipeFds pipes pipeFdCandidates none

/-- `pipe_close(fd)` (syscalls.c lines 628-639): close one end; `-ENOENT`
(modelled as `none`) when `fd` is not a pipe fd. -/
def pipe_close (pipes : List PipeSlot) (fd : Nat) : Option (List PipeSlot) :=
  match find_pipe_by_fd pipes fd with
  | none => none
  | some (i, is_read) =>
      match pipes.get? i with
      | none => none
      | some p =>
          if is_read then some (pipes.set i { p with read_open := false })
          else some (pipes.set i { p with write_open := false })

/-! ## VFS descriptor allocation (src/fs/vfs.c) -/

/-- `VFS_MAX_FD` from include/alcor2/vfs.h. -/
def VFS_MAX_FD : Nat := 32

/-- The descriptor-allocation loop of `vfs_open`:
`for(i64 i = 3; i < VFS_MAX_FD; i++) if(!fd_table[i].in_use) ...` —
the first unused index at or above 3. -/
def vfsAllocFd (in_use : Nat → Bool) : Option Nat :=
  ((List.range VFS_MAX_FD).drop 3).find? (fun i => ! in_use i)

/-! ## sys_close (src/kernel/sys/syscalls.c lines 146-163) -/

/-- `sys_close(fd)`: returns the syscall result together with the pipe table
and the VFS fd-table in-use map after the call.  Descriptors 0-2 return 0
immediately, before the pipe lookup and before `vfs_close`. -/
def sys_close (pipes : List PipeSlot) (vfs_in_use : Nat → Bool) (fd : Nat) :
    Int × List PipeSlot × (Nat → Bool) :=
  if fd ≤ 2 then (0, pipes, vfs_in_use)
  else
    match pipe_close pipes fd with
    | some pipes' => (0, pipes', vfs_in_use)
    | none =>
        if fd < VFS_MAX_FD ∧ vfs_in_use fd then
          (0, pipes, fun i => if i = fd then false else vfs_in_use i)
        else (-EBADF, pipes, vfs_in_use)

/-! ## Fork (src/kernel/process/proc.c lines 580-712) -/

/-- The saved syscall register frame (`syscall_frame_t`,
include/alcor2/syscall.h). -/
structure SyscallFrame where
  r15 : Nat
  r14 : Nat
  r13 : Nat
  r12 : Nat
  r11 : Nat
  r10 : Nat
  r9 : Nat
  r8 : Nat
  rbp : Nat
  rdi : Nat
  rsi : Nat
  rdx : Nat
  rcx : Nat
  rbx : Nat
  rax : Nat
  rip : Nat
  rflags : Nat
  rsp : Nat
deriving Repr, DecidableEq

/-- Process states (include/alcor2/proc.h). -/
inductive ProcState where
  | free
  | ready
  | running
  | blocked
  | zombie
deriving Repr, DecidableEq

/-- The slice of the child `proc_t` that `proc_fork` fills in, plus the
syscall frame it builds on the child's kernel stack. -/
structure ForkChild where
  pid : Nat
  parent_pid : Nat
  state : ProcState
  user_rip : Nat
  user_rsp : Nat
  user_rflags : Nat
  frame : SyscallFrame
deriving Repr, DecidableEq

/-- `proc_fork(frame)` (proc.c lines 580-712).  `slotAvail`, `cloneOk` and
`stackOk` abstract the success of `proc_alloc`, `vmm_clone_address_space`
and `kmalloc(PROC_KERNEL_STACK)`; `nextPid` is the value of the `next_pid`
counter.  On success the parent's return value is the child PID; the frame
copied onto the child kernel stack is the parent's frame with `rax`
zeroed. -/
def proc_fork (frame : SyscallFrame) (parentPid nextPid : Nat)
    (slotAvail cloneOk stackOk : Bool) : Int × Option ForkChild :=
  if ! slotAvail then (-ENOMEM, none)
  else if ! cloneOk then (-ENOMEM, none)
  else if ! stackOk then (-ENOMEM, none)
  else
    let child : ForkChild :=
      { pid := nextPid
        parent_pid := parentPid
        state := .ready
        user_rip := frame.rip
        user_rsp := frame.rsp
        user_rflags := frame.rflags
        frame := { frame with rax := 0 } }
    ((nextPid : Int), some child)

/-! ## ext2 block mapping and read path (src/fs/ext2.c)

The volume's disk is abstracted by two total read functions: `readPtr b i`
is the 32-bit pointer at index `i` of block `b` (`vol_read_block` followed
by a u32 index), and `readByte b o` is byte `o` of block `b`.  The
kmalloc and device failure early-returns of the C (which yield 0 or the
input-output errno) are not
modelled: reads are total. -/

/-- `EXT2_NDIR_BLOCKS` (include/alcor2/ext2.h). -/
def EXT2_NDIR_BLOCKS : Nat := 12

/-- `EXT2_IND_BLOCK`. -/
def EXT2_IND_BLOCK : Nat := 12

/-- `EXT2_DIND_BLOCK`. -/
def EXT2_DIND_BLOCK : Nat := 13

/-- `EXT2_TIND_BLOCK`. -/
def EXT2_TIND_BLOCK : Nat := 14

/-- `get_block_num(vol, inode, file_block)` (ext2.c lines 589-709).
`P = vol->block_size / 4` is passed as `P`; `iblock` is the inode's
`i_block` array (15 slots); `readPtr` reads a pointer out of an on-disk
indirect block.  Mirrors the source: subtract 12, then `P`, then `P * P`,
testing each level's range, returning 0 whenever a pointer on the path is
zero. -/
def get_block_num (P : Nat) (iblock : Nat → Nat) (readPtr : Nat → Nat → Nat)
    (file_block : Nat) : Nat :=
  if file_block < EXT2_NDIR_BLOCKS then iblock file_block
  else
    let fb1 := file_block - EXT2_NDIR_BLOCKS
    if fb1 < P then
      if iblock EXT2_IND_BLOCK = 0 then 0
      else readPtr (iblock EXT2_IND_BLOCK) fb1
    else
      let fb2 := fb1 - P
      if fb2 < P * P then
        if iblock EXT2_DIND_BLOCK = 0 then 0
        else
          let ind_block_num := readPtr (iblock EXT2_DIND_BLOCK) (fb2 / P)
          if ind_block_num = 0 then 0
          else readPtr ind_block_num (fb2 % P)
      else
        let fb3 := fb2 - P * P
        if iblock EXT2_TIND_BLOCK = 0 then 0
        else
          let dind_block_num := readPtr (iblock EXT2_TIND_BLOCK) (fb3 / (P * P))
          if dind_block_num = 0 then 0
          else
            let remaining := fb3 % (P * P)
            let ind_block_num := readPtr dind_block_num (remaining / P)
            if ind_block_num = 0 then 0
            else readPtr ind_block_num (remaining % P)

/-- The copy loop of `ext2_read` (ext2.c lines 1743-1771), producing the
bytes delivered to the caller.  `blkOf` is
`get_block_num` applied to the file's inode; a zero block number produces
`kzero`-filled output for the rest of that file block (the sparse case).
The loop runs until `remaining` bytes are produced; each iteration reads at
most to the end of the current file block.  (If `block_size = 0` the C loop
would not terminate; the embedding stops, which is unreachable on a mounted
volume.) -/
def ext2ReadLoop (block_size : Nat) (blkOf : Nat → Nat)
    (readByte : Nat → Nat → Nat) (pos remaining : Nat) : List Nat :=
  if h : remaining = 0 ∨ block_size = 0 then []
  else
    let file_block := pos / block_size
    let block_offset := pos % block_size
    let block_num := blkOf file_block
    let to_read := min (block_size - block_offset) remaining
    have hbs : 0 < block_size := by
      rcases Nat.eq_zero_or_pos block_size with h0 | h0
      · exact absurd (Or.inr h0) h
      · exact h0
    have hrem : 0 < remaining := by
      rcases Nat.eq_zero_or_pos remaining with h0 | h0
      · exact absurd (Or.inl h0) h
      · exact h0
    have hto : 0 < to_read := by
      refine lt_min ?_ hrem
      exact Nat.sub_pos_of_lt (Nat.mod_lt _ hbs)
    have : remaining - to_read < remaining := Nat.sub_lt hrem hto
    (if block_num = 0 then List.replicate to_read 0
     else (List.range to_read).map (fun i => readByte block_num (block_offset + i)))
      ++ ext2ReadLoop block_size blkOf readByte (pos + to_read) (remaining - to_read)
termination_by remaining

/-- `ext2_read(file, buf, count)` (ext2.c lines 1723-1775): `none` models
the `-EINVAL` rejection of a closed handle or a directory; otherwise the
count is clamped to the file size and the copy loop runs from the current
position. -/
def ext2_read (block_size i_size : Nat) (in_use is_dir : Bool)
    (blkOf : Nat → Nat) (readByte : Nat → Nat → Nat) (position count : Nat) :
    Option (List Nat) :=
  if ! in_use ∨ is_dir then none
  else if i_size ≤ position then some []
  else
    let count' := if i_size < position + count then i_size - position else count
    some (ext2ReadLoop block_size blkOf readByte position count')

/-! ## Virtual memory manager (src/mm/vmm.c)

Physical memory is modelled as `tab : Nat → Nat → Nat`: `tab f i` is the
64-bit word at index `i` (0..511) of the physical frame whose address is
`f`.  A page used as a page table is read through the same function.  The
PMM is abstracted by `supply`, the list of frame addresses that successive
`pmm_alloc` calls will return (`[]` = allocation failure). -/

/-- Machine state seen by the VMM: frame contents plus the allocator
supply. -/
structure VmmSt where
  tab : Nat → Nat → Nat
  supply : List Nat

/-- `VMM_PRESENT` (bit 0) test on a page-table entry. -/
def entPresent (e : Nat) : Bool := e.testBit 0

/-- `entry & PAGE_FRAME_MASK`. -/
def frameOf (e : Nat) : Nat := e &&& PAGE_FRAME_MASK

/-- Store value `v` at word `idx` of frame `f`. -/
def writeEnt (σ : VmmSt) (f idx v : Nat) : VmmSt :=
  { σ with tab := fun g j => if g = f ∧ j = idx then v else σ.tab g j }

/-- Replace the whole contents (512 words) of frame `f` by `t`. -/
def setFrame (σ : VmmSt) (f : Nat) (t : Nat → Nat) : VmmSt :=
  { σ with tab := fun g j => if g = f ∧ j < 512 then t j else σ.tab g j }

/-- `pmm_alloc` as seen by the VMM: pop the next frame from the supply. -/
def vAlloc (σ : VmmSt) : Option (Nat × VmmSt) :=
  match σ.supply with
  | [] => none
  | f :: rest => some (f, { σ with supply := rest })

/-- `get_next_level(table, index, create, flags)` (vmm.c lines 24-51).
Returns the next-level table frame (or `none`) and the updated state: an
existing entry may get its USER bit upgraded; a missing entry may be
created from a freshly allocated, zeroed frame with
`PRESENT|WRITE[|USER]`. -/
def get_next_level (σ : VmmSt) (tableF idx : Nat) (create : Bool)
    (flags : Nat) : Option Nat × VmmSt :=
  let e := σ.tab tableF idx
  if entPresent e then
    let σ' := if flags.testBit 2 && ! e.testBit 2 then
                writeEnt σ tableF idx (e ||| 4)
              else σ
    (some (frameOf e), σ')
  else if ! create then (none, σ)
  else
    match σ.supply with
    | [] => (none, σ)
    | f :: rest =>
        let σ1 := setFrame { σ with supply := rest } f (fun _ => 0)
        let entry_flags := (1 ||| 2) ||| (if flags.testBit 2 then 4 else 0)
        (some f, writeEnt σ1 tableF idx (f ||| entry_flags))

/-- `vmm_map_in(pml4_phys, virt, phys, flags)` (vmm.c lines 298-320): walk
three levels creating tables as needed, then install the leaf.  On an
allocation failure the partial state is returned (the C returns after the
mutations already made). -/
def vmm_map_in (σ : VmmSt) (pml4_phys virt phys flags : Nat) : VmmSt :=
  let pml4_idx := (virt >>> 39) &&& 0x1FF
  let pdpt_idx := (virt >>> 30) &&& 0x1FF
  let pd_idx := (virt >>> 21) &&& 0x1FF
  let pt_idx := (virt >>> 12) &&& 0x1FF
  match get_next_level σ pml4_phys pml4_idx true flags with
  | (none, σ1) => σ1
  | (some pdpt, σ1) =>
      match get_next_level σ1 pdpt pdpt_idx true flags with
      | (none, σ2) => σ2
      | (some pd, σ2) =>
          match get_next_level σ2 pd pd_idx true flags with
          | (none, σ3) => σ3
          | (some pt, σ3) =>
              writeEnt σ3 pt pt_idx ((phys &&& PAGE_FRAME_MASK) ||| flags ||| 1)

/-- `vmm_create_address_space()` (vmm.c lines 267-285): allocate a frame,
zero its user entries 0-255, copy kernel entries 256-511 from the kernel
PML4 (`kpml4`). -/
def vmm_create_address_space (kpml4 : Nat) (σ : VmmSt) :
    Option Nat × VmmSt :=
  match vAlloc σ with
  | none => (none, σ)
  | some (f, σ1) =>
      let σ2 : VmmSt :=
        { σ1 with tab := fun g i => if g = f ∧ i < 256 then 0 else σ1.tab g i }
      let σ3 : VmmSt :=
        { σ2 with tab := fun g i =>
            if g = f ∧ 256 ≤ i ∧ i < 512 then σ2.tab kpml4 i else σ2.tab g i }
      (some f, σ3)

/-- The `pt_idx` loop body of `vmm_clone_address_space` (vmm.c lines
413-438): for a present source leaf, allocate a destination frame, copy the
page contents (`kmemcpy` of `PAGE_SIZE` bytes through HHDM) and map it at
the recomposed virtual address.  `Sum.inl` is the aborted state after an
allocation failure (`return 0`). -/
def clonePtStep (src_pt dst i j k : Nat) (acc : VmmSt ⊕ VmmSt) (l : Nat) :
    VmmSt ⊕ VmmSt :=
  match acc with
  | .inl σ => .inl σ
  | .inr σ =>
      let e := σ.tab src_pt l
      if ! entPresent e then .inr σ
      else
        let src_phys := frameOf e
        let flags := e &&& PAGE_OFFSET_MASK
        let virt := (i <<< 39) ||| (j <<< 30) ||| (k <<< 21) ||| (l <<< 12)
        match vAlloc σ with
        | none => .inl σ
        | some (dst_page, σ1) =>
            let σ2 := setFrame σ1 dst_page (σ1.tab src_phys)
            .inr (vmm_map_in σ2 dst virt dst_page flags)

/-- The `pd_idx` loop of `vmm_clone_address_space`. -/
def clonePdStep (src_pd dst i j : Nat) (acc : VmmSt ⊕ VmmSt) (k : Nat) :
    VmmSt ⊕ VmmSt :=
  match acc with
  | .inl σ => .inl σ
  | .inr σ =>
      let e := σ.tab src_pd k
      if ! entPresent e then .inr σ
      else
        (List.range 512).foldl (clonePtStep (frameOf e) dst i j k) (.inr σ)

/-- The `pdpt_idx` loop of `vmm_clone_address_space`. -/
def clonePdptStep (src_pdpt dst i : Nat) (acc : VmmSt ⊕ VmmSt) (j : Nat) :
    VmmSt ⊕ VmmSt :=
  match acc with
  | .inl σ => .inl σ
  | .inr σ =>
      let e := σ.tab src_pdpt j
      if ! entPresent e then .inr σ
      else
        (List.range 512).foldl (clonePdStep (frameOf e) dst i j) (.inr σ)

/-- The `pml4_idx` loop of `vmm_clone_address_space` (user entries 0-255
only). -/
def cloneTopStep (src dst : Nat) (acc : VmmSt ⊕ VmmSt) (i : Nat) :
    VmmSt ⊕ VmmSt :=
  match acc with
  | .inl σ => .inl σ
  | .inr σ =>
      let e := σ.tab src i
      if ! entPresent e then .inr σ
      else
        (List.range 512).foldl (clonePdptStep (frameOf e) dst i) (.inr σ)

/-- `vmm_clone_address_space(src_pml4_phys)` (vmm.c lines 382-444). -/
def vmm_clone_address_space (kpml4 : Nat) (σ : VmmSt) (src : Nat) :
    Option Nat × VmmSt :=
  match vmm_create_address_space kpml4 σ with
  | (none, σ') => (none, σ')
  | (some dst, σ0) =>
      match (List.range 256).foldl (cloneTopStep src dst) (.inr σ0) with
      | .inl σ' => (none, σ')
      | .inr σ' => (some dst, σ')

/-- `vmm_destroy_user_mappings(pml4_phys)` (vmm.c lines 455-498) as the
sequence of frame addresses passed to `pmm_free`, in call order: the walk
reads the tables only, so the freed list is a pure function of the initial
state.  Low-half entries 0-255 of the root are followed; per present chain
the leaf frames are freed, then the page table, then the directory, then
the PDPT, and finally the root frame itself. -/
def vmm_destroy_user_mappings (t : Nat → Nat → Nat) (pml4_phys : Nat) :
    List Nat :=
  ((List.range 256).flatMap (fun i =>
    let e1 := t pml4_phys i
    if ! entPresent e1 then []
    else
      ((List.range 512).flatMap (fun j =>
        let e2 := t (frameOf e1) j
        if ! entPresent e2 then []
        else
          ((List.range 512).flatMap (fun k =>
            let e3 := t (frameOf e2) k
            if ! entPresent e3 then []
            else
              ((List.range 512).flatMap (fun l =>
                let e4 := t (frameOf e3) l
                if ! entPresent e4 then [] else [frameOf e4]))
                ++ [frameOf e3]))
            ++ [frameOf e2]))
        ++ [frameOf e1]))
    ++ [pml4_phys]

/-- One page-table edge: some index `i < 512` of frame `a` holds a present
entry whose frame field is `b`. -/
def ChildIdx (t : Nat → Nat → Nat) (a b : Nat) : Prop :=
  ∃ i, i < 512 ∧ entPresent (t a i) ∧ frameOf (t a i) = b

/-- Same, restricted to the user half of a PML4 (indices 0-255). -/
def ChildIdxLow (t : Nat → Nat → Nat) (a b : Nat) : Prop :=
  ∃ i, i < 256 ∧ entPresent (t a i) ∧ frameOf (t a i) = b

/-- A frame reachable from `root` by a chain of 1 to 3 page-table edges
(i.e. any table frame a 4-level walk can visit below the root). -/
def ReachUpTo3 (t : Nat → Nat → Nat) (root f : Nat) : Prop :=
  ChildIdx t root f ∨
  (∃ m, ChildIdx t root m ∧ ChildIdx t m f) ∨
  (∃ m n, ChildIdx t root m ∧ ChildIdx t m n ∧ ChildIdx t n f)

/-- A frame reachable from `root` through a low-half first edge by a chain
of 1 to 4 edges: the table pages (depths 1-3) and the mapped leaf frames
(depth 4) of the user half. -/
def LowReachable (t : Nat → Nat → Nat) (root f : Nat) : Prop :=
  ChildIdxLow t root f ∨
  (∃ m, ChildIdxLow t root m ∧ ChildIdx t m f) ∨
  (∃ m n, ChildIdxLow t root m ∧ ChildIdx t m n ∧ ChildIdx t n f) ∨
  (∃ m n o, ChildIdxLow t root m ∧ ChildIdx t m n ∧ ChildIdx t n o ∧
    ChildIdx t o f)

/-- Well-formedness of the allocation supply relative to the kernel PML4:
no duplicates, the kernel PML4 frame is not handed out, and every supplied
frame address is page-table clean (fixed by `PAGE_FRAME_MASK`). -/
def GoodSupply (kpml4 : Nat) (l : List Nat) : Prop :=
  l.Nodup ∧ kpml4 ∉ l ∧ ∀ f ∈ l, f &&& PAGE_FRAME_MASK = f

/-! ## ext2 directories, unlink and rmdir (src/fs/ext2.c)

A directory data block is embedded as the chain of variable-length records
(`ext2_dirent_t`) that the C walks via `rec_len`: record `n + 1` starts
`rec_len n` bytes after record `n`.  Every C loop over a directory block
only moves through this chain (breaking on `rec_len == 0` and at
`block_size`), so the record list together with the running byte offset is
an exact image of the block.  Record names are embedded as `String`
(byte-wise comparison of `name_len` bytes in the C). -/

/-- `EXT2_S_IFMT` / `EXT2_S_IFDIR` / `EXT2_S_IFREG`
(include/alcor2/ext2.h). -/
def EXT2_S_IFMT : Nat := 0xF000
def EXT2_S_IFDIR : Nat := 0x4000
def EXT2_S_IFREG : Nat := 0x8000

/-- `EXT2_ROOT_INODE`. -/
def EXT2_ROOT_INODE : Nat := 2

/-- One on-disk directory record (`ext2_dirent_t`). -/
structure Dirent where
  inode : Nat
  rec_len : Nat
  name_len : Nat
  file_type : Nat
  name : String
deriving Repr, DecidableEq

/-- The match test used by `dir_find_entry` and `dir_remove_entry`:
live record (`de->inode != 0`), equal `name_len`, equal name bytes. -/
def entMatches (de : Dirent) (nm : String) : Bool :=
  de.inode != 0 && de.name_len == nm.length && de.name == nm

/-- In-block scan of `dir_find_entry` (ext2.c lines 1147-1171): walk the
record chain from byte offset `off`, stopping at `block_size` or a zero
`rec_len`; return `(inode, file_type)` of the first match. -/
def findInBlock (bs : Nat) (nm : String) : Nat → List Dirent → Option (Nat × Nat)
  | _, [] => none
  | off, de :: rest =>
      if bs ≤ off then none
      else if de.rec_len = 0 then none
      else if entMatches de nm then some (de.inode, de.file_type)
      else findInBlock bs nm (off + de.rec_len) rest

/-- Tail of the in-block scan of `dir_remove_entry` once a previous record
`prev` exists: a match is absorbed into `prev` (`prev->rec_len +=
de->rec_len`, dropping `de` from the chain); otherwise `de` becomes the new
previous record. -/
def removeTail (bs : Nat) (nm : String) (prev : Dirent) :
    Nat → List Dirent → Option (Dirent × List Dirent)
  | _, [] => none
  | off, de :: rest =>
      if bs ≤ off then none
      else if de.rec_len = 0 then none
      else if entMatches de nm then
        some ({ prev with rec_len := prev.rec_len + de.rec_len }, rest)
      else
        (removeTail bs nm de (off + de.rec_len) rest).map
          (fun pr => (prev, pr.1 :: pr.2))

/-- In-block removal of `dir_remove_entry` (ext2.c lines 1320-1357): the
first record of a block has no previous record, so a match there is
deleted in place by zeroing its inode number. -/
def removeInBlock (bs : Nat) (nm : String) : List Dirent → Option (List Dirent)
  | [] => none
  | de :: rest =>
      if bs ≤ (0 : Nat) then none
      else if de.rec_len = 0 then none
      else if entMatches de nm then some ({ de with inode := 0 } :: rest)
      else
        (removeTail bs nm de (0 + de.rec_len) rest).map
          (fun pr => pr.1 :: pr.2)

/-- In-block live-entry count of `dir_is_empty` (ext2.c lines 1398-1414):
records with a nonzero inode and a name other than `.` and `..`. -/
def countInBlock (bs : Nat) : Nat → List Dirent → Nat
  | _, [] => 0
  | off, de :: rest =>
      if bs ≤ off then 0
      else if de.rec_len = 0 then 0
      else
        (if de.inode ≠ 0 ∧
            ¬ (de.name_len = 1 ∧ de.name = ".") ∧
            ¬ (de.name_len = 2 ∧ de.name = "..") then 1 else 0) +
          countInBlock bs (off + de.rec_len) rest

/-- Cached inode fields used by the directory paths (`ext2_inode_t`). -/
structure Ext2Inode where
  i_mode : Nat
  i_size : Nat
  i_links_count : Nat
  i_blocks : Nat
  i_block : Nat → Nat

/-- In-memory view of a mounted volume and its disk, for the directory
operations: block size, the inode table (`read_inode`/`write_inode`), the
directory-record view and the indirect-pointer view of the data blocks,
and the accumulated `free_block`/`free_inode` calls (the bitmap-allocator
effects the claims are about). -/
structure Ext2State where
  block_size : Nat
  inodes : Nat → Ext2Inode
  dirData : Nat → List Dirent
  readPtr : Nat → Nat → Nat
  freedBlocks : List Nat
  freedInodes : List Nat

/-- The file-block indices a directory walk visits:
`offset = 0, bs, 2*bs, ...` while `offset < dir_size`. -/
def dirBlocksIdx (bs dir_size : Nat) : List Nat :=
  List.range ((dir_size + bs - 1) / bs)

/-- Block loop of `dir_find_entry` (ext2.c lines 1119-1178): per file block
resolve the block number (`get_block_num`), skip holes, scan the block. -/
def dirFindGo (st : Ext2State) (di : Ext2Inode) (nm : String) :
    List Nat → Option (Nat × Nat)
  | [] => none
  | fb :: fbs =>
      let bn := get_block_num (st.block_size / 4) di.i_block st.readPtr fb
      if bn = 0 then dirFindGo st di nm fbs
      else
        match findInBlock st.block_size nm 0 (st.dirData bn) with
        | some r => some r
        | none => dirFindGo st di nm fbs

/-- `dir_find_entry(vol, dir_inode, name, ...)`. -/
def dir_find_entry (st : Ext2State) (di : Ext2Inode) (nm : String) :
    Option (Nat × Nat) :=
  dirFindGo st di nm (dirBlocksIdx st.block_size di.i_size)

/-- Block loop of `dir_remove_entry` (ext2.c lines 1293-1364): the first
block containing a match is rewritten (`vol_write_block`); `none` is the
not-found (`-ENOENT`) case. -/
def dirRemoveGo (st : Ext2State) (di : Ext2Inode) (nm : String) :
    List Nat → Option Ext2State
  | [] => none
  | fb :: fbs =>
      let bn := get_block_num (st.block_size / 4) di.i_block st.readPtr fb
      if bn = 0 then dirRemoveGo st di nm fbs
      else
        match removeInBlock st.block_size nm (st.dirData bn) with
        | some blk' =>
            some { st with dirData := fun b => if b = bn then blk' else st.dirData b }
        | none => dirRemoveGo st di nm fbs

/-- `dir_remove_entry(vol, dir_inode, name)`. -/
def dir_remove_entry (st : Ext2State) (di : Ext2Inode) (nm : String) :
    Option Ext2State :=
  dirRemoveGo st di nm (dirBlocksIdx st.block_size di.i_size)

/-- The total live-entry count of `dir_is_empty`. -/
def dirCountEntries (st : Ext2State) (di : Ext2Inode) : Nat :=
  (dirBlocksIdx st.block_size di.i_size).foldl
    (fun acc fb =>
      let bn := get_block_num (st.block_size / 4) di.i_block st.readPtr fb
      if bn = 0 then acc else acc + countInBlock st.block_size 0 (st.dirData bn))
    0

/-- `dir_is_empty(vol, dir_inode)`: true iff only `.` and `..` remain. -/
def dir_is_empty (st : Ext2State) (di : Ext2Inode) : Bool :=
  dirCountEntries st di == 0

/-- Number of records matching `nm` in the walked portion of a block
chain (same guards as the directory scans). -/
def matchCountInBlock (bs : Nat) (nm : String) : Nat → List Dirent → Nat
  | _, [] => 0
  | off, de :: rest =>
      if bs ≤ off then 0
      else if de.rec_len = 0 then 0
      else (if entMatches de nm then 1 else 0) +
        matchCountInBlock bs nm (off + de.rec_len) rest

/-- Number of matching records the directory walk can reach, per file
block. -/
def dirMatchGo (st : Ext2State) (di : Ext2Inode) (nm : String) :
    List Nat → Nat
  | [] => 0
  | fb :: fbs =>
      (if get_block_num (st.block_size / 4) di.i_block st.readPtr fb = 0
       then 0
       else matchCountInBlock st.block_size nm 0
         (st.dirData
           (get_block_num (st.block_size / 4) di.i_block st.readPtr fb))) +
        dirMatchGo st di nm fbs

/-- Number of records matching `nm` over the whole directory walk. -/
def dirMatchCount (st : Ext2State) (di : Ext2Inode) (nm : String) : Nat :=
  dirMatchGo st di nm (dirBlocksIdx st.block_size di.i_size)

/-- (Witness data) a tiny concrete volume: the root directory (inode 2,
block 5) holds a regular file `a` (inode 3, one hard link) and a
subdirectory `d` (inode 4, block 6) that itself contains a live entry
`x`. -/
def c8St : Ext2State :=
  { block_size := 16,
    inodes := fun n =>
      if n = 2 then ⟨0x4000, 16, 2, 0, fun i => if i = 0 then 5 else 0⟩
      else if n = 3 then ⟨0x8000, 0, 1, 0, fun _ => 0⟩
      else if n = 4 then ⟨0x4000, 16, 2, 0, fun i => if i = 0 then 6 else 0⟩
      else ⟨0, 0, 0, 0, fun _ => 0⟩,
    dirData := fun b =>
      if b = 5 then [⟨3, 8, 1, 1, "a"⟩, ⟨4, 8, 1, 2, "d"⟩]
      else if b = 6 then [⟨5, 16, 1, 1, "x"⟩]
      else [],
    readPtr := fun _ _ => 0,
    freedBlocks := [],
    freedInodes := [] }

/-- `resolve_path(vol, path, ...)` (ext2.c lines 1431-1488) over the list
of path components (the C's slash splitting is abstracted to the component
list; empty list = root).  Traversal requires each intermediate inode to be
a directory and looks each component up with `dir_find_entry`. -/
def resolvePathGo (st : Ext2State) : Nat → Ext2Inode → List String →
    Except Int (Nat × Ext2Inode)
  | ino, inode, [] => .ok (ino, inode)
  | _, inode, c :: cs =>
      if inode.i_mode &&& EXT2_S_IFMT ≠ EXT2_S_IFDIR then .error (-ENOTDIR)
      else
        match dir_find_entry st inode c with
        | none => .error (-ENOENT)
        | some (eino, _) => resolvePathGo st eino (st.inodes eino) cs

/-- `resolve_path` from the root inode. -/
def resolve_path (st : Ext2State) (comps : List String) :
    Except Int (Nat × Ext2Inode) :=
  resolvePathGo st EXT2_ROOT_INODE (st.inodes EXT2_ROOT_INODE) comps

/-- The nonzero children of one indirect block, in index order — the inner
free loops of `free_inode_blocks`. -/
def indChildren (P : Nat) (readPtr : Nat → Nat → Nat) (ind : Nat) : List Nat :=
  (List.range P).filterMap
    (fun i => if readPtr ind i = 0 then none else some (readPtr ind i))

/-- `free_inode_blocks(vol, inode)` (ext2.c lines 1011-1108) as the
sequence of block numbers passed to `free_block`, in call order: direct
blocks, then the single-indirect children followed by the indirect table,
then the double-indirect subtree, then the triple-indirect subtree.
(The C also zeroes the in-memory `i_block` array; its callers on the
free path never write that inode back, so only the freed blocks are
observable.) -/
def free_inode_blocks_list (P : Nat) (readPtr : Nat → Nat → Nat)
    (ib : Nat → Nat) : List Nat :=
  ((List.range EXT2_NDIR_BLOCKS).filterMap
    (fun i => if ib i = 0 then none else some (ib i))) ++
  (if ib EXT2_IND_BLOCK = 0 then []
   else indChildren P readPtr (ib EXT2_IND_BLOCK) ++ [ib EXT2_IND_BLOCK]) ++
  (if ib EXT2_DIND_BLOCK = 0 then []
   else
     ((List.range P).flatMap (fun i =>
       let d := readPtr (ib EXT2_DIND_BLOCK) i
       if d = 0 then [] else indChildren P readPtr d ++ [d])) ++
       [ib EXT2_DIND_BLOCK]) ++
  (if ib EXT2_TIND_BLOCK = 0 then []
   else
     ((List.range P).flatMap (fun t =>
       let dv := readPtr (ib EXT2_TIND_BLOCK) t
       if dv = 0 then []
       else
         ((List.range P).flatMap (fun d =>
           let iv := readPtr dv d
           if iv = 0 then [] else indChildren P readPtr iv ++ [iv])) ++ [dv])) ++
       [ib EXT2_TIND_BLOCK])

/-- `write_inode(vol, ino, inode)`: update the inode table. -/
def write_inode (st : Ext2State) (ino : Nat) (inode : Ext2Inode) : Ext2State :=
  { st with inodes := fun n => if n = ino then inode else st.inodes n }

/-- `ext2_unlink(vol, path)` (ext2.c lines 2307-2349) over path
components.  `path_split` becomes `dropLast`/`getLastD`.  The u16 link
count is decremented modulo 2^16 as in the C. -/
def ext2_unlink (st : Ext2State) (comps : List String) : Int × Ext2State :=
  match resolve_path st comps with
  | .error _ => (-ENOENT, st)
  | .ok (file_ino, file_inode) =>
      if file_inode.i_mode &&& EXT2_S_IFMT = EXT2_S_IFDIR then (-EISDIR, st)
      else
        match resolve_path st comps.dropLast with
        | .error _ => (-ENOENT, st)
        | .ok (_, parent_inode) =>
            match dir_remove_entry st parent_inode (comps.getLastD "") with
            | none => (- EIO, st)
            | some st1 =>
                let links' := (file_inode.i_links_count + 65535) % 65536
                if links' = 0 then
                  (0, { st1 with
                    freedBlocks := st1.freedBlocks ++
                      free_inode_blocks_list (st1.block_size / 4) st1.readPtr
                        file_inode.i_block,
                    freedInodes := st1.freedInodes ++ [file_ino] })
                else
                  (0, write_inode st1 file_ino
                    { file_inode with i_links_count := links' })

/-- `ext2_rmdir(vol, path)` (ext2.c lines 2358-2405) over path components
(the empty list is the root path `/`). -/
def ext2_rmdir (st : Ext2State) (comps : List String) : Int × Ext2State :=
  if comps = [] then (-EINVAL, st)
  else
    match resolve_path st comps with
    | .error _ => (-ENOENT, st)
    | .ok (dir_ino, dir_inode) =>
        if dir_inode.i_mode &&& EXT2_S_IFMT ≠ EXT2_S_IFDIR then (-ENOTDIR, st)
        else if ! dir_is_empty st dir_inode then (-ENOTEMPTY, st)
        else
          match resolve_path st comps.dropLast with
          | .error _ => (-ENOENT, st)
          | .ok (parent_ino, parent_inode) =>
              match dir_remove_entry st parent_inode (comps.getLastD "") with
              | none => (- EIO, st)
              | some st1 =>
                  let st2 := write_inode st1 parent_ino
                    { parent_inode with
                      i_links_count := (parent_inode.i_links_count + 65535) % 65536 }
                  (0, { st2 with
                    freedBlocks := st2.freedBlocks ++
                      free_inode_blocks_list (st2.block_size / 4) st2.readPtr
                        dir_inode.i_block,
                    freedInodes := st2.freedInodes ++ [dir_ino] })

/-! ## PMM call traces (for the conservation property) -/

/-- One PMM call. -/
inductive PmmOp where
  | alloc
  | allocN (n : Nat)
  | free (addr : Nat)
  | freeN (addr n : Nat)

/-- Execute one PMM call, also tracking `out`, the list of page numbers
allocated by the trace and not yet freed (newest first). -/
def pmmExec : PmmState × List Nat → PmmOp → PmmState × List Nat
  | (s, out), .alloc =>
      match pmm_alloc s with
      | none => (s, out)
      | some (addr, s') => (s', addr / PAGE_SIZE :: out)
  | (s, out), .allocN n =>
      match pmm_alloc_pages s n with
      | none => (s, out)
      | some (addr, s') =>
          (s', ((List.range n).map (fun i => addr / PAGE_SIZE + i)) ++ out)
  | (s, out), .free a => (pmm_free s a, out.erase (a / PAGE_SIZE))
  | (s, out), .freeN a n =>
      (pmm_free_pages s a n,
        (List.range n).foldl (fun o i => o.erase (a / PAGE_SIZE + i)) out)

/-- A balanced trace from `(s, out)`: every `free`/`freeN` targets pages
currently outstanding, and at the end of the trace nothing is
outstanding — i.e. every frame allocated by the trace is freed exactly
once, in any order. -/
inductive BalancedFrom : PmmState → List Nat → List PmmOp → Prop where
  | nil : ∀ s, BalancedFrom s [] []
  | alloc : ∀ s out ops,
      BalancedFrom (pmmExec (s, out) .alloc).1 (pmmExec (s, out) .alloc).2 ops →
      BalancedFrom s out (.alloc :: ops)
  | allocN : ∀ s out n ops,
      BalancedFrom (pmmExec (s, out) (.allocN n)).1 (pmmExec (s, out) (.allocN n)).2 ops →
      BalancedFrom s out (.allocN n :: ops)
  | free : ∀ s out a ops,
      a / PAGE_SIZE ∈ out →
      BalancedFrom (pmmExec (s, out) (.free a)).1 (pmmExec (s, out) (.free a)).2 ops →
      BalancedFrom s out (.free a :: ops)
  | freeN : ∀ s out a n ops,
      (∀ i, i < n → a / PAGE_SIZE + i ∈ out) →
      BalancedFrom (pmmExec (s, out) (.freeN a n)).1 (pmmExec (s, out) (.freeN a n)).2 ops →
      BalancedFrom s out (.freeN a n :: ops)

/-- The number of clear (free) bitmap bits within the word array. -/
def clearCount (s : PmmState) : Nat :=
  (List.range (BITS_PER_ENTRY * s.words.length)).countP
    (fun p => ! bitmap_test s p)

/-- Initial consistency of a PMM state: the free-page counter agrees with
the bitmap and the page range is covered by the word array (both hold
after `pmm_init`). -/
def PmmConsistent (s : PmmState) : Prop :=
  s.free_pages = clearCount s ∧
  s.total_pages ≤ BITS_PER_ENTRY * s.words.length

/-- A set of frames usable as clone-side page tables: none of them is the
kernel PML4, the destination root, or still in the allocator supply. -/
def SetOk (kpml4 dst : Nat) (sup : List Nat) (X : Nat → Prop) : Prop :=
  ∀ f, X f → f ≠ kpml4 ∧ f ≠ dst ∧ f ∉ sup

/-- Invariant of `vmm_clone_address_space` over the destination root `dst`:
the kernel PML4 row is the reference row `row`; the supply only shrinks;
the user half of `dst` points only into the level-1 table set `L1`, whose
tables point only into `L2`, whose tables point only into `L3`; the three
(pairwise disjoint) table sets contain neither the kernel PML4, nor `dst`,
nor any still-unallocated frame.  This is exactly the shape the clone loop
builds, and it makes every frame the `vmm_map_in` walk can write distinct
from the kernel PML4. -/
def TreeInv (kpml4 dst : Nat) (sup0 : List Nat) (row : Nat → Nat)
    (σ : VmmSt) (L1 L2 L3 : Nat → Prop) : Prop :=
  (∀ i, σ.tab kpml4 i = row i) ∧
  σ.supply.Sublist sup0 ∧
  dst ∉ σ.supply ∧ dst ≠ kpml4 ∧
  (∀ i, i < 256 → entPresent (σ.tab dst i) = true →
    L1 (frameOf (σ.tab dst i))) ∧
  (∀ T, L1 T → ∀ j, j < 512 → entPresent (σ.tab T j) = true →
    L2 (frameOf (σ.tab T j))) ∧
  (∀ T, L2 T → ∀ j, j < 512 → entPresent (σ.tab T j) = true →
    L3 (frameOf (σ.tab T j))) ∧
  SetOk kpml4 dst σ.supply L1 ∧
  SetOk kpml4 dst σ.supply L2 ∧
  SetOk kpml4 dst σ.supply L3 ∧
  (∀ f, L1 f → ¬ L2 f) ∧ (∀ f, L1 f → ¬ L3 f) ∧ (∀ f, L2 f → ¬ L3 f)

/-- The machine state carried by a clone-loop accumulator (`inl` is the
aborted state after an allocation failure, `inr` the live state). -/
def stOf : VmmSt ⊕ VmmSt → VmmSt
  | .inl σ => σ
  | .inr σ => σ

/-- `TreeInv` with the three table sets existentially quantified, on
either side of the clone-loop accumulator. -/
def TreeInvE (kpml4 dst : Nat) (sup0 : List Nat) (row : Nat → Nat)
    (acc : VmmSt ⊕ VmmSt) : Prop :=
  ∃ L1 L2 L3, TreeInv kpml4 dst sup0 row (stOf acc) L1 L2 L3

/-- Invariant tying a traced PMM state `(s, out)` back to the initial
state `s0`: the outstanding pages are distinct trace-allocated pages
(initially clear), the bitmap of `s` is the initial bitmap plus the
outstanding pages, and the free counter accounts for them. -/
def TraceInv (s0 s : PmmState) (out : List Nat) : Prop :=
  out.Nodup ∧
  (∀ p ∈ out, bitmap_test s0 p = false ∧
    p / BITS_PER_ENTRY < s0.words.length) ∧
  (∀ p, bitmap_test s p = (bitmap_test s0 p || decide (p ∈ out))) ∧
  s.free_pages + out.length = s0.free_pages ∧
  s.words.length = s0.words.length ∧
  s.total_pages = s0.total_pages ∧
  s.free_pages = clearCount s

/-!
# Theorems

One theorem per claim (with counterexamples and witnesses where required),
preceded by the supporting lemmas.
-/

/-- C10: for every file descriptor `fd ≤ 2`, `sys_close` returns 0 without
performing any close — the pipe table and the VFS descriptor table are
returned unchanged, so the standard streams can never be closed through
the close syscall. -/
theorem c10_sys_close_std_noop (pipes : List PipeSlot) (vfs_in_use : Nat → Bool)
    (fd : Nat) (h : fd ≤ 2) :
    sys_close pipes vfs_in_use fd = (0, pipes, vfs_in_use) := by
  unfold sys_close
  rw [if_pos h]

/-- Witness for C10 at `fd = 2` on an empty pipe table. -/
theorem c10_sys_close_std_noop_witness :
    sys_close [] (fun _ => false) 2 = (0, [], fun _ => false) :=
  c10_sys_close_std_noop [] (fun _ => false) 2 (by decide)

/-- C7 counterexample: the claim says `kfree` on an invalid block magic
triggers the panic handler rather than returning control to the caller
with the heap unchanged.  On a concrete one-block heap whose header magic
is `0xBAD`, `kfree` returns the `badMagic` outcome (the C prints
"[HEAP] Bad free: invalid magic" and executes `return`) and leaves the
block list unchanged. -/
theorem c7_kfree_bad_magic_returns_cex :
    kfree [{ magic := 0xBAD, size := 64, free := false }] false 0 =
      (KfreeOutcome.badMagic, [{ magic := 0xBAD, size := 64, free := false }]) := by
  decide

/-- C7 amended: calling `kfree` on a pointer whose block header magic does
not validate logs the diagnostic and returns to the caller with the heap
unchanged (outcome `badMagic`, identical block list); it does not panic. -/
theorem c7_kfree_bad_magic_returns (blocks : List HeapBlock) (i : Nat)
    (b : HeapBlock) (hget : blocks.get? i = some b)
    (hmagic : b.magic ≠ HEAP_BLOCK_MAGIC) :
    kfree blocks false i = (KfreeOutcome.badMagic, blocks) := by
  unfold kfree
  simp only [Bool.false_eq_true, if_false, hget]
  rw [if_pos hmagic]

/-- Witness for C7 on the concrete bad-magic heap. -/
theorem c7_kfree_bad_magic_returns_witness :
    kfree [{ magic := 0xBAD, size := 64, free := false }] false 0 =
      (KfreeOutcome.badMagic, [{ magic := 0xBAD, size := 64, free := false }]) :=
  c7_kfree_bad_magic_returns
    [{ magic := 0xBAD, size := 64, free := false }] 0
    { magic := 0xBAD, size := 64, free := false } (by decide) (by decide)

/-- Bits 0-3 of `x &&& ~15` are clear, so the 16-byte alignment mask of
`kmalloc` produces multiples of 16. -/
theorem and_not_15_mod_16 (x : Nat) : (x &&& (ALL_BITS_SET ^^^ 15)) % 16 = 0 := by
  have hmask : ALL_BITS_SET ^^^ 15 = 0xFFFFFFFFFFFFFFF0 := by decide
  rw [hmask]
  have h : ∀ i, i < 4 → (x &&& 0xFFFFFFFFFFFFFFF0).testBit i = false := by
    intro i hi
    rw [Nat.testBit_and]
    interval_cases i <;>
      simp [show Nat.testBit 0xFFFFFFFFFFFFFFF0 0 = false from by decide,
        show Nat.testBit 0xFFFFFFFFFFFFFFF0 1 = false from by decide,
        show Nat.testBit 0xFFFFFFFFFFFFFFF0 2 = false from by decide,
        show Nat.testBit 0xFFFFFFFFFFFFFFF0 3 = false from by decide]
  have h2 : (x &&& 0xFFFFFFFFFFFFFFF0) % 2 ^ 4 = 0 := by
    apply Nat.eq_of_testBit_eq
    intro i
    rcases Nat.lt_or_ge i 4 with hlt | hge
    · rw [Nat.testBit_mod_two_pow]
      simp [hlt, h i hlt]
    · rw [Nat.testBit_mod_two_pow]
      simp [Nat.not_lt.mpr hge]
  simpa using h2

/-- C6 counterexample: the claim says the block is split whenever
`block->size − s ≥ HEAP_HEADER_SIZE + HEAP_MIN_ALLOC`.  For a free block
of payload 96 and a (16-byte aligned, ≥ 32) request of 32, the remainder
is exactly `HEAP_HEADER_SIZE + HEAP_MIN_ALLOC = 64`, yet `split_block`
leaves the block whole (the C tests `remaining <= HEAP_HEADER_SIZE +
HEAP_MIN_ALLOC`). -/
theorem c6_split_at_boundary_cex :
    HEAP_HEADER_SIZE + HEAP_MIN_ALLOC ≤
        (96 : Nat) - kmallocNormalize 32 ∧
      kmallocNormalize 32 = 32 ∧
      split_block { magic := HEAP_BLOCK_MAGIC, size := 96, free := true } 32 =
        [{ magic := HEAP_BLOCK_MAGIC, size := 96, free := true }] := by
  decide

/-- C6 amended: `kmalloc` request sizes are 16-byte aligned and at least
`HEAP_MIN_ALLOC`; a selected block is split into an allocated part of size
`s` and a new free block (of payload `remainder − HEAP_HEADER_SIZE`) iff
the remainder `block.size − s` is strictly greater than
`HEAP_HEADER_SIZE + HEAP_MIN_ALLOC`; otherwise the block is handed out
unsplit. -/
theorem c6_kmalloc_split_condition (block : HeapBlock) (s req : Nat) :
    (16 ∣ kmallocNormalize req ∧ HEAP_MIN_ALLOC ≤ kmallocNormalize req) ∧
    (HEAP_HEADER_SIZE + HEAP_MIN_ALLOC < block.size - s →
      split_block block s =
        [{ block with size := s },
         { magic := HEAP_BLOCK_MAGIC,
           size := block.size - s - HEAP_HEADER_SIZE, free := true }]) ∧
    (block.size - s ≤ HEAP_HEADER_SIZE + HEAP_MIN_ALLOC →
      split_block block s = [block]) := by
  refine ⟨⟨?_, ?_⟩, ?_, ?_⟩
  · unfold kmallocNormalize
    rcases Nat.lt_or_ge ((req + 15) &&& (ALL_BITS_SET ^^^ 15)) HEAP_MIN_ALLOC with h | h
    · simp only [h, if_pos]
      decide
    · rw [if_neg (Nat.not_lt.mpr h)]
      exact Nat.dvd_of_mod_eq_zero (and_not_15_mod_16 (req + 15))
  · unfold kmallocNormalize
    rcases Nat.lt_or_ge ((req + 15) &&& (ALL_BITS_SET ^^^ 15)) HEAP_MIN_ALLOC with h | h
    · simp [h]
    · rw [if_neg (Nat.not_lt.mpr h)]
      exact h
  · intro h
    unfold split_block
    rw [if_neg (Nat.not_le.mpr h)]
  · intro h
    unfold split_block
    rw [if_pos h]

/-- Witness for C6 at a block of payload 256 and request 17
(normalised to 32, remainder 224 > 64, so the block splits). -/
theorem c6_kmalloc_split_condition_witness :
    split_block { magic := HEAP_BLOCK_MAGIC, size := 256, free := true } 32 =
      [{ magic := HEAP_BLOCK_MAGIC, size := 32, free := true },
       { magic := HEAP_BLOCK_MAGIC, size := 192, free := true }] := by
  have h := (c6_kmalloc_split_condition
    { magic := HEAP_BLOCK_MAGIC, size := 256, free := true } 32 17).2.1 (by decide)
  simpa using h

/-- C1 counterexample: the claim says every syscall handler checks every
user pointer argument against the user half before dereferencing, returning
`-EFAULT` on failure.  `sys_stat` only null-checks `statbuf`: with the
kernel-half pointer `2^47` (which fails `vmm_is_user_range`), a valid path
and a successful `vfs_stat`, it returns 0 after writing the stat structure
through the pointer, instead of `-EFAULT`. -/
theorem c1_sys_stat_unchecked_cex :
    vmm_is_user_range (2 ^ 47) LINUX_STAT_SIZE = false ∧
      sys_stat true 4096 (2 ^ 47) = (0, true) := by
  constructor
  · decide
  · decide

/-- C1 amended: `vmm_is_user_range` implements exactly
`addr + len ≤ 2^47 − 4096` with no u64 wraparound, and the handlers that
do range-check (`sys_read`, `sys_write`, `sys_getdents`, and — for a
nonzero size, its `size == 0` test coming first — `sys_getcwd`) return
`-EFAULT` whenever that check fails; but `sys_stat` validates its
pointers only against NULL and, when `vfs_stat` succeeds, dereferences
any nonzero `statbuf` regardless of range. -/
theorem c1_user_range_checks :
    (∀ ptr size : Nat, ptr < 2 ^ 64 → size < 2 ^ 64 →
      (vmm_is_user_range ptr size = true ↔ ptr + size ≤ 2 ^ 47 - 4096)) ∧
    (∀ buf count : Nat, vmm_is_user_range buf count = false →
      sys_read_gate buf count = .efault ∧
      sys_write_gate buf count = .efault ∧
      sys_getdents_gate buf count = .efault ∧
      (count ≠ 0 → sys_getcwd_gate buf count = .efault)) ∧
    (∀ v : Bool, ∀ path statbuf : Nat, path ≠ 0 → statbuf ≠ 0 →
      sys_stat v path statbuf = if v then (0, true) else (-ENOENT, false)) := by
  refine ⟨?_, ?_, ?_⟩
  · intro ptr size hp hs
    unfold vmm_is_user_range
    dsimp only
    have hend : USER_SPACE_END = 2 ^ 47 - 4096 := by decide
    rcases Nat.lt_or_ge (ptr + size) (2 ^ 64) with hlt | hge
    · rw [Nat.mod_eq_of_lt hlt]
      simp only [Nat.not_lt.mpr (Nat.le_add_right ptr size), if_false, hend]
      simp
    · have hm : (ptr + size) % 2 ^ 64 = ptr + size - 2 ^ 64 := by
        have h2 : ptr + size < 2 * 2 ^ 64 := by omega
        omega
      rw [hm]
      have hcase : ptr + size - 2 ^ 64 < ptr := by omega
      rw [if_pos hcase]
      constructor
      · intro h
        exact absurd h (by simp)
      · intro h
        exfalso
        have : (2 : Nat) ^ 47 - 4096 < 2 ^ 64 := by norm_num
        omega
  · intro buf count h
    refine ⟨?_, ?_, ?_, ?_⟩
    · unfold sys_read_gate
      rcases Nat.eq_zero_or_pos buf with h0 | h0
      · rw [if_pos h0]
      · rw [if_neg (by omega), h]
        simp
    · unfold sys_write_gate
      rcases Nat.eq_zero_or_pos buf with h0 | h0
      · rw [if_pos h0]
      · rw [if_neg (by omega), h]
        simp
    · unfold sys_getdents_gate
      rcases Nat.eq_zero_or_pos buf with h0 | h0
      · rw [if_pos h0]
      · rw [if_neg (by omega), h]
        simp
    · intro hc
      unfold sys_getcwd_gate
      rcases Nat.eq_zero_or_pos buf with h0 | h0
      · rw [if_pos h0]
      · rw [if_neg (by omega), if_neg hc, h]
        simp
  · intro v path statbuf hp hs
    unfold sys_stat
    rw [if_neg (by tauto)]
    cases v <;> simp

/-- Witness for C1 (amended) at concrete inputs: an in-range pair, an
out-of-range buffer rejected by all four range-checking gates, and
`sys_stat` writing through a nonzero pointer. -/
theorem c1_user_range_checks_witness :
    (vmm_is_user_range 4096 4096 = true ↔ (4096 : Nat) + 4096 ≤ 2 ^ 47 - 4096) ∧
      sys_read_gate (2 ^ 47) 16 = .efault ∧
      sys_write_gate (2 ^ 47) 16 = .efault ∧
      sys_getdents_gate (2 ^ 47) 16 = .efault ∧
      sys_getcwd_gate (2 ^ 47) 16 = .efault ∧
      sys_stat true 4096 (2 ^ 47) = (0, true) :=
  ⟨c1_user_range_checks.1 4096 4096 (by norm_num) (by norm_num),
   (c1_user_range_checks.2.1 (2 ^ 47) 16 (by decide)).1,
   (c1_user_range_checks.2.1 (2 ^ 47) 16 (by decide)).2.1,
   (c1_user_range_checks.2.1 (2 ^ 47) 16 (by decide)).2.2.1,
   (c1_user_range_checks.2.1 (2 ^ 47) 16 (by decide)).2.2.2 (by decide),
   by
     have h := c1_user_range_checks.2.2 true 4096 (2 ^ 47) (by norm_num) (by positivity)
     simpa using h⟩

/-- C4: on the success path of `proc_fork`, the parent's return value is
the child's PID, the child is in the ready state, and the syscall frame
built on the child's kernel stack is the parent's frame with RAX set to 0
(hence the same user RIP, RSP and RFLAGS), so the child's first scheduling
sysrets to the same user instruction with return value 0. -/
theorem c4_proc_fork_spec (frame : SyscallFrame) (parentPid nextPid : Nat) :
    proc_fork frame parentPid nextPid true true true =
      ((nextPid : Int), some
        { pid := nextPid
          parent_pid := parentPid
          state := .ready
          user_rip := frame.rip
          user_rsp := frame.rsp
          user_rflags := frame.rflags
          frame := { frame with rax := 0 } }) ∧
    ({ frame with rax := 0 } : SyscallFrame).rip = frame.rip ∧
    ({ frame with rax := 0 } : SyscallFrame).rsp = frame.rsp ∧
    ({ frame with rax := 0 } : SyscallFrame).rflags = frame.rflags ∧
    ({ frame with rax := 0 } : SyscallFrame).rax = 0 := by
  refine ⟨rfl, rfl, rfl, rfl, rfl⟩

/-- The fd-selection loop of `sys_pipe` returns fds drawn from its
candidate list; with no accumulated fd both results come from the list and
are distinct when the list has no duplicates. -/
theorem pickPipeFds_spec (pipes : List PipeSlot) :
    ∀ (l : List Nat) (acc : Option Nat) (r w : Nat),
      pickPipeFds pipes l acc = some (r, w) →
      w ∈ l ∧
        (match acc with
         | none => r ∈ l ∧ (l.Nodup → r ≠ w)
         | some a => r = a) := by
  intro l
  induction l with
  | nil => intro acc r w h; simp [pickPipeFds] at h
  | cons fd rest ih =>
      intro acc r w h
      unfold pickPipeFds at h
      by_cases hu : pipeFdInUse pipes fd
      · rw [if_pos hu] at h
        have hres := ih acc r w h
        rcases acc with _ | a
        · exact ⟨List.mem_cons_of_mem _ hres.1,
            List.mem_cons_of_mem _ hres.2.1,
            fun hnd => hres.2.2 hnd.of_cons⟩
        · exact ⟨List.mem_cons_of_mem _ hres.1, hres.2⟩
      · rw [if_neg hu] at h
        rcases acc with _ | a
        · have hres := ih (some fd) r w h
          have hr : r = fd := hres.2
          refine ⟨List.mem_cons_of_mem _ hres.1, ?_, ?_⟩
          · rw [hr]; exact List.mem_cons_self _ _
          · intro hnd
            rw [hr]
            intro hwr
            exact (List.nodup_cons.mp hnd).1 (hwr ▸ hres.1)
        · simp only [Option.some.injEq, Prod.mk.injEq] at h
          exact ⟨h.2 ▸ List.mem_cons_self _ _, h.1.symm⟩

/-- Membership in the `sys_pipe` candidate list means `100 ≤ fd < 200`. -/
theorem pipeFdCandidates_bounds (fd : Nat) (h : fd ∈ pipeFdCandidates) :
    100 ≤ fd ∧ fd < 200 := by
  unfold pipeFdCandidates at h
  rcases List.mem_map.mp h with ⟨k, hk, rfl⟩
  have := List.mem_range.mp hk
  omega

/-- The candidate list has no duplicates. -/
theorem pipeFdCandidates_nodup : pipeFdCandidates.Nodup := by
  unfold pipeFdCandidates
  exact (List.nodup_range _).map (fun a b => by omega)

/-- C9: (1) a pipe read on an empty ring whose write end is closed returns
0 (EOF) and changes nothing; (2) a pipe write whose read end is closed
fails with `-EPIPE` transferring no bytes and changing nothing; (3) the
descriptor pair handed out by `sys_pipe` lies in the dedicated range
100-199 with distinct ends, while `vfs_open` only ever allocates
descriptors 3..31 — the two ranges are disjoint, so pipe fds never collide
with descriptors returned by open. -/
theorem c9_pipe_semantics :
    (∀ (pipes : List PipeSlot) (fd cnt i : Nat) (p : PipeSlot),
      find_pipe_by_fd pipes fd = some (i, true) →
      pipes.get? i = some p →
      p.read_open = true → p.count = 0 → p.write_open = false →
      pipe_read pipes fd cnt = (.eofZero, pipes)) ∧
    (∀ (pipes : List PipeSlot) (fd : Nat) (src : List Nat) (i : Nat)
      (p : PipeSlot),
      find_pipe_by_fd pipes fd = some (i, false) →
      pipes.get? i = some p →
      p.write_open = true → p.read_open = false →
      pipe_write pipes fd src = (.epipe, pipes)) ∧
    (∀ (pipes : List PipeSlot) (r w : Nat),
      sys_pipe_fds pipes = some (r, w) →
      100 ≤ r ∧ r < 200 ∧ 100 ≤ w ∧ w < 200 ∧ r ≠ w) ∧
    (∀ (in_use : Nat → Bool) (fd : Nat),
      vfsAllocFd in_use = some fd → 3 ≤ fd ∧ fd < VFS_MAX_FD ∧ fd < 100) := by
  refine ⟨?_, ?_, ?_, ?_⟩
  · intro pipes fd cnt i p hfind hget hro hcnt hwo
    unfold pipe_read
    rw [hfind]
    simp only [Bool.not_true, Bool.false_eq_true, if_false, hget, hro, hcnt, hwo]
    simp
  · intro pipes fd src i p hfind hget hwo hro
    unfold pipe_write
    rw [hfind]
    simp only [Bool.false_eq_true, if_false, hget, hwo, hro]
    simp
  · intro pipes r w h
    have hspec := pickPipeFds_spec pipes pipeFdCandidates none r w h
    have hw := pipeFdCandidates_bounds w hspec.1
    have hr := pipeFdCandidates_bounds r hspec.2.1
    exact ⟨hr.1, hr.2, hw.1, hw.2, hspec.2.2 pipeFdCandidates_nodup⟩
  · intro in_use fd h
    have hmem := List.mem_of_find?_eq_some h
    have hdr : (List.range VFS_MAX_FD).drop 3 = List.range' 3 29 := by decide
    rw [hdr] at hmem
    have hb := List.mem_range'_1.mp hmem
    have hv : VFS_MAX_FD = 32 := rfl
    refine ⟨hb.1, ?_, ?_⟩ <;> omega

/-- Witness for C9 on a concrete one-slot pipe table: an EOF read, a broken
write, a concrete fd pair and a concrete VFS allocation. -/
theorem c9_pipe_semantics_witness :
    pipe_read
        [{ buffer := fun _ => 0, read_pos := 0, write_pos := 0, count := 0,
           read_fd := 100, write_fd := 101, read_open := true,
           write_open := false }] 100 8 =
      (.eofZero,
        [{ buffer := fun _ => 0, read_pos := 0, write_pos := 0, count := 0,
           read_fd := 100, write_fd := 101, read_open := true,
           write_open := false }]) ∧
    pipe_write
        [{ buffer := fun _ => 0, read_pos := 0, write_pos := 0, count := 0,
           read_fd := 102, write_fd := 103, read_open := false,
           write_open := true }] 103 [80] =
      (.epipe,
        [{ buffer := fun _ => 0, read_pos := 0, write_pos := 0, count := 0,
           read_fd := 102, write_fd := 103, read_open := false,
           write_open := true }]) ∧
    (100 ≤ 100 ∧ (100 : Nat) < 200 ∧ 100 ≤ 101 ∧ (101 : Nat) < 200 ∧
      (100 : Nat) ≠ 101) ∧
    (3 ≤ 3 ∧ (3 : Nat) < VFS_MAX_FD ∧ (3 : Nat) < 100) := by
  refine ⟨?_, ?_, ?_, ?_⟩
  · exact c9_pipe_semantics.1 _ 100 8 0 _ rfl rfl rfl rfl rfl
  · exact c9_pipe_semantics.2.1 _ 103 [80] 0 _ rfl rfl rfl rfl
  · exact c9_pipe_semantics.2.2.1 [] 100 101 (by rfl)
  · exact c9_pipe_semantics.2.2.2 (fun _ => false) 3 (by rfl)

/-- Every file block overlapping the requested region being a hole makes
the `ext2_read` loop deliver zero-filled bytes for the whole region. -/
theorem ext2ReadLoop_sparse (bs : Nat) (blkOf : Nat → Nat)
    (readByte : Nat → Nat → Nat) :
    ∀ remaining pos, 0 < bs →
      (∀ fb, pos / bs ≤ fb → fb * bs < pos + remaining → blkOf fb = 0) →
      ext2ReadLoop bs blkOf readByte pos remaining =
        List.replicate remaining 0 := by
  intro remaining
  induction remaining using Nat.strong_induction_on with
  | _ remaining ih =>
      intro pos hbs hz
      rw [ext2ReadLoop]
      rcases Nat.eq_zero_or_pos remaining with h0 | h0
      · rw [dif_pos (Or.inl h0), h0]
        simp
      · rw [dif_neg (by omega)]
        have hfb0 : blkOf (pos / bs) = 0 := by
          refine hz (pos / bs) (le_refl _) ?_
          calc pos / bs * bs ≤ pos := Nat.div_mul_le_self pos bs
            _ < pos + remaining := by omega
        simp only [hfb0, if_pos]
        have hoff : pos % bs < bs := Nat.mod_lt _ hbs
        set to_read := min (bs - pos % bs) remaining with hto
        have hto_pos : 0 < to_read := by
          rw [hto]; exact lt_min (by omega) h0
        have hto_le : to_read ≤ remaining := min_le_right _ _
        have hrec := ih (remaining - to_read) (by omega) (pos + to_read) hbs ?_
        · rw [hrec, ← List.replicate_add]
          congr 1
          omega
        · intro fb hfb1 hfb2
          refine hz fb ?_ ?_
          · exact le_trans (Nat.div_le_div_right (by omega)) hfb1
          · omega

/-- C3: the ext2 block lookup resolves a file block index `k` through the
direct pointers for `k < 12`, the single-indirect tree for
`12 ≤ k < 12 + P`, the double-indirect tree (indices `(k−12−P)/P` then
`(k−12−P)%P`) for `12 + P ≤ k < 12 + P + P²`, and the analogous
three-level walk under `i_block[14]` for larger `k`; a zero pointer at any
level yields block number 0, which the read path turns into zero-filled
bytes for that region of the file. -/
theorem c3_ext2_block_mapping (P : Nat) (ib : Nat → Nat)
    (readPtr : Nat → Nat → Nat) (k : Nat) (hP : 0 < P) :
    (k < 12 → get_block_num P ib readPtr k = ib k) ∧
    (12 ≤ k → k < 12 + P → get_block_num P ib readPtr k =
      (if ib 12 = 0 then 0 else readPtr (ib 12) (k - 12))) ∧
    (12 + P ≤ k → k < 12 + P + P * P → get_block_num P ib readPtr k =
      (if ib 13 = 0 then 0
       else if readPtr (ib 13) ((k - 12 - P) / P) = 0 then 0
       else readPtr (readPtr (ib 13) ((k - 12 - P) / P)) ((k - 12 - P) % P))) ∧
    (12 + P + P * P ≤ k → get_block_num P ib readPtr k =
      (if ib 14 = 0 then 0
       else if readPtr (ib 14) ((k - 12 - P - P * P) / (P * P)) = 0 then 0
       else if readPtr (readPtr (ib 14) ((k - 12 - P - P * P) / (P * P)))
           ((k - 12 - P - P * P) % (P * P) / P) = 0 then 0
       else readPtr
         (readPtr (readPtr (ib 14) ((k - 12 - P - P * P) / (P * P)))
           ((k - 12 - P - P * P) % (P * P) / P))
         ((k - 12 - P - P * P) % (P * P) % P))) ∧
    (∀ (bs : Nat) (blkOf : Nat → Nat) (readByte : Nat → Nat → Nat)
      (pos remaining : Nat), 0 < bs →
      (∀ fb, pos / bs ≤ fb → fb * bs < pos + remaining → blkOf fb = 0) →
      ext2ReadLoop bs blkOf readByte pos remaining =
        List.replicate remaining 0) := by
  refine ⟨?_, ?_, ?_, ?_, ?_⟩
  · intro h
    unfold get_block_num
    rw [if_pos (show k < EXT2_NDIR_BLOCKS from h)]
  · intro h1 h2
    unfold get_block_num EXT2_NDIR_BLOCKS EXT2_IND_BLOCK
    rw [if_neg (by omega), if_pos (by omega)]
  · intro h1 h2
    unfold get_block_num EXT2_NDIR_BLOCKS EXT2_IND_BLOCK EXT2_DIND_BLOCK
    rw [if_neg (by omega), if_neg (by omega), if_pos (by omega)]
  · intro h1
    unfold get_block_num EXT2_NDIR_BLOCKS EXT2_IND_BLOCK EXT2_DIND_BLOCK
      EXT2_TIND_BLOCK
    rw [if_neg (by omega), if_neg (by omega), if_neg (by omega)]
  · exact fun bs blkOf readByte pos remaining hbs hz =>
      ext2ReadLoop_sparse bs blkOf readByte remaining pos hbs hz

/-- `testBit` of a one-bit mask. -/
theorem testBit_one_shl (n m : Nat) :
    ((1 : Nat) <<< n).testBit m = decide (n = m) := by
  rw [Nat.shiftLeft_eq, one_mul]
  exact Nat.testBit_two_pow

/-- `testBit` of `ALL_BITS_SET`. -/
theorem testBit_all_bits (m : Nat) :
    (ALL_BITS_SET : Nat).testBit m = decide (m < 64) := by
  have h : (ALL_BITS_SET : Nat) = 2 ^ 64 - 1 := by norm_num [ALL_BITS_SET]
  rw [h, Nat.testBit_two_pow_sub_one]

/-- `List.getD` after `List.set` at the written index. -/
theorem getD_set_self (l : List Nat) (i v : Nat) (h : i < l.length) :
    (l.set i v).getD i 0 = v := by
  simp [List.getD_eq_getElem?_getD, List.getElem?_set_self', h]

/-- `List.getD` after `List.set` at a different index. -/
theorem getD_set_ne (l : List Nat) (i j v : Nat) (h : i ≠ j) :
    (l.set i v).getD j 0 = l.getD j 0 := by
  simp [List.getD_eq_getElem?_getD, List.getElem?_set_ne h]

/-- Pointwise effect of `bitmap_set`: bit `p` becomes set, every other bit
is untouched (for `p` within the word array). -/
theorem bitmap_test_set (s : PmmState) (p q : Nat)
    (hp : p / BITS_PER_ENTRY < s.words.length) :
    bitmap_test (bitmap_set s p) q = (bitmap_test s q || decide (q = p)) := by
  have hB : BITS_PER_ENTRY = 64 := rfl
  unfold bitmap_test bitmap_set
  dsimp only
  by_cases hw : q / BITS_PER_ENTRY = p / BITS_PER_ENTRY
  · rw [hw, getD_set_self _ _ _ hp, Nat.testBit_or, testBit_one_shl]
    by_cases hq : q = p
    · simp [hq]
    · have hb : ¬ (p % BITS_PER_ENTRY = q % BITS_PER_ENTRY) := by
        intro hbb
        apply hq
        have h1 := Nat.div_add_mod q BITS_PER_ENTRY
        have h2 := Nat.div_add_mod p BITS_PER_ENTRY
        rw [hB] at h1 h2 hw hbb
        omega
      simp [hq, hb, hw]
  · rw [getD_set_ne _ _ _ _ (fun hh => hw hh.symm)]
    have hq : ¬ (q = p) := fun hh => hw (by rw [hh])
    simp [hq]

/-- Pointwise effect of `bitmap_clear`: bit `p` becomes clear, every other
bit is untouched. -/
theorem bitmap_test_clear (s : PmmState) (p q : Nat)
    (hp : p / BITS_PER_ENTRY < s.words.length) (hq64 : q % BITS_PER_ENTRY < 64) :
    bitmap_test (bitmap_clear s p) q = (bitmap_test s q && ! decide (q = p)) := by
  have hB : BITS_PER_ENTRY = 64 := rfl
  unfold bitmap_test bitmap_clear
  dsimp only
  by_cases hw : q / BITS_PER_ENTRY = p / BITS_PER_ENTRY
  · rw [hw, getD_set_self _ _ _ hp, Nat.testBit_and, Nat.testBit_xor,
      testBit_all_bits, testBit_one_shl]
    by_cases hq : q = p
    · have hq64p : p % BITS_PER_ENTRY < 64 := hq ▸ hq64
      simp [hq, hq64p]
    · have hb : ¬ (p % BITS_PER_ENTRY = q % BITS_PER_ENTRY) := by
        intro hbb
        apply hq
        have h1 := Nat.div_add_mod q BITS_PER_ENTRY
        have h2 := Nat.div_add_mod p BITS_PER_ENTRY
        rw [hB] at h1 h2 hw hbb
        omega
      simp [hq, hb, hw, hq64]
  · rw [getD_set_ne _ _ _ _ (fun hh => hw hh.symm)]
    have hq : ¬ (q = p) := fun hh => hw (by rw [hh])
    simp [hq]

/-- Flipping one predicate value from false to true on a duplicate-free
list raises `countP` by one. -/
theorem countP_flip (l : List Nat) (f f' : Nat → Bool) (p : Nat)
    (hagree : ∀ q, q ≠ p → f' q = f q) (hf : f p = false) (hf' : f' p = true) :
    p ∈ l → l.Nodup → l.countP f' = l.countP f + 1 := by
  induction l with
  | nil => intro hmem _; cases hmem
  | cons a t ih =>
      intro hmem hnd
      rcases List.mem_cons.mp hmem with heq | hmt
      · subst heq
        have hnt : p ∉ t := (List.nodup_cons.mp hnd).1
        have hcongr : t.countP f' = t.countP f := by
          refine List.countP_congr ?_
          intro q hq
          have hqa : q ≠ p := fun hh => hnt (hh ▸ hq)
          rw [hagree q hqa]
        rw [List.countP_cons, List.countP_cons, hcongr, hf, hf']
        simp
      · have ha : a ≠ p := by
          intro heq
          exact (List.nodup_cons.mp hnd).1 (heq ▸ hmt)
        rw [List.countP_cons, List.countP_cons,
          ih hmt (List.nodup_cons.mp hnd).2, hagree a ha]
        omega

/-- Pages within the word range are counted by `clearCount`. -/
theorem page_lt_of_div (p len : Nat) (hp : p / BITS_PER_ENTRY < len) :
    p < BITS_PER_ENTRY * len := by
  have h1 : p < BITS_PER_ENTRY * (p / BITS_PER_ENTRY) + BITS_PER_ENTRY := by
    have := Nat.mod_lt p (show 0 < BITS_PER_ENTRY by decide)
    have h2 := Nat.div_add_mod p BITS_PER_ENTRY
    omega
  have h3 : BITS_PER_ENTRY * (p / BITS_PER_ENTRY) + BITS_PER_ENTRY ≤
      BITS_PER_ENTRY * len := by
    have : p / BITS_PER_ENTRY + 1 ≤ len := hp
    calc BITS_PER_ENTRY * (p / BITS_PER_ENTRY) + BITS_PER_ENTRY
        = BITS_PER_ENTRY * (p / BITS_PER_ENTRY + 1) := by ring
      _ ≤ BITS_PER_ENTRY * len := Nat.mul_le_mul_left _ this
  omega

/-- The word scan of `pmm_alloc` yields a page whose bit is clear and
whose word index lies inside the array. -/
theorem pmmAllocScan_spec :
    ∀ (ws : List Nat) (i0 page : Nat), pmmAllocScan ws i0 = some page →
      ∃ j b, j < ws.length ∧ b < 64 ∧ page = (i0 + j) * BITS_PER_ENTRY + b ∧
        (ws.getD j 0).testBit b = false := by
  have hB : BITS_PER_ENTRY = 64 := rfl
  intro ws
  induction ws with
  | nil => intro i0 page h; simp [pmmAllocScan] at h
  | cons w t ih =>
      intro i0 page h
      unfold pmmAllocScan at h
      by_cases hall : w ≠ ALL_BITS_SET
      · rw [if_pos hall] at h
        rcases hfind : findClearBit w with _ | b
        · rw [hfind] at h
          rcases ih (i0 + 1) page h with ⟨j, b, hj, hb, hpage, htest⟩
          refine ⟨j + 1, b, by simpa using hj, hb, ?_, by simpa using htest⟩
          rw [hB] at hpage ⊢
          omega
        · rw [hfind] at h
          have hb64 : b < 64 := by
            have := List.mem_of_find?_eq_some hfind
            exact List.mem_range.mp this
          have hbit : w.testBit b = false := by
            have := List.find?_some hfind
            simpa using this
          refine ⟨0, b, by simp, hb64, ?_, by simpa using hbit⟩
          simp only [Option.some.injEq] at h
          rw [hB] at h ⊢
          omega
      · rw [if_neg hall] at h
        rcases ih (i0 + 1) page h with ⟨j, b, hj, hb, hpage, htest⟩
        refine ⟨j + 1, b, by simpa using hj, hb, ?_, by simpa using htest⟩
        rw [hB] at hpage ⊢
        omega

/-- Specification of `pmm_alloc` on success: the returned address is a
clear page inside the word array, which becomes set, and the free counter
drops by one. -/
theorem pmm_alloc_spec (s : PmmState) (addr : Nat) (s' : PmmState)
    (h : pmm_alloc s = some (addr, s')) :
    ∃ page, addr = page * PAGE_SIZE ∧
      bitmap_test s page = false ∧
      page / BITS_PER_ENTRY < s.words.length ∧
      s' = { bitmap_set s page with free_pages := s.free_pages - 1 } := by
  have hB : BITS_PER_ENTRY = 64 := rfl
  unfold pmm_alloc at h
  rcases hscan : pmmAllocScan s.words 0 with _ | page
  · rw [hscan] at h; cases h
  · rw [hscan] at h
    simp only [Option.some.injEq, Prod.mk.injEq] at h
    rcases pmmAllocScan_spec s.words 0 page hscan with ⟨j, b, hj, hb, hpage, htest⟩
    have hdiv : page / BITS_PER_ENTRY = j := by
      rw [hB] at hpage ⊢
      omega
    have hmod : page % BITS_PER_ENTRY = b := by
      rw [hB] at hpage ⊢
      omega
    refine ⟨page, h.1.symm, ?_, ?_, h.2.symm⟩
    · unfold bitmap_test
      rw [hdiv, hmod]
      exact htest
    · rw [hdiv]
      exact hj

/-- The page scan of `pmm_alloc_pages` yields `count` consecutive clear
pages inside the scanned range. -/
theorem pmmAllocPagesScan_spec (s : PmmState) (count : Nat) :
    ∀ (n a c0 st0 start : Nat),
      c0 < count →
      (0 < c0 → st0 + c0 = a ∧ ∀ i, i < c0 → bitmap_test s (st0 + i) = false) →
      pmmAllocPagesScan s count (List.range' a n) c0 st0 = some start →
      (∀ i, i < count → bitmap_test s (start + i) = false) ∧
        start + count ≤ a + n := by
  intro n
  induction n with
  | zero =>
      intro a c0 st0 start _ _ h
      simp [pmmAllocPagesScan] at h
  | succ m ih =>
      intro a c0 st0 start hc0 hinv h
      rw [List.range'_succ] at h
      unfold pmmAllocPagesScan at h
      by_cases hclear : bitmap_test s a = false
      · rw [hclear] at h
        simp only [Bool.not_false, if_true] at h
        by_cases hdone : c0 + 1 = count
        · rw [if_pos hdone] at h
          simp only [Option.some.injEq] at h
          by_cases hc0z : c0 = 0
          · subst hc0z
            have hstart : start = a := by
              simpa using h.symm
            subst hstart
            refine ⟨?_, by omega⟩
            intro i hi
            have hi0 : i = 0 := by omega
            subst hi0
            simpa using hclear
          · have hstart : start = st0 := by
              simpa [hc0z] using h.symm
            subst hstart
            have hinv' := hinv (by omega)
            refine ⟨?_, by omega⟩
            intro i hi
            rcases Nat.lt_or_ge i c0 with hic | hic
            · exact hinv'.2 i hic
            · have hieq : i = c0 := by omega
              subst hieq
              rw [hinv'.1]
              exact hclear
        · rw [if_neg hdone] at h
          have hrec := ih (a + 1) (c0 + 1) (if c0 = 0 then a else st0) start
            (by omega) ?_ h
          · exact ⟨hrec.1, by omega⟩
          · intro _
            by_cases hc0z : c0 = 0
            · subst hc0z
              refine ⟨by simp, ?_⟩
              intro i hi
              have hi0 : i = 0 := by omega
              subst hi0
              simpa using hclear
            · have hinv' := hinv (by omega)
              rw [if_neg hc0z]
              refine ⟨by omega, ?_⟩
              intro i hi
              rcases Nat.lt_or_ge i c0 with hic | hic
              · exact hinv'.2 i hic
              · have hieq : i = c0 := by omega
                subst hieq
                rw [hinv'.1]
                exact hclear
      · have hset : bitmap_test s a = true := by
          cases hbt : bitmap_test s a
          · exact absurd hbt hclear
          · rfl
        rw [hset] at h
        simp only [Bool.not_true, Bool.false_eq_true, if_false] at h
        have hrec := ih (a + 1) 0 st0 start (by omega) (by omega) h
        exact ⟨hrec.1, by omega⟩

/-- `bitmap_set` on a clear bit lowers the clear-bit count by exactly
one (stated additively). -/
theorem clearCount_set (s : PmmState) (p : Nat)
    (hp : p / BITS_PER_ENTRY < s.words.length)
    (hclear : bitmap_test s p = false) :
    clearCount s = clearCount (bitmap_set s p) + 1 := by
  unfold clearCount
  have hlen : (bitmap_set s p).words.length = s.words.length := by
    unfold bitmap_set
    simp
  rw [hlen]
  refine countP_flip _ _ _ p ?_ ?_ ?_
    (List.mem_range.mpr (page_lt_of_div _ _ hp)) (List.nodup_range _)
  · intro q hq
    rw [bitmap_test_set s p q hp]
    simp [hq]
  · rw [bitmap_test_set s p p hp]
    simp
  · simp [hclear]

/-- `bitmap_clear` on a set bit raises the clear-bit count by exactly
one. -/
theorem clearCount_clear (s : PmmState) (p : Nat)
    (hp : p / BITS_PER_ENTRY < s.words.length)
    (hset : bitmap_test s p = true) :
    clearCount (bitmap_clear s p) = clearCount s + 1 := by
  unfold clearCount
  have hlen : (bitmap_clear s p).words.length = s.words.length := by
    unfold bitmap_clear
    simp
  rw [hlen]
  refine countP_flip _ _ _ p ?_ ?_ ?_
    (List.mem_range.mpr (page_lt_of_div _ _ hp)) (List.nodup_range _)
  · intro q hq
    rw [bitmap_test_clear s p q hp (Nat.mod_lt _ (by decide))]
    simp [hq]
  · simp [hset]
  · rw [bitmap_test_clear s p p hp (Nat.mod_lt _ (by decide))]
    simp

/-- `bitmap_test` depends only on the word array. -/
theorem bitmap_test_words (s t : PmmState) (h : s.words = t.words) (q : Nat) :
    bitmap_test s q = bitmap_test t q := by
  unfold bitmap_test
  rw [h]

/-- `clearCount` depends only on the word array. -/
theorem clearCount_words (s t : PmmState) (h : s.words = t.words) :
    clearCount s = clearCount t := by
  unfold clearCount
  rw [h]
  refine List.countP_congr ?_
  intro q _
  rw [bitmap_test_words s t h q]

/-- Peeling the last page off `setRange`. -/
theorem setRange_succ (s : PmmState) (start k : Nat) :
    setRange s start (k + 1) = bitmap_set (setRange s start k) (start + k) := by
  unfold setRange
  rw [List.range_succ, List.foldl_append]
  rfl

/-- `bitmap_set` changes only the word array. -/
theorem bitmap_set_fields (s : PmmState) (p : Nat) :
    (bitmap_set s p).free_pages = s.free_pages ∧
    (bitmap_set s p).total_pages = s.total_pages ∧
    (bitmap_set s p).words.length = s.words.length := by
  unfold bitmap_set
  simp

/-- `bitmap_clear` changes only the word array. -/
theorem bitmap_clear_fields (s : PmmState) (p : Nat) :
    (bitmap_clear s p).free_pages = s.free_pages ∧
    (bitmap_clear s p).total_pages = s.total_pages ∧
    (bitmap_clear s p).words.length = s.words.length := by
  unfold bitmap_clear
  simp

/-- `setRange` changes only the word array, keeping its length. -/
theorem setRange_fields (s : PmmState) (start : Nat) :
    ∀ n, (setRange s start n).free_pages = s.free_pages ∧
      (setRange s start n).total_pages = s.total_pages ∧
      (setRange s start n).words.length = s.words.length := by
  intro n
  induction n with
  | zero => exact ⟨rfl, rfl, rfl⟩
  | succ k ih =>
      rw [setRange_succ]
      rcases ih with ⟨h1, h2, h3⟩
      rcases bitmap_set_fields (setRange s start k) (start + k) with ⟨g1, g2, g3⟩
      exact ⟨g1.trans h1, g2.trans h2, g3.trans h3⟩

/-- Pointwise effect of `setRange`: the range becomes set, everything else
is untouched. -/
theorem bitmap_test_setRange (s : PmmState) (start : Nat) :
    ∀ n, (∀ k, k < n → (start + k) / BITS_PER_ENTRY < s.words.length) →
      ∀ q, bitmap_test (setRange s start n) q =
        (bitmap_test s q || decide (start ≤ q ∧ q < start + n)) := by
  intro n
  induction n with
  | zero =>
      intro _ q
      simp [setRange]
  | succ k ih =>
      intro hall q
      rw [setRange_succ, bitmap_test_set _ _ _
        (by rw [(setRange_fields s start k).2.2]; exact hall k (by omega)),
        ih (fun j hj => hall j (by omega)) q]
      by_cases h1 : q = start + k
      · have h4 : start ≤ q ∧ q < start + (k + 1) := by omega
        simp [h1, h4]
      · by_cases h2 : start ≤ q ∧ q < start + k
        · have h4 : start ≤ q ∧ q < start + (k + 1) := by omega
          simp [h1, h2, h4]
        · have h3 : ¬ (start ≤ q ∧ q < start + (k + 1)) := by omega
          simp [h1, h2, h3]

/-- `setRange` on `n` clear pages lowers the clear-bit count by exactly
`n`. -/
theorem clearCount_setRange (s : PmmState) (start : Nat) :
    ∀ n, (∀ k, k < n → (start + k) / BITS_PER_ENTRY < s.words.length ∧
        bitmap_test s (start + k) = false) →
      clearCount s = clearCount (setRange s start n) + n := by
  intro n
  induction n with
  | zero => intro _; rfl
  | succ k ih =>
      intro hall
      have hstep : clearCount (setRange s start k) =
          clearCount (setRange s start (k + 1)) + 1 := by
        rw [setRange_succ]
        refine clearCount_set _ _ ?_ ?_
        · rw [(setRange_fields s start k).2.2]
          exact (hall k (by omega)).1
        · rw [bitmap_test_setRange s start k
            (fun j hj => (hall j (by omega)).1) (start + k),
            (hall k (by omega)).2]
          simp
      rw [ih (fun j hj => hall j (by omega)), hstep]
      omega

/-- The scan of `pmm_alloc_pages` never succeeds for a zero count. -/
theorem pmmAllocPagesScan_zero (s : PmmState) :
    ∀ (l : List Nat) (c0 st0 : Nat),
      pmmAllocPagesScan s 0 l c0 st0 = none := by
  intro l
  induction l with
  | nil => intro c0 st0; rfl
  | cons p ps ih =>
      intro c0 st0
      unfold pmmAllocPagesScan
      by_cases h : bitmap_test s p = false
      · rw [h]
        simp only [Bool.not_false, if_true]
        rw [if_neg (by omega)]
        exact ih _ _
      · have hset : bitmap_test s p = true := by
          cases hbt : bitmap_test s p
          · exact absurd hbt h
          · rfl
        rw [hset]
        simp only [Bool.not_true, Bool.false_eq_true, if_false]
        exact ih _ _

/-- Specification of `pmm_alloc_pages` on success: a run of `count` clear
pages inside the page range becomes set and the free counter drops by
`count`. -/
theorem pmm_alloc_pages_spec (s : PmmState) (count addr : Nat) (s' : PmmState)
    (h : pmm_alloc_pages s count = some (addr, s')) :
    ∃ start, addr = start * PAGE_SIZE ∧
      (∀ i, i < count → bitmap_test s (start + i) = false) ∧
      start + count ≤ s.total_pages ∧
      s' = { setRange s start count with free_pages := s.free_pages - count } := by
  unfold pmm_alloc_pages at h
  rcases hscan : pmmAllocPagesScan s count (List.range s.total_pages) 0 0
    with _ | start
  · rw [hscan] at h; cases h
  · rw [hscan] at h
    simp only [Option.some.injEq, Prod.mk.injEq] at h
    rcases Nat.eq_zero_or_pos count with hc | hc
    · subst hc
      rw [List.range_eq_range'] at hscan
      rw [pmmAllocPagesScan_zero] at hscan
      cases hscan
    · rw [List.range_eq_range'] at hscan
      have hspec := pmmAllocPagesScan_spec s count s.total_pages 0 0 0 start
        (by omega) (by omega) hscan
      exact ⟨start, h.1.symm, hspec.1, by omega, h.2.symm⟩

/-- `TraceInv` is preserved by a (possibly failing) `pmm_alloc` step. -/
theorem trace_inv_alloc (s0 s : PmmState) (out : List Nat)
    (hinv : TraceInv s0 s out) :
    TraceInv s0 (pmmExec (s, out) .alloc).1 (pmmExec (s, out) .alloc).2 := by
  rcases hinv with ⟨hnd, hout, hpt, hfp, hlen, htot, hcc⟩
  rcases halloc : pmm_alloc s with _ | ⟨addr, s'⟩
  · simpa only [pmmExec, halloc] using ⟨hnd, hout, hpt, hfp, hlen, htot, hcc⟩
  · simp only [pmmExec, halloc]
    rcases pmm_alloc_spec s addr s' halloc with ⟨page, haddr, hclear, hp, hs'⟩
    have hW : s'.words = (bitmap_set s page).words := by rw [hs']
    have hF : s'.free_pages = s.free_pages - 1 := by rw [hs']
    have hT : s'.total_pages = (bitmap_set s page).total_pages := by rw [hs']
    have hpage_div : addr / PAGE_SIZE = page := by
      rw [haddr]
      exact Nat.mul_div_cancel _ (by decide)
    have hfresh : bitmap_test s0 page = false ∧ page ∉ out := by
      have := hpt page
      rw [hclear] at this
      constructor
      · cases hb0 : bitmap_test s0 page
        · rfl
        · rw [hb0] at this; simp at this
      · intro hmem
        rw [decide_eq_true hmem] at this
        simp at this
    have hccs : clearCount s = clearCount (bitmap_set s page) + 1 :=
      clearCount_set s page hp hclear
    rw [hpage_div]
    refine ⟨?_, ?_, ?_, ?_, ?_, ?_, ?_⟩
    · exact List.nodup_cons.mpr ⟨hfresh.2, hnd⟩
    · intro p hp2
      rcases List.mem_cons.mp hp2 with rfl | hmem
      · exact ⟨hfresh.1, hlen ▸ hp⟩
      · exact hout p hmem
    · intro q
      rw [bitmap_test_words s' (bitmap_set s page) hW q,
        bitmap_test_set s page q hp, hpt q]
      by_cases h1 : q = page <;> by_cases h2 : q ∈ out <;>
        simp [h1, h2, List.mem_cons]
    · rw [List.length_cons, hF]
      have h1 : 1 ≤ s.free_pages := by omega
      omega
    · rw [hW, (bitmap_set_fields s page).2.2]
      exact hlen
    · rw [hT, (bitmap_set_fields s page).2.1]
      exact htot
    · have hcw := clearCount_words s' (bitmap_set s page) hW
      omega

/-- `TraceInv` is preserved by a (possibly failing) `pmm_alloc_pages`
step, given an initially consistent state. -/
theorem trace_inv_allocN (s0 s : PmmState) (out : List Nat) (n : Nat)
    (hcons : PmmConsistent s0) (hinv : TraceInv s0 s out) :
    TraceInv s0 (pmmExec (s, out) (.allocN n)).1
      (pmmExec (s, out) (.allocN n)).2 := by
  rcases hinv with ⟨hnd, hout, hpt, hfp, hlen, htot, hcc⟩
  rcases halloc : pmm_alloc_pages s n with _ | ⟨addr, s'⟩
  · simpa only [pmmExec, halloc] using ⟨hnd, hout, hpt, hfp, hlen, htot, hcc⟩
  · simp only [pmmExec, halloc]
    rcases pmm_alloc_pages_spec s n addr s' halloc with
      ⟨start, haddr, hclear, hbound, hs'⟩
    have hW : s'.words = (setRange s start n).words := by rw [hs']
    have hF : s'.free_pages = s.free_pages - n := by rw [hs']
    have hT : s'.total_pages = (setRange s start n).total_pages := by rw [hs']
    have hpage_div : addr / PAGE_SIZE = start := by
      rw [haddr]
      exact Nat.mul_div_cancel _ (by decide)
    have hio : ∀ i, i < n → (start + i) / BITS_PER_ENTRY < s.words.length := by
      intro i hi
      have h1 : start + i < s.total_pages := by omega
      have h2 : s.total_pages ≤ BITS_PER_ENTRY * s.words.length := by
        rw [htot, hlen]
        exact hcons.2
      have hB : BITS_PER_ENTRY = 64 := rfl
      rw [hB] at h2 ⊢
      omega
    have hfresh : ∀ i, i < n → bitmap_test s0 (start + i) = false ∧
        (start + i) ∉ out := by
      intro i hi
      have := hpt (start + i)
      rw [hclear i hi] at this
      constructor
      · cases hb0 : bitmap_test s0 (start + i)
        · rfl
        · rw [hb0] at this; simp at this
      · intro hmem
        rw [decide_eq_true hmem] at this
        simp at this
    have hccs : clearCount s = clearCount (setRange s start n) + n :=
      clearCount_setRange s start n (fun k hk => ⟨hio k hk, hclear k hk⟩)
    rw [hpage_div]
    refine ⟨?_, ?_, ?_, ?_, ?_, ?_, ?_⟩
    · refine List.Nodup.append ?_ hnd ?_
      · refine List.Nodup.map ?_ (List.nodup_range n)
        intro a b hab
        dsimp only at hab
        omega
      · intro q hq1 hq2
        rcases List.mem_map.mp hq1 with ⟨i, hi, rfl⟩
        exact (hfresh i (List.mem_range.mp hi)).2 hq2
    · intro p hp2
      rcases List.mem_append.mp hp2 with hmem | hmem
      · rcases List.mem_map.mp hmem with ⟨i, hi, rfl⟩
        exact ⟨(hfresh i (List.mem_range.mp hi)).1,
          hlen ▸ hio i (List.mem_range.mp hi)⟩
      · exact hout p hmem
    · intro q
      rw [bitmap_test_words s' (setRange s start n) hW q,
        bitmap_test_setRange s start n hio q, hpt q]
      by_cases h1 : start ≤ q ∧ q < start + n
      · have hqm : q ∈ (List.range n).map (fun i => start + i) :=
          List.mem_map.mpr ⟨q - start, List.mem_range.mpr (by omega),
            show start + (q - start) = q by omega⟩
        simp [h1, List.mem_append, hqm]
      · have hqm : q ∉ (List.range n).map (fun i => start + i) := by
          intro hmem
          rcases List.mem_map.mp hmem with ⟨i, hi, hqe⟩
          have hqe2 : start + i = q := hqe
          have hi2 := List.mem_range.mp hi
          exact h1 ⟨by omega, by omega⟩
        by_cases h2 : q ∈ out <;> simp [h1, h2, List.mem_append, hqm]
    · rw [List.length_append, List.length_map, List.length_range, hF]
      have hn : n ≤ s.free_pages := by omega
      omega
    · rw [hW, (setRange_fields s start n).2.2]
      exact hlen
    · rw [hT, (setRange_fields s start n).2.1]
      exact htot
    · have hcw := clearCount_words s' (setRange s start n) hW
      omega

/-- `TraceInv` is preserved by freeing an outstanding page. -/
theorem trace_inv_free (s0 s : PmmState) (out : List Nat) (a : Nat)
    (hmem : a / PAGE_SIZE ∈ out) (hinv : TraceInv s0 s out) :
    TraceInv s0 (pmm_free s a) (out.erase (a / PAGE_SIZE)) := by
  rcases hinv with ⟨hnd, hout, hpt, hfp, hlen, htot, hcc⟩
  have hp : (a / PAGE_SIZE) / BITS_PER_ENTRY < s.words.length := by
    rw [hlen]
    exact (hout _ hmem).2
  have hset : bitmap_test s (a / PAGE_SIZE) = true := by
    rw [hpt _, decide_eq_true hmem]
    simp
  have hccc := clearCount_clear s (a / PAGE_SIZE) hp hset
  unfold pmm_free
  dsimp only
  rw [if_pos hset]
  refine ⟨hnd.erase _, ?_, ?_, ?_, ?_, ?_, ?_⟩
  · intro q hq
    exact hout q (List.mem_of_mem_erase hq)
  · intro q
    show bitmap_test (bitmap_clear s (a / PAGE_SIZE)) q =
      (bitmap_test s0 q || decide (q ∈ out.erase (a / PAGE_SIZE)))
    rw [bitmap_test_clear s (a / PAGE_SIZE) q hp (Nat.mod_lt _ (by decide)),
      hpt q]
    by_cases h1 : q = a / PAGE_SIZE
    · have hq0 : bitmap_test s0 (a / PAGE_SIZE) = false := (hout _ hmem).1
      have hqe : (a / PAGE_SIZE) ∉ out.erase (a / PAGE_SIZE) :=
        fun hh => (hnd.mem_erase_iff.mp hh).1 rfl
      simp [h1, hq0, hqe]
    · have hqe : q ∈ out.erase (a / PAGE_SIZE) ↔ q ∈ out := by
        constructor
        · exact List.mem_of_mem_erase
        · intro hh
          exact (List.mem_erase_of_ne h1).mpr hh
      by_cases h2 : q ∈ out <;> simp [h1, h2, hqe]
  · show s.free_pages + 1 + (out.erase (a / PAGE_SIZE)).length = s0.free_pages
    rw [List.length_erase_of_mem hmem]
    have h1 : 1 ≤ out.length := List.length_pos.mpr (List.ne_nil_of_mem hmem)
    omega
  · show (bitmap_clear s (a / PAGE_SIZE)).words.length = s0.words.length
    rw [(bitmap_clear_fields s (a / PAGE_SIZE)).2.2]
    exact hlen
  · show (bitmap_clear s (a / PAGE_SIZE)).total_pages = s0.total_pages
    rw [(bitmap_clear_fields s (a / PAGE_SIZE)).2.1]
    exact htot
  · show s.free_pages + 1 = clearCount (bitmap_clear s (a / PAGE_SIZE))
    omega

/-- Peeling the last page off `pmm_free_pages`: the final fold step is a
`pmm_free` of that page's address. -/
theorem pmm_free_pages_succ (s : PmmState) (a n : Nat) :
    pmm_free_pages s a (n + 1) =
      pmm_free (pmm_free_pages s a n) ((a / PAGE_SIZE + n) * PAGE_SIZE) := by
  have hdiv : ((a / PAGE_SIZE + n) * PAGE_SIZE) / PAGE_SIZE =
      a / PAGE_SIZE + n := Nat.mul_div_cancel _ (by decide)
  conv =>
    lhs
    unfold pmm_free_pages
  rw [List.range_succ, List.foldl_append]
  unfold pmm_free
  dsimp only [List.foldl]
  rw [hdiv]
  rfl

/-- A page distinct from all erased pages survives the erase fold. -/
theorem mem_eraseFold (out : List Nat) (page : Nat) :
    ∀ (n : Nat) (q : Nat), q ∈ out → (∀ i, i < n → q ≠ page + i) →
      q ∈ (List.range n).foldl (fun o i => o.erase (page + i)) out := by
  intro n
  induction n with
  | zero => intro q hq _; simpa using hq
  | succ m ih =>
      intro q hq hne
      rw [List.range_succ, List.foldl_append]
      dsimp only [List.foldl]
      exact (List.mem_erase_of_ne (hne m (by omega))).mpr
        (ih q hq (fun i hi => hne i (by omega)))

/-- `TraceInv` is preserved by freeing `n` outstanding consecutive
pages. -/
theorem trace_inv_freeN (s0 s : PmmState) (out : List Nat) (a : Nat) :
    ∀ n, (∀ i, i < n → a / PAGE_SIZE + i ∈ out) → TraceInv s0 s out →
      TraceInv s0 (pmm_free_pages s a n)
        ((List.range n).foldl (fun o i => o.erase (a / PAGE_SIZE + i)) out) := by
  intro n
  induction n with
  | zero =>
      intro _ hinv
      simpa [pmm_free_pages] using hinv
  | succ m ih =>
      intro hmem hinv
      have hstep := ih (fun i hi => hmem i (by omega)) hinv
      have hdiv : ((a / PAGE_SIZE + m) * PAGE_SIZE) / PAGE_SIZE =
          a / PAGE_SIZE + m := Nat.mul_div_cancel _ (by decide)
      have hmem2 : ((a / PAGE_SIZE + m) * PAGE_SIZE) / PAGE_SIZE ∈
          (List.range m).foldl (fun o i => o.erase (a / PAGE_SIZE + i)) out := by
        rw [hdiv]
        refine mem_eraseFold out (a / PAGE_SIZE) m (a / PAGE_SIZE + m)
          (hmem m (by omega)) ?_
        intro i hi
        omega
      have hfree := trace_inv_free s0 (pmm_free_pages s a m) _ _ hmem2 hstep
      rw [pmm_free_pages_succ, List.range_succ, List.foldl_append]
      dsimp only [List.foldl]
      rw [hdiv] at hfree
      exact hfree

/-- Along a balanced trace the invariant holds, so the final free-page
counter equals the initial one. -/
theorem balanced_run (s0 : PmmState) (hcons : PmmConsistent s0) :
    ∀ {s : PmmState} {out : List Nat} {ops : List PmmOp},
      BalancedFrom s out ops → TraceInv s0 s out →
      ((ops.foldl pmmExec (s, out)).1).free_pages = s0.free_pages := by
  intro s out ops h
  induction h with
  | nil s =>
      intro hinv
      simpa using hinv.2.2.2.1
  | alloc s out ops _ ih =>
      intro hinv
      rw [List.foldl_cons]
      exact ih (trace_inv_alloc s0 s out hinv)
  | allocN s out n ops _ ih =>
      intro hinv
      rw [List.foldl_cons]
      exact ih (trace_inv_allocN s0 s out n hcons hinv)
  | free s out a ops hmem _ ih =>
      intro hinv
      rw [List.foldl_cons]
      exact ih (trace_inv_free s0 s out a hmem hinv)
  | freeN s out a n ops hmem _ ih =>
      intro hinv
      rw [List.foldl_cons]
      exact ih (trace_inv_freeN s0 s out a n hmem hinv)

/-- C5: for every balanced sequence of
`pmm_alloc`/`pmm_alloc_pages`/`pmm_free`/`pmm_free_pages` calls (every
frame allocated by the trace freed exactly once, in any order), the
free-byte count reported by `pmm_get_free` returns to its initial value;
and freeing a frame that is not currently marked allocated (including a
second free of an already freed frame) leaves the bitmap and the free
count unchanged. -/
theorem c5_pmm_conservation :
    (∀ (s : PmmState) (ops : List PmmOp), PmmConsistent s →
      BalancedFrom s [] ops →
      pmm_get_free ((ops.foldl pmmExec (s, [])).1) = pmm_get_free s) ∧
    (∀ (s : PmmState) (a : Nat), bitmap_test s (a / PAGE_SIZE) = false →
      pmm_free s a = s) := by
  constructor
  · intro s ops hcons hbal
    unfold pmm_get_free
    have hbase : TraceInv s s [] := by
      refine ⟨List.nodup_nil, ?_, ?_, ?_, rfl, rfl, hcons.1⟩
      · intro p hp; cases hp
      · intro p; simp
      · simp
    rw [balanced_run s hcons hbal hbase]
  · intro s a h
    unfold pmm_free
    dsimp only
    rw [if_neg ?_]
    rw [h]
    simp

/-- Witness for C5 on a concrete one-word bitmap (bits 0 and 1 set,
62 pages free): allocate one page (page 2, address 8192), free it, and the
free count is back; a second free of the same address is a no-op. -/
theorem c5_pmm_conservation_witness :
    pmm_get_free (([PmmOp.alloc, PmmOp.free 8192].foldl pmmExec
        (⟨[3], 62, 64⟩, [])).1) =
      pmm_get_free ⟨[3], 62, 64⟩ ∧
    pmm_free (([PmmOp.alloc, PmmOp.free 8192].foldl pmmExec
        (⟨[3], 62, 64⟩, [])).1) 8192 =
      (([PmmOp.alloc, PmmOp.free 8192].foldl pmmExec (⟨[3], 62, 64⟩, [])).1) := by
  constructor
  · refine c5_pmm_conservation.1 ⟨[3], 62, 64⟩ [PmmOp.alloc, PmmOp.free 8192]
      ⟨by decide, by decide⟩ ?_
    refine BalancedFrom.alloc _ _ _ ?_
    refine BalancedFrom.free _ _ _ _ (by decide) ?_
    exact BalancedFrom.nil _
  · exact c5_pmm_conservation.2 _ 8192 (by decide)

/-- Witness for C3 at `P = 2`, `k = 16` (double-indirect range
`14 ≤ 16 < 18`) with concrete pointer tables, plus a concrete sparse
read. -/
theorem c3_ext2_block_mapping_witness :
    get_block_num 2 (fun i => 100 + i) (fun b i => 1000 * b + i) 16 =
      1000 * (1000 * 113 + 1) + 0 ∧
    ext2ReadLoop 4 (fun _ => 0) (fun _ _ => 7) 2 6 = List.replicate 6 0 := by
  constructor
  · have h := (c3_ext2_block_mapping 2 (fun i => 100 + i)
      (fun b i => 1000 * b + i) 16 (by decide)).2.2.1 (by decide) (by decide)
    simpa using h
  · exact (c3_ext2_block_mapping 2 (fun i => 100 + i)
      (fun b i => 1000 * b + i) 16 (by decide)).2.2.2.2 4 (fun _ => 0)
      (fun _ _ => 7) 2 6 (by decide) (fun fb _ _ => rfl)

/-- Right-shift distributes over bitwise or. -/
theorem or_shiftRight (x y n : Nat) :
    (x ||| y) >>> n = (x >>> n) ||| (y >>> n) := by
  apply Nat.eq_of_testBit_eq
  intro i
  simp [Nat.testBit_shiftRight, Nat.testBit_or]

/-- Bitwise and distributes over bitwise or on the left operand. -/
theorem or_and_right (x y m : Nat) :
    (x ||| y) &&& m = (x &&& m) ||| (y &&& m) := by
  apply Nat.eq_of_testBit_eq
  intro i
  simp [Nat.testBit_and, Nat.testBit_or, Bool.and_or_distrib_right]

/-- The 9-bit index mask is reduction modulo 512. -/
theorem and_mask9 (x : Nat) : x &&& 0x1FF = x % 512 := by
  apply Nat.eq_of_testBit_eq
  intro i
  have h511 : (0x1FF : Nat) = 2 ^ 9 - 1 := by norm_num
  have h512 : (512 : Nat) = 2 ^ 9 := by norm_num
  rw [Nat.testBit_and, h511, Nat.testBit_two_pow_sub_one, h512,
    Nat.testBit_mod_two_pow, Bool.and_comm]

/-- A masked page-table index is below 512. -/
theorem and_mask9_lt (x : Nat) : x &&& 0x1FF < 512 := by
  rw [and_mask9]
  exact Nat.mod_lt _ (by norm_num)

/-- Shift composition: `(x <<< a) >>> (a + c) = x >>> c` in `/`-form. -/
theorem shl_shr (x a b : Nat) :
    (x <<< a) >>> b = x * 2 ^ a / 2 ^ b := by
  rw [Nat.shiftLeft_eq, Nat.shiftRight_eq_div_pow]

/-- The virtual-address recomposition of `vmm_clone_address_space`
(`virt = i<<39 | j<<30 | k<<21 | l<<12`) decomposes back into the four
page-table indices extracted by `vmm_map_in`. -/
theorem virt_decompose (i j k l : Nat) (hi : i < 512) (hj : j < 512)
    (hk : k < 512) (hl : l < 512) :
    ((((i <<< 39) ||| (j <<< 30) ||| (k <<< 21) ||| (l <<< 12)) >>> 39) &&& 0x1FF = i) ∧
    ((((i <<< 39) ||| (j <<< 30) ||| (k <<< 21) ||| (l <<< 12)) >>> 30) &&& 0x1FF = j) ∧
    ((((i <<< 39) ||| (j <<< 30) ||| (k <<< 21) ||| (l <<< 12)) >>> 21) &&& 0x1FF = k) ∧
    ((((i <<< 39) ||| (j <<< 30) ||| (k <<< 21) ||| (l <<< 12)) >>> 12) &&& 0x1FF = l) := by
  have e39 : (i <<< 39) >>> 39 = i := by
    rw [shl_shr]
    exact Nat.mul_div_cancel _ (by positivity)
  have e30j : (j <<< 30) >>> 39 = 0 := by
    rw [shl_shr]
    have : (2 : Nat) ^ 39 = 2 ^ 30 * 2 ^ 9 := by norm_num
    rw [this, ← Nat.div_div_eq_div_mul, Nat.mul_div_cancel _ (by positivity)]
    omega
  have e21k39 : (k <<< 21) >>> 39 = 0 := by
    rw [shl_shr]
    have : (2 : Nat) ^ 39 = 2 ^ 21 * 2 ^ 18 := by norm_num
    rw [this, ← Nat.div_div_eq_div_mul, Nat.mul_div_cancel _ (by positivity)]
    have h18 : k / 2 ^ 18 = 0 := Nat.div_eq_of_lt (by omega)
    omega
  have e12l39 : (l <<< 12) >>> 39 = 0 := by
    rw [shl_shr]
    have : (2 : Nat) ^ 39 = 2 ^ 12 * 2 ^ 27 := by norm_num
    rw [this, ← Nat.div_div_eq_div_mul, Nat.mul_div_cancel _ (by positivity)]
    have h27 : l / 2 ^ 27 = 0 := Nat.div_eq_of_lt (by omega)
    omega
  have e39i30 : (i <<< 39) >>> 30 = i * 2 ^ 9 := by
    rw [shl_shr]
    have : (2 : Nat) ^ 39 = 2 ^ 9 * 2 ^ 30 := by norm_num
    rw [this, ← Nat.mul_assoc, Nat.mul_div_cancel _ (by positivity)]
  have e30j30 : (j <<< 30) >>> 30 = j := by
    rw [shl_shr]
    exact Nat.mul_div_cancel _ (by positivity)
  have e21k30 : (k <<< 21) >>> 30 = 0 := by
    rw [shl_shr]
    have : (2 : Nat) ^ 30 = 2 ^ 21 * 2 ^ 9 := by norm_num
    rw [this, ← Nat.div_div_eq_div_mul, Nat.mul_div_cancel _ (by positivity)]
    have h9 : k / 2 ^ 9 = 0 := Nat.div_eq_of_lt (by omega)
    omega
  have e12l30 : (l <<< 12) >>> 30 = 0 := by
    rw [shl_shr]
    have : (2 : Nat) ^ 30 = 2 ^ 12 * 2 ^ 18 := by norm_num
    rw [this, ← Nat.div_div_eq_div_mul, Nat.mul_div_cancel _ (by positivity)]
    have h18 : l / 2 ^ 18 = 0 := Nat.div_eq_of_lt (by omega)
    omega
  have e39i21 : (i <<< 39) >>> 21 = i * 2 ^ 18 := by
    rw [shl_shr]
    have : (2 : Nat) ^ 39 = 2 ^ 18 * 2 ^ 21 := by norm_num
    rw [this, ← Nat.mul_assoc, Nat.mul_div_cancel _ (by positivity)]
  have e30j21 : (j <<< 30) >>> 21 = j * 2 ^ 9 := by
    rw [shl_shr]
    have : (2 : Nat) ^ 30 = 2 ^ 9 * 2 ^ 21 := by norm_num
    rw [this, ← Nat.mul_assoc, Nat.mul_div_cancel _ (by positivity)]
  have e21k21 : (k <<< 21) >>> 21 = k := by
    rw [shl_shr]
    exact Nat.mul_div_cancel _ (by positivity)
  have e12l21 : (l <<< 12) >>> 21 = 0 := by
    rw [shl_shr]
    have : (2 : Nat) ^ 21 = 2 ^ 12 * 2 ^ 9 := by norm_num
    rw [this, ← Nat.div_div_eq_div_mul, Nat.mul_div_cancel _ (by positivity)]
    have h9 : l / 2 ^ 9 = 0 := Nat.div_eq_of_lt (by omega)
    omega
  have e39i12 : (i <<< 39) >>> 12 = i * 2 ^ 27 := by
    rw [shl_shr]
    have : (2 : Nat) ^ 39 = 2 ^ 27 * 2 ^ 12 := by norm_num
    rw [this, ← Nat.mul_assoc, Nat.mul_div_cancel _ (by positivity)]
  have e30j12 : (j <<< 30) >>> 12 = j * 2 ^ 18 := by
    rw [shl_shr]
    have : (2 : Nat) ^ 30 = 2 ^ 18 * 2 ^ 12 := by norm_num
    rw [this, ← Nat.mul_assoc, Nat.mul_div_cancel _ (by positivity)]
  have e21k12 : (k <<< 21) >>> 12 = k * 2 ^ 9 := by
    rw [shl_shr]
    have : (2 : Nat) ^ 21 = 2 ^ 9 * 2 ^ 12 := by norm_num
    rw [this, ← Nat.mul_assoc, Nat.mul_div_cancel _ (by positivity)]
  have e12l12 : (l <<< 12) >>> 12 = l := by
    rw [shl_shr]
    exact Nat.mul_div_cancel _ (by positivity)
  have hmul9 : ∀ x : Nat, x * 2 ^ 9 % 512 = 0 := by
    intro x
    have : (512 : Nat) = 2 ^ 9 := by norm_num
    rw [this]
    exact Nat.mul_mod_left x _
  have hmul18 : ∀ x : Nat, x * 2 ^ 18 % 512 = 0 := by
    intro x
    have : x * 2 ^ 18 = x * 2 ^ 9 * 2 ^ 9 := by ring
    rw [this]
    exact hmul9 _
  have hmul27 : ∀ x : Nat, x * 2 ^ 27 % 512 = 0 := by
    intro x
    have : x * 2 ^ 27 = x * 2 ^ 18 * 2 ^ 9 := by ring
    rw [this]
    exact hmul9 _
  refine ⟨?_, ?_, ?_, ?_⟩
  · rw [or_shiftRight, or_shiftRight, or_shiftRight, e39, e30j, e21k39, e12l39]
    simp only [Nat.or_zero]
    rw [and_mask9]
    exact Nat.mod_eq_of_lt hi
  · rw [or_shiftRight, or_shiftRight, or_shiftRight, e39i30, e30j30, e21k30,
      e12l30]
    simp only [Nat.or_zero]
    rw [or_and_right, and_mask9, and_mask9, hmul9 i, Nat.mod_eq_of_lt hj]
    simp
  · rw [or_shiftRight, or_shiftRight, or_shiftRight, e39i21, e30j21, e21k21,
      e12l21]
    simp only [Nat.or_zero]
    rw [or_and_right, or_and_right, and_mask9, and_mask9, and_mask9,
      hmul18 i, hmul9 j, Nat.mod_eq_of_lt hk]
    simp
  · rw [or_shiftRight, or_shiftRight, or_shiftRight, e39i12, e30j12, e21k12,
      e12l12]
    rw [or_and_right, or_and_right, or_and_right, and_mask9, and_mask9,
      and_mask9, and_mask9, hmul27 i, hmul18 j, hmul9 k, Nat.mod_eq_of_lt hl]
    simp

/-- Values below 4096 vanish under the page-frame mask. -/
theorem and_frame_low (e : Nat) (he : e < 4096) : e &&& PAGE_FRAME_MASK = 0 := by
  apply Nat.eq_of_testBit_eq
  intro n
  have hM : PAGE_FRAME_MASK = 0xFFFFFFFFFF <<< 12 := by
    norm_num [PAGE_FRAME_MASK, Nat.shiftLeft_eq]
  rw [Nat.testBit_and, hM, Nat.testBit_shiftLeft, Nat.zero_testBit]
  by_cases h12 : 12 ≤ n
  · have : e < 2 ^ n :=
      lt_of_lt_of_le he (Nat.pow_le_pow_right (show 0 < 2 by norm_num) h12)
    simp [Nat.testBit_lt_two_pow this]
  · simp [h12]

/-- Or-ing flag bits below 4096 onto an aligned frame keeps the frame
field. -/
theorem frameOf_or_low (f e : Nat) (hf : f &&& PAGE_FRAME_MASK = f)
    (he : e < 4096) : frameOf (f ||| e) = f := by
  rw [frameOf, or_and_right, hf, and_frame_low e he, Nat.or_zero]

/-- Setting the USER bit does not change the present bit. -/
theorem entPresent_or_four (e : Nat) : entPresent (e ||| 4) = entPresent e := by
  simp [entPresent, Nat.testBit_or]

/-- Setting the USER bit does not change the frame field. -/
theorem frameOf_or_four (e : Nat) : frameOf (e ||| 4) = frameOf e := by
  rw [frameOf, frameOf, or_and_right, and_frame_low 4 (by norm_num), Nat.or_zero]

/-- An entry with an odd flag component is present. -/
theorem entPresent_or_odd (f c : Nat) (hc : c.testBit 0 = true) :
    entPresent (f ||| c) = true := by
  rw [entPresent, Nat.testBit_or, hc, Bool.or_true]

/-- An all-zero entry is not present. -/
theorem entPresent_zero : entPresent 0 = false := by
  simp [entPresent]

/-- The intermediate-level entry flags built by `get_next_level` are below
4096. -/
theorem entry_flags_lt (flags : Nat) :
    ((1 ||| 2) ||| (if flags.testBit 2 then 4 else 0)) < 4096 := by
  by_cases h : flags.testBit 2 <;> simp [h]

/-- The intermediate-level entry flags have the present bit set. -/
theorem entry_flags_odd (flags : Nat) :
    Nat.testBit ((1 ||| 2) ||| (if flags.testBit 2 then 4 else 0)) 0 = true := by
  by_cases h : flags.testBit 2 <;> simp [h]

/-- `writeEnt` pointwise. -/
theorem writeEnt_tab (σ : VmmSt) (f idx v g n : Nat) :
    (writeEnt σ f idx v).tab g n =
      if g = f ∧ n = idx then v else σ.tab g n := rfl

/-- `writeEnt` leaves other frames alone. -/
theorem writeEnt_tab_ne (σ : VmmSt) (f idx v g n : Nat) (h : g ≠ f) :
    (writeEnt σ f idx v).tab g n = σ.tab g n := by
  rw [writeEnt_tab, if_neg]
  exact fun hc => h hc.1

/-- `writeEnt` does not touch the supply. -/
theorem writeEnt_supply (σ : VmmSt) (f idx v : Nat) :
    (writeEnt σ f idx v).supply = σ.supply := rfl

/-- `setFrame` pointwise. -/
theorem setFrame_tab (σ : VmmSt) (f : Nat) (t : Nat → Nat) (g n : Nat) :
    (setFrame σ f t).tab g n =
      if g = f ∧ n < 512 then t n else σ.tab g n := rfl

/-- `setFrame` leaves other frames alone. -/
theorem setFrame_tab_ne (σ : VmmSt) (f : Nat) (t : Nat → Nat) (g n : Nat)
    (h : g ≠ f) : (setFrame σ f t).tab g n = σ.tab g n := by
  rw [setFrame_tab, if_neg]
  exact fun hc => h hc.1

/-- `setFrame` does not touch the supply. -/
theorem setFrame_supply (σ : VmmSt) (f : Nat) (t : Nat → Nat) :
    (setFrame σ f t).supply = σ.supply := rfl

/-- `TreeInv` only depends on the rows of the kernel PML4, the destination
root and the level-1/level-2 tables, so it transfers along any state whose
supply agrees and whose table agrees on those rows. -/
theorem tree_inv_tab_congr (kpml4 dst : Nat) (sup0 : List Nat)
    (row : Nat → Nat) (σ σ' : VmmSt) (L1 L2 L3 : Nat → Prop)
    (hinv : TreeInv kpml4 dst sup0 row σ L1 L2 L3)
    (hsup : σ'.supply = σ.supply)
    (hkp : ∀ n, σ'.tab kpml4 n = σ.tab kpml4 n)
    (hdr : ∀ n, σ'.tab dst n = σ.tab dst n)
    (hl1 : ∀ T, L1 T → ∀ n, σ'.tab T n = σ.tab T n)
    (hl2 : ∀ T, L2 T → ∀ n, σ'.tab T n = σ.tab T n) :
    TreeInv kpml4 dst sup0 row σ' L1 L2 L3 := by
  obtain ⟨hrow, hsub, hdns, hdnk, hc1, hc12, hc23, hok1, hok2, hok3,
    h12, h13, h23⟩ := hinv
  refine ⟨fun n => by rw [hkp n]; exact hrow n,
    by rw [hsup]; exact hsub,
    by rw [hsup]; exact hdns, hdnk,
    fun n hn hp => ?_, fun T hT n hn hp => ?_, fun T hT n hn hp => ?_,
    by rw [hsup]; exact hok1,
    by rw [hsup]; exact hok2,
    by rw [hsup]; exact hok3, h12, h13, h23⟩
  · rw [hdr n] at hp ⊢
    exact hc1 n hn hp
  · rw [hl1 T hT n] at hp ⊢
    exact hc12 T hT n hn hp
  · rw [hl2 T hT n] at hp ⊢
    exact hc23 T hT n hn hp

/-- `TreeInv` is stable under shrinking the supply. -/
theorem tree_inv_supply_mono (kpml4 dst : Nat) (sup0 sup' : List Nat)
    (row : Nat → Nat) (σ : VmmSt) (L1 L2 L3 : Nat → Prop)
    (hinv : TreeInv kpml4 dst sup0 row σ L1 L2 L3)
    (hs : sup'.Sublist σ.supply) :
    TreeInv kpml4 dst sup0 row { σ with supply := sup' } L1 L2 L3 := by
  obtain ⟨hrow, hsub, hdns, hdnk, hc1, hc12, hc23, hok1, hok2, hok3,
    h12, h13, h23⟩ := hinv
  refine ⟨hrow, hs.trans hsub, fun h => hdns (hs.subset h), hdnk,
    hc1, hc12, hc23, ?_, ?_, ?_, h12, h13, h23⟩
  · exact fun x hx => ⟨(hok1 x hx).1, (hok1 x hx).2.1,
      fun h => (hok1 x hx).2.2 (hs.subset h)⟩
  · exact fun x hx => ⟨(hok2 x hx).1, (hok2 x hx).2.1,
      fun h => (hok2 x hx).2.2 (hs.subset h)⟩
  · exact fun x hx => ⟨(hok3 x hx).1, (hok3 x hx).2.1,
      fun h => (hok3 x hx).2.2 (hs.subset h)⟩

/-- Popping the supply head and overwriting the freshly allocated frame
with arbitrary contents (the data-page copy of the clone loop) preserves
`TreeInv`. -/
theorem alloc_copy_inv (kpml4 dst : Nat) (sup0 rest : List Nat)
    (row : Nat → Nat) (σ : VmmSt) (L1 L2 L3 : Nat → Prop) (f : Nat)
    (t : Nat → Nat)
    (hgs : GoodSupply kpml4 sup0)
    (hinv : TreeInv kpml4 dst sup0 row σ L1 L2 L3)
    (hsup : σ.supply = f :: rest) :
    TreeInv kpml4 dst sup0 row
      (setFrame { σ with supply := rest } f t) L1 L2 L3 := by
  have hfin : f ∈ σ.supply := by rw [hsup]; exact List.mem_cons_self f rest
  have hfsup0 : f ∈ sup0 := hinv.2.1.subset hfin
  have hfk : f ≠ kpml4 := fun h => hgs.2.1 (h ▸ hfsup0)
  have hfd : f ≠ dst := fun h => hinv.2.2.1 (h ▸ hfin)
  have hmono : TreeInv kpml4 dst sup0 row { σ with supply := rest } L1 L2 L3 := by
    refine tree_inv_supply_mono kpml4 dst sup0 rest row σ L1 L2 L3 hinv ?_
    rw [hsup]
    exact List.sublist_cons_self f rest
  refine tree_inv_tab_congr kpml4 dst sup0 row { σ with supply := rest } _
    L1 L2 L3 hmono (setFrame_supply _ _ _) ?_ ?_ ?_ ?_
  · exact fun n => setFrame_tab_ne _ _ _ _ _ (fun h => hfk h.symm)
  · exact fun n => setFrame_tab_ne _ _ _ _ _ (fun h => hfd h.symm)
  · intro T hT n
    exact setFrame_tab_ne _ _ _ _ _
      (fun h => (hinv.2.2.2.2.2.2.2.1 T hT).2.2 (h ▸ hfin))
  · intro T hT n
    exact setFrame_tab_ne _ _ _ _ _
      (fun h => (hinv.2.2.2.2.2.2.2.2.1 T hT).2.2 (h ▸ hfin))

/-- Writing a leaf entry into a level-3 table preserves `TreeInv`. -/
theorem leaf_write_inv (kpml4 dst : Nat) (sup0 : List Nat) (row : Nat → Nat)
    (σ : VmmSt) (L1 L2 L3 : Nat → Prop) (T idx v : Nat)
    (hinv : TreeInv kpml4 dst sup0 row σ L1 L2 L3)
    (hT : L3 T) :
    TreeInv kpml4 dst sup0 row (writeEnt σ T idx v) L1 L2 L3 := by
  obtain ⟨-, -, -, -, -, -, -, -, -, hok3, -, h13, h23⟩ := id hinv
  refine tree_inv_tab_congr kpml4 dst sup0 row σ _ L1 L2 L3 hinv
    (writeEnt_supply _ _ _ _) ?_ ?_ ?_ ?_
  · exact fun n => writeEnt_tab_ne _ _ _ _ _ _ (fun h => (hok3 T hT).1 h.symm)
  · exact fun n => writeEnt_tab_ne _ _ _ _ _ _ (fun h => (hok3 T hT).2.1 h.symm)
  · intro S hS n
    exact writeEnt_tab_ne _ _ _ _ _ _ (fun h => h13 S hS (h ▸ hT))
  · intro S hS n
    exact writeEnt_tab_ne _ _ _ _ _ _ (fun h => h23 S hS (h ▸ hT))

/-- Folding a step function that preserves a predicate preserves it. -/
theorem foldl_inv {α β : Type _} (P : β → Prop) (f : β → α → β) :
    ∀ (l : List α) (b : β), P b →
      (∀ b' a, a ∈ l → P b' → P (f b' a)) → P (l.foldl f b)
  | [], b, hb, _ => hb
  | a :: l, b, hb, hstep =>
      foldl_inv P f l (f b a) (hstep b a (List.mem_cons_self a l) hb)
        (fun b' a' ha' => hstep b' a' (List.mem_cons_of_mem a ha'))

/-- `get_next_level` on a present entry: upgrade the USER bit if needed
and return the frame field. -/
theorem gnl_present_eq (σ : VmmSt) (T idx flags : Nat)
    (hp : entPresent (σ.tab T idx) = true) :
    get_next_level σ T idx true flags =
      (some (frameOf (σ.tab T idx)),
        if flags.testBit 2 && ! (σ.tab T idx).testBit 2 then
          writeEnt σ T idx (σ.tab T idx ||| 4)
        else σ) := by
  simp only [get_next_level, hp, if_true]

/-- `get_next_level` on a missing entry with an exhausted allocator. -/
theorem gnl_absent_nil_eq (σ : VmmSt) (T idx flags : Nat)
    (hp : entPresent (σ.tab T idx) = false) (hs : σ.supply = []) :
    get_next_level σ T idx true flags = (none, σ) := by
  simp [get_next_level, hp, hs]

/-- `get_next_level` on a missing entry: allocate the supply head, zero
it and install it with `PRESENT|WRITE[|USER]`. -/
theorem gnl_absent_cons_eq (σ : VmmSt) (T idx flags f : Nat)
    (rest : List Nat)
    (hp : entPresent (σ.tab T idx) = false) (hs : σ.supply = f :: rest) :
    get_next_level σ T idx true flags =
      (some f,
        writeEnt (setFrame { σ with supply := rest } f (fun _ => 0)) T idx
          (f ||| ((1 ||| 2) ||| (if flags.testBit 2 then 4 else 0)))) := by
  simp [get_next_level, hp, hs]

/-- Walking (and possibly creating) the level below the destination root
through a user-half index preserves the clone invariant; the returned
table belongs to the (possibly grown) level-1 set. -/
theorem gnl_dst_inv (kpml4 dst : Nat) (sup0 : List Nat) (row : Nat → Nat)
    (σ : VmmSt) (L1 L2 L3 : Nat → Prop) (idx flags : Nat)
    (r : Option Nat) (σ' : VmmSt)
    (hgs : GoodSupply kpml4 sup0)
    (hinv : TreeInv kpml4 dst sup0 row σ L1 L2 L3)
    (hidx : idx < 256)
    (h : get_next_level σ dst idx true flags = (r, σ')) :
    ∃ L1', TreeInv kpml4 dst sup0 row σ' L1' L2 L3 ∧
      ∀ T, r = some T → L1' T := by
  obtain ⟨hrow, hsub, hdns, hdnk, hc1, hc12, hc23, hok1, hok2, hok3,
    h12, h13, h23⟩ := id hinv
  cases hp : entPresent (σ.tab dst idx) with
  | true =>
    rw [gnl_present_eq σ dst idx flags hp] at h
    injection h with h1 h2
    subst h1
    by_cases hu : (flags.testBit 2 && ! (σ.tab dst idx).testBit 2) = true
    · rw [if_pos hu] at h2
      subst h2
      refine ⟨L1, ⟨?_, hsub, hdns, hdnk, ?_, ?_, ?_, hok1, hok2, hok3,
        h12, h13, h23⟩, ?_⟩
      · intro n
        rw [writeEnt_tab_ne _ _ _ _ _ _ (Ne.symm hdnk)]
        exact hrow n
      · intro n hn hpn
        rw [writeEnt_tab] at hpn ⊢
        by_cases hni : n = idx
        · subst hni
          rw [if_pos ⟨rfl, rfl⟩] at hpn ⊢
          rw [frameOf_or_four]
          exact hc1 n hn hp
        · rw [if_neg (fun hc => hni hc.2)] at hpn ⊢
          exact hc1 n hn hpn
      · intro T hT n hn hpn
        rw [writeEnt_tab_ne _ _ _ _ _ _ ((hok1 T hT).2.1)] at hpn ⊢
        exact hc12 T hT n hn hpn
      · intro T hT n hn hpn
        rw [writeEnt_tab_ne _ _ _ _ _ _ ((hok2 T hT).2.1)] at hpn ⊢
        exact hc23 T hT n hn hpn
      · intro T hT
        injection hT with hT
        exact hT ▸ hc1 idx hidx hp
    · rw [if_neg hu] at h2
      subst h2
      refine ⟨L1, hinv, ?_⟩
      intro T hT
      injection hT with hT
      exact hT ▸ hc1 idx hidx hp
  | false =>
    cases hsupe : σ.supply with
    | nil =>
      rw [gnl_absent_nil_eq σ dst idx flags hp hsupe] at h
      injection h with h1 h2
      subst h1
      subst h2
      exact ⟨L1, hinv, fun T hT => by cases hT⟩
    | cons f rest =>
      rw [gnl_absent_cons_eq σ dst idx flags f rest hp hsupe] at h
      injection h with h1 h2
      subst h1
      subst h2
      have hfin : f ∈ σ.supply := by
        rw [hsupe]
        exact List.mem_cons_self f rest
      have hfsup0 : f ∈ sup0 := hsub.subset hfin
      have hfk : f ≠ kpml4 := fun hx => hgs.2.1 (hx ▸ hfsup0)
      have hfd : f ≠ dst := fun hx => hdns (hx ▸ hfin)
      have hfal : f &&& PAGE_FRAME_MASK = f := hgs.2.2 f hfsup0
      have hfnr : f ∉ rest := by
        have hnd : σ.supply.Nodup := List.Nodup.sublist hsub hgs.1
        rw [hsupe] at hnd
        exact (List.nodup_cons.mp hnd).1
      have hf2 : ¬ L2 f := fun hx => (hok2 f hx).2.2 hfin
      have hf3 : ¬ L3 f := fun hx => (hok3 f hx).2.2 hfin
      have hmid : TreeInv kpml4 dst sup0 row
          (setFrame { σ with supply := rest } f (fun _ => 0)) L1 L2 L3 :=
        alloc_copy_inv kpml4 dst sup0 rest row σ L1 L2 L3 f _ hgs hinv hsupe
      obtain ⟨hrowm, hsubm, hdnsm, -, hc1m, hc12m, hc23m, hok1m, hok2m,
        hok3m, -, -, -⟩ := id hmid
      refine ⟨fun x => L1 x ∨ x = f,
        ⟨?_, hsubm, hdnsm, hdnk, ?_, ?_, ?_, ?_, hok2m, hok3m, ?_, ?_, h23⟩,
        ?_⟩
      · intro n
        rw [writeEnt_tab_ne _ _ _ _ _ _ (Ne.symm hdnk)]
        exact hrowm n
      · intro n hn hpn
        rw [writeEnt_tab] at hpn ⊢
        by_cases hni : n = idx
        · subst hni
          rw [if_pos ⟨rfl, rfl⟩] at hpn ⊢
          rw [frameOf_or_low f _ hfal (entry_flags_lt flags)]
          exact Or.inr rfl
        · rw [if_neg (fun hc => hni hc.2)] at hpn ⊢
          exact Or.inl (hc1m n hn hpn)
      · intro T hT n hn hpn
        cases hT with
        | inl hT1 =>
          rw [writeEnt_tab_ne _ _ _ _ _ _ ((hok1m T hT1).2.1)] at hpn ⊢
          exact hc12m T hT1 n hn hpn
        | inr hTf =>
          subst hTf
          rw [writeEnt_tab_ne _ _ _ _ _ _ hfd,
            setFrame_tab, if_pos ⟨rfl, hn⟩, entPresent_zero] at hpn
          cases hpn
      · intro T hT n hn hpn
        rw [writeEnt_tab_ne _ _ _ _ _ _ ((hok2m T hT).2.1)] at hpn ⊢
        exact hc23m T hT n hn hpn
      · intro x hx
        cases hx with
        | inl hx1 => exact hok1m x hx1
        | inr hxf => subst hxf; exact ⟨hfk, hfd, hfnr⟩
      · intro x hx
        cases hx with
        | inl hx1 => exact h12 x hx1
        | inr hxf => subst hxf; exact hf2
      · intro x hx
        cases hx with
        | inl hx1 => exact h13 x hx1
        | inr hxf => subst hxf; exact hf3
      · intro T hT
        injection hT with hT
        exact Or.inr hT.symm

/-- Walking (and possibly creating) the level below a level-1 table
preserves the clone invariant; the returned table belongs to the
(possibly grown) level-2 set. -/
theorem gnl_mid_inv (kpml4 dst : Nat) (sup0 : List Nat) (row : Nat → Nat)
    (σ : VmmSt) (L1 L2 L3 : Nat → Prop) (T idx flags : Nat)
    (r : Option Nat) (σ' : VmmSt)
    (hgs : GoodSupply kpml4 sup0)
    (hinv : TreeInv kpml4 dst sup0 row σ L1 L2 L3)
    (hT : L1 T) (hidx : idx < 512)
    (h : get_next_level σ T idx true flags = (r, σ')) :
    ∃ L2', TreeInv kpml4 dst sup0 row σ' L1 L2' L3 ∧
      ∀ S, r = some S → L2' S := by
  obtain ⟨hrow, hsub, hdns, hdnk, hc1, hc12, hc23, hok1, hok2, hok3,
    h12, h13, h23⟩ := id hinv
  have hTk : T ≠ kpml4 := (hok1 T hT).1
  have hTd : T ≠ dst := (hok1 T hT).2.1
  cases hp : entPresent (σ.tab T idx) with
  | true =>
    rw [gnl_present_eq σ T idx flags hp] at h
    injection h with h1 h2
    subst h1
    by_cases hu : (flags.testBit 2 && ! (σ.tab T idx).testBit 2) = true
    · rw [if_pos hu] at h2
      subst h2
      refine ⟨L2, ⟨?_, hsub, hdns, hdnk, ?_, ?_, ?_, hok1, hok2, hok3,
        h12, h13, h23⟩, ?_⟩
      · intro n
        rw [writeEnt_tab_ne _ _ _ _ _ _ (Ne.symm hTk)]
        exact hrow n
      · intro n hn hpn
        rw [writeEnt_tab_ne _ _ _ _ _ _ (Ne.symm hTd)] at hpn ⊢
        exact hc1 n hn hpn
      · intro S hS n hn hpn
        rw [writeEnt_tab] at hpn ⊢
        by_cases hSn : S = T ∧ n = idx
        · obtain ⟨hS1, hS2⟩ := hSn
          subst hS1
          subst hS2
          rw [if_pos ⟨rfl, rfl⟩] at hpn ⊢
          rw [frameOf_or_four]
          exact hc12 S hS n hn hp
        · rw [if_neg hSn] at hpn ⊢
          exact hc12 S hS n hn hpn
      · intro S hS n hn hpn
        have hST : S ≠ T := fun he => h12 T hT (he ▸ hS)
        rw [writeEnt_tab_ne _ _ _ _ _ _ hST] at hpn ⊢
        exact hc23 S hS n hn hpn
      · intro S hS
        injection hS with hS
        exact hS ▸ hc12 T hT idx hidx hp
    · rw [if_neg hu] at h2
      subst h2
      refine ⟨L2, hinv, ?_⟩
      intro S hS
      injection hS with hS
      exact hS ▸ hc12 T hT idx hidx hp
  | false =>
    cases hsupe : σ.supply with
    | nil =>
      rw [gnl_absent_nil_eq σ T idx flags hp hsupe] at h
      injection h with h1 h2
      subst h1
      subst h2
      exact ⟨L2, hinv, fun S hS => by cases hS⟩
    | cons f rest =>
      rw [gnl_absent_cons_eq σ T idx flags f rest hp hsupe] at h
      injection h with h1 h2
      subst h1
      subst h2
      have hfin : f ∈ σ.supply := by
        rw [hsupe]
        exact List.mem_cons_self f rest
      have hfsup0 : f ∈ sup0 := hsub.subset hfin
      have hfk : f ≠ kpml4 := fun hx => hgs.2.1 (hx ▸ hfsup0)
      have hfd : f ≠ dst := fun hx => hdns (hx ▸ hfin)
      have hfal : f &&& PAGE_FRAME_MASK = f := hgs.2.2 f hfsup0
      have hfnr : f ∉ rest := by
        have hnd : σ.supply.Nodup := List.Nodup.sublist hsub hgs.1
        rw [hsupe] at hnd
        exact (List.nodup_cons.mp hnd).1
      have hfT : f ≠ T := fun he => (hok1 T hT).2.2 (he ▸ hfin)
      have hf1 : ¬ L1 f := fun hx => (hok1 f hx).2.2 hfin
      have hf3 : ¬ L3 f := fun hx => (hok3 f hx).2.2 hfin
      have hmid : TreeInv kpml4 dst sup0 row
          (setFrame { σ with supply := rest } f (fun _ => 0)) L1 L2 L3 :=
        alloc_copy_inv kpml4 dst sup0 rest row σ L1 L2 L3 f _ hgs hinv hsupe
      obtain ⟨hrowm, hsubm, hdnsm, -, hc1m, hc12m, hc23m, hok1m, hok2m,
        hok3m, -, -, -⟩ := id hmid
      refine ⟨fun x => L2 x ∨ x = f,
        ⟨?_, hsubm, hdnsm, hdnk, ?_, ?_, ?_, hok1m, ?_, hok3m, ?_, h13, ?_⟩,
        ?_⟩
      · intro n
        rw [writeEnt_tab_ne _ _ _ _ _ _ (Ne.symm hTk)]
        exact hrowm n
      · intro n hn hpn
        rw [writeEnt_tab_ne _ _ _ _ _ _ (Ne.symm hTd)] at hpn ⊢
        exact hc1m n hn hpn
      · intro S hS n hn hpn
        rw [writeEnt_tab] at hpn ⊢
        by_cases hSn : S = T ∧ n = idx
        · rw [if_pos hSn] at hpn ⊢
          rw [frameOf_or_low f _ hfal (entry_flags_lt flags)]
          exact Or.inr rfl
        · rw [if_neg hSn] at hpn ⊢
          exact Or.inl (hc12m S hS n hn hpn)
      · intro S hS n hn hpn
        cases hS with
        | inl hS2 =>
          have hST : S ≠ T := fun he => h12 T hT (he ▸ hS2)
          rw [writeEnt_tab_ne _ _ _ _ _ _ hST] at hpn ⊢
          exact hc23m S hS2 n hn hpn
        | inr hSf =>
          subst hSf
          rw [writeEnt_tab_ne _ _ _ _ _ _ hfT,
            setFrame_tab, if_pos ⟨rfl, hn⟩, entPresent_zero] at hpn
          cases hpn
      · intro x hx
        cases hx with
        | inl hx2 => exact hok2m x hx2
        | inr hxf => subst hxf; exact ⟨hfk, hfd, hfnr⟩
      · intro x hx1 hx2
        cases hx2 with
        | inl hx2 => exact h12 x hx1 hx2
        | inr hxf => exact hf1 (hxf ▸ hx1)
      · intro x hx2 hx3
        cases hx2 with
        | inl hx2 => exact h23 x hx2 hx3
        | inr hxf => exact hf3 (hxf ▸ hx3)
      · intro S hS
        injection hS with hS
        exact Or.inr hS.symm

/-- Walking (and possibly creating) the level below a level-2 table
preserves the clone invariant; the returned table belongs to the
(possibly grown) level-3 set. -/
theorem gnl_bot_inv (kpml4 dst : Nat) (sup0 : List Nat) (row : Nat → Nat)
    (σ : VmmSt) (L1 L2 L3 : Nat → Prop) (T idx flags : Nat)
    (r : Option Nat) (σ' : VmmSt)
    (hgs : GoodSupply kpml4 sup0)
    (hinv : TreeInv kpml4 dst sup0 row σ L1 L2 L3)
    (hT : L2 T) (hidx : idx < 512)
    (h : get_next_level σ T idx true flags = (r, σ')) :
    ∃ L3', TreeInv kpml4 dst sup0 row σ' L1 L2 L3' ∧
      ∀ S, r = some S → L3' S := by
  obtain ⟨hrow, hsub, hdns, hdnk, hc1, hc12, hc23, hok1, hok2, hok3,
    h12, h13, h23⟩ := id hinv
  have hTk : T ≠ kpml4 := (hok2 T hT).1
  have hTd : T ≠ dst := (hok2 T hT).2.1
  cases hp : entPresent (σ.tab T idx) with
  | true =>
    rw [gnl_present_eq σ T idx flags hp] at h
    injection h with h1 h2
    subst h1
    by_cases hu : (flags.testBit 2 && ! (σ.tab T idx).testBit 2) = true
    · rw [if_pos hu] at h2
      subst h2
      refine ⟨L3, ⟨?_, hsub, hdns, hdnk, ?_, ?_, ?_, hok1, hok2, hok3,
        h12, h13, h23⟩, ?_⟩
      · intro n
        rw [writeEnt_tab_ne _ _ _ _ _ _ (Ne.symm hTk)]
        exact hrow n
      · intro n hn hpn
        rw [writeEnt_tab_ne _ _ _ _ _ _ (Ne.symm hTd)] at hpn ⊢
        exact hc1 n hn hpn
      · intro S hS n hn hpn
        have hST : S ≠ T := fun he => h12 S hS (he ▸ hT)
        rw [writeEnt_tab_ne _ _ _ _ _ _ hST] at hpn ⊢
        exact hc12 S hS n hn hpn
      · intro S hS n hn hpn
        rw [writeEnt_tab] at hpn ⊢
        by_cases hSn : S = T ∧ n = idx
        · obtain ⟨hS1, hS2⟩ := hSn
          subst hS1
          subst hS2
          rw [if_pos ⟨rfl, rfl⟩] at hpn ⊢
          rw [frameOf_or_four]
          exact hc23 S hS n hn hp
        · rw [if_neg hSn] at hpn ⊢
          exact hc23 S hS n hn hpn
      · intro S hS
        injection hS with hS
        exact hS ▸ hc23 T hT idx hidx hp
    · rw [if_neg hu] at h2
      subst h2
      refine ⟨L3, hinv, ?_⟩
      intro S hS
      injection hS with hS
      exact hS ▸ hc23 T hT idx hidx hp
  | false =>
    cases hsupe : σ.supply with
    | nil =>
      rw [gnl_absent_nil_eq σ T idx flags hp hsupe] at h
      injection h with h1 h2
      subst h1
      subst h2
      exact ⟨L3, hinv, fun S hS => by cases hS⟩
    | cons f rest =>
      rw [gnl_absent_cons_eq σ T idx flags f rest hp hsupe] at h
      injection h with h1 h2
      subst h1
      subst h2
      have hfin : f ∈ σ.supply := by
        rw [hsupe]
        exact List.mem_cons_self f rest
      have hfsup0 : f ∈ sup0 := hsub.subset hfin
      have hfk : f ≠ kpml4 := fun hx => hgs.2.1 (hx ▸ hfsup0)
      have hfd : f ≠ dst := fun hx => hdns (hx ▸ hfin)
      have hfal : f &&& PAGE_FRAME_MASK = f := hgs.2.2 f hfsup0
      have hfnr : f ∉ rest := by
        have hnd : σ.supply.Nodup := List.Nodup.sublist hsub hgs.1
        rw [hsupe] at hnd
        exact (List.nodup_cons.mp hnd).1
      have hf1 : ¬ L1 f := fun hx => (hok1 f hx).2.2 hfin
      have hf2 : ¬ L2 f := fun hx => (hok2 f hx).2.2 hfin
      have hmid : TreeInv kpml4 dst sup0 row
          (setFrame { σ with supply := rest } f (fun _ => 0)) L1 L2 L3 :=
        alloc_copy_inv kpml4 dst sup0 rest row σ L1 L2 L3 f _ hgs hinv hsupe
      obtain ⟨hrowm, hsubm, hdnsm, -, hc1m, hc12m, hc23m, hok1m, hok2m,
        hok3m, -, -, -⟩ := id hmid
      refine ⟨fun x => L3 x ∨ x = f,
        ⟨?_, hsubm, hdnsm, hdnk, ?_, ?_, ?_, hok1m, hok2m, ?_, h12, ?_, ?_⟩,
        ?_⟩
      · intro n
        rw [writeEnt_tab_ne _ _ _ _ _ _ (Ne.symm hTk)]
        exact hrowm n
      · intro n hn hpn
        rw [writeEnt_tab_ne _ _ _ _ _ _ (Ne.symm hTd)] at hpn ⊢
        exact hc1m n hn hpn
      · intro S hS n hn hpn
        have hST : S ≠ T := fun he => h12 S hS (he ▸ hT)
        rw [writeEnt_tab_ne _ _ _ _ _ _ hST] at hpn ⊢
        exact hc12m S hS n hn hpn
      · intro S hS n hn hpn
        rw [writeEnt_tab] at hpn ⊢
        by_cases hSn : S = T ∧ n = idx
        · rw [if_pos hSn] at hpn ⊢
          rw [frameOf_or_low f _ hfal (entry_flags_lt flags)]
          exact Or.inr rfl
        · rw [if_neg hSn] at hpn ⊢
          exact Or.inl (hc23m S hS n hn hpn)
      · intro x hx
        cases hx with
        | inl hx3 => exact hok3m x hx3
        | inr hxf => subst hxf; exact ⟨hfk, hfd, hfnr⟩
      · intro x hx1 hx3
        cases hx3 with
        | inl hx3 => exact h13 x hx1 hx3
        | inr hxf => exact hf1 (hxf ▸ hx1)
      · intro x hx2 hx3
        cases hx3 with
        | inl hx3 => exact h23 x hx2 hx3
        | inr hxf => exact hf2 (hxf ▸ hx2)
      · intro S hS
        injection hS with hS
        exact Or.inr hS.symm

/-- `vmm_map_in` into the destination root through a user-half top index
preserves the clone invariant (with possibly grown table sets). -/
theorem map_in_tree_inv (kpml4 dst : Nat) (sup0 : List Nat)
    (row : Nat → Nat) (σ : VmmSt) (L1 L2 L3 : Nat → Prop)
    (virt phys flags : Nat)
    (hgs : GoodSupply kpml4 sup0)
    (hinv : TreeInv kpml4 dst sup0 row σ L1 L2 L3)
    (hv : (virt >>> 39) &&& 0x1FF < 256) :
    ∃ M1 M2 M3, TreeInv kpml4 dst sup0 row
      (vmm_map_in σ dst virt phys flags) M1 M2 M3 := by
  rcases h1 : get_next_level σ dst ((virt >>> 39) &&& 0x1FF) true flags
    with ⟨r1, σ1⟩
  obtain ⟨L1a, hinv1, hres1⟩ := gnl_dst_inv kpml4 dst sup0 row σ L1 L2 L3
    ((virt >>> 39) &&& 0x1FF) flags r1 σ1 hgs hinv hv h1
  cases r1 with
  | none =>
    have hred : vmm_map_in σ dst virt phys flags = σ1 := by
      simp only [vmm_map_in, h1]
    rw [hred]
    exact ⟨L1a, L2, L3, hinv1⟩
  | some T1 =>
    have hT1 : L1a T1 := hres1 T1 rfl
    rcases h2 : get_next_level σ1 T1 ((virt >>> 30) &&& 0x1FF) true flags
      with ⟨r2, σ2⟩
    obtain ⟨L2b, hinv2, hres2⟩ := gnl_mid_inv kpml4 dst sup0 row σ1 L1a L2 L3
      T1 ((virt >>> 30) &&& 0x1FF) flags r2 σ2 hgs hinv1 hT1
      (and_mask9_lt _) h2
    cases r2 with
    | none =>
      have hred : vmm_map_in σ dst virt phys flags = σ2 := by
        simp only [vmm_map_in, h1, h2]
      rw [hred]
      exact ⟨L1a, L2b, L3, hinv2⟩
    | some T2 =>
      have hT2 : L2b T2 := hres2 T2 rfl
      rcases h3 : get_next_level σ2 T2 ((virt >>> 21) &&& 0x1FF) true flags
        with ⟨r3, σ3⟩
      obtain ⟨L3c, hinv3, hres3⟩ := gnl_bot_inv kpml4 dst sup0 row σ2 L1a
        L2b L3 T2 ((virt >>> 21) &&& 0x1FF) flags r3 σ3 hgs hinv2 hT2
        (and_mask9_lt _) h3
      cases r3 with
      | none =>
        have hred : vmm_map_in σ dst virt phys flags = σ3 := by
          simp only [vmm_map_in, h1, h2, h3]
        rw [hred]
        exact ⟨L1a, L2b, L3c, hinv3⟩
      | some T3 =>
        have hT3 : L3c T3 := hres3 T3 rfl
        have hred : vmm_map_in σ dst virt phys flags =
            writeEnt σ3 T3 ((virt >>> 12) &&& 0x1FF)
              ((phys &&& PAGE_FRAME_MASK) ||| flags ||| 1) := by
          simp only [vmm_map_in, h1, h2, h3]
        rw [hred]
        exact ⟨L1a, L2b, L3c,
          leaf_write_inv kpml4 dst sup0 row σ3 L1a L2b L3c T3 _ _ hinv3 hT3⟩

/-- One iteration of the innermost (`pt_idx`) clone loop preserves the
clone invariant. -/
theorem clonePtStep_inv (kpml4 src_pt dst i j k l : Nat) (sup0 : List Nat)
    (row : Nat → Nat) (acc : VmmSt ⊕ VmmSt)
    (hgs : GoodSupply kpml4 sup0) (hi : i < 256) (hj : j < 512)
    (hk : k < 512) (hl : l < 512)
    (hacc : TreeInvE kpml4 dst sup0 row acc) :
    TreeInvE kpml4 dst sup0 row (clonePtStep src_pt dst i j k acc l) := by
  cases acc with
  | inl σ => exact hacc
  | inr σ =>
    obtain ⟨L1, L2, L3, hinv⟩ := hacc
    cases hp : entPresent (σ.tab src_pt l) with
    | false =>
      have hred : clonePtStep src_pt dst i j k (.inr σ) l = .inr σ := by
        simp [clonePtStep, hp]
      rw [hred]
      exact ⟨L1, L2, L3, hinv⟩
    | true =>
      cases hsupe : σ.supply with
      | nil =>
        have hred : clonePtStep src_pt dst i j k (.inr σ) l = .inl σ := by
          simp [clonePtStep, hp, vAlloc, hsupe]
        rw [hred]
        exact ⟨L1, L2, L3, hinv⟩
      | cons f rest =>
        have hred : clonePtStep src_pt dst i j k (.inr σ) l =
            .inr (vmm_map_in
              (setFrame { σ with supply := rest } f
                (({ σ with supply := rest } : VmmSt).tab
                  (frameOf (σ.tab src_pt l))))
              dst
              ((i <<< 39) ||| (j <<< 30) ||| (k <<< 21) ||| (l <<< 12))
              f (σ.tab src_pt l &&& PAGE_OFFSET_MASK)) := by
          simp [clonePtStep, hp, vAlloc, hsupe]
        rw [hred]
        have hmid : TreeInv kpml4 dst sup0 row
            (setFrame { σ with supply := rest } f
              (({ σ with supply := rest } : VmmSt).tab
                (frameOf (σ.tab src_pt l)))) L1 L2 L3 :=
          alloc_copy_inv kpml4 dst sup0 rest row σ L1 L2 L3 f _ hgs hinv hsupe
        have hv : ((((i <<< 39) ||| (j <<< 30) ||| (k <<< 21) |||
            (l <<< 12)) >>> 39) &&& 0x1FF) < 256 := by
          rw [(virt_decompose i j k l (by omega) hj hk hl).1]
          exact hi
        obtain ⟨M1, M2, M3, hfin⟩ := map_in_tree_inv kpml4 dst sup0 row _
          L1 L2 L3 _ f _ hgs hmid hv
        exact ⟨M1, M2, M3, hfin⟩

/-- One iteration of the `pd_idx` clone loop preserves the clone
invariant. -/
theorem clonePdStep_inv (kpml4 src_pd dst i j k : Nat) (sup0 : List Nat)
    (row : Nat → Nat) (acc : VmmSt ⊕ VmmSt)
    (hgs : GoodSupply kpml4 sup0) (hi : i < 256) (hj : j < 512)
    (hk : k < 512)
    (hacc : TreeInvE kpml4 dst sup0 row acc) :
    TreeInvE kpml4 dst sup0 row (clonePdStep src_pd dst i j acc k) := by
  cases acc with
  | inl σ => exact hacc
  | inr σ =>
    cases hp : entPresent (σ.tab src_pd k) with
    | false =>
      have hred : clonePdStep src_pd dst i j (.inr σ) k = .inr σ := by
        simp [clonePdStep, hp]
      rw [hred]
      exact hacc
    | true =>
      have hred : clonePdStep src_pd dst i j (.inr σ) k =
          (List.range 512).foldl
            (clonePtStep (frameOf (σ.tab src_pd k)) dst i j k) (.inr σ) := by
        simp [clonePdStep, hp]
      rw [hred]
      exact foldl_inv (TreeInvE kpml4 dst sup0 row) _ (List.range 512)
        (.inr σ) hacc
        (fun b a ha hb => clonePtStep_inv kpml4 _ dst i j k a sup0 row b hgs
          hi hj hk (List.mem_range.mp ha) hb)

/-- One iteration of the `pdpt_idx` clone loop preserves the clone
invariant. -/
theorem clonePdptStep_inv (kpml4 src_pdpt dst i j : Nat) (sup0 : List Nat)
    (row : Nat → Nat) (acc : VmmSt ⊕ VmmSt)
    (hgs : GoodSupply kpml4 sup0) (hi : i < 256) (hj : j < 512)
    (hacc : TreeInvE kpml4 dst sup0 row acc) :
    TreeInvE kpml4 dst sup0 row (clonePdptStep src_pdpt dst i acc j) := by
  cases acc with
  | inl σ => exact hacc
  | inr σ =>
    cases hp : entPresent (σ.tab src_pdpt j) with
    | false =>
      have hred : clonePdptStep src_pdpt dst i (.inr σ) j = .inr σ := by
        simp [clonePdptStep, hp]
      rw [hred]
      exact hacc
    | true =>
      have hred : clonePdptStep src_pdpt dst i (.inr σ) j =
          (List.range 512).foldl
            (clonePdStep (frameOf (σ.tab src_pdpt j)) dst i j) (.inr σ) := by
        simp [clonePdptStep, hp]
      rw [hred]
      exact foldl_inv (TreeInvE kpml4 dst sup0 row) _ (List.range 512)
        (.inr σ) hacc
        (fun b a ha hb => clonePdStep_inv kpml4 _ dst i j a sup0 row b hgs
          hi hj (List.mem_range.mp ha) hb)

/-- One iteration of the `pml4_idx` clone loop preserves the clone
invariant. -/
theorem cloneTopStep_inv (kpml4 src dst i : Nat) (sup0 : List Nat)
    (row : Nat → Nat) (acc : VmmSt ⊕ VmmSt)
    (hgs : GoodSupply kpml4 sup0) (hi : i < 256)
    (hacc : TreeInvE kpml4 dst sup0 row acc) :
    TreeInvE kpml4 dst sup0 row (cloneTopStep src dst acc i) := by
  cases acc with
  | inl σ => exact hacc
  | inr σ =>
    cases hp : entPresent (σ.tab src i) with
    | false =>
      have hred : cloneTopStep src dst (.inr σ) i = .inr σ := by
        simp [cloneTopStep, hp]
      rw [hred]
      exact hacc
    | true =>
      have hred : cloneTopStep src dst (.inr σ) i =
          (List.range 512).foldl
            (clonePdptStep (frameOf (σ.tab src i)) dst i) (.inr σ) := by
        simp [cloneTopStep, hp]
      rw [hred]
      exact foldl_inv (TreeInvE kpml4 dst sup0 row) _ (List.range 512)
        (.inr σ) hacc
        (fun b a ha hb => clonePdptStep_inv kpml4 _ dst i a sup0 row b hgs
          hi (List.mem_range.mp ha) hb)

/-- A failed `vmm_create_address_space` leaves the state untouched. -/
theorem create_none (kpml4 : Nat) (σ σ' : VmmSt)
    (h : vmm_create_address_space kpml4 σ = (none, σ')) : σ' = σ := by
  cases hsupe : σ.supply with
  | nil =>
    have hred : vmm_create_address_space kpml4 σ = (none, σ) := by
      simp [vmm_create_address_space, vAlloc, hsupe]
    rw [hred] at h
    injection h with h1 h2
    exact h2.symm
  | cons f rest =>
    simp [vmm_create_address_space, vAlloc, hsupe, Prod.mk.injEq] at h

/-- Component description of a successful `vmm_create_address_space` on a
non-empty supply. -/
theorem create_cons_facts (kpml4 f : Nat) (σ : VmmSt) (rest : List Nat)
    (hs : σ.supply = f :: rest) :
    (vmm_create_address_space kpml4 σ).1 = some f ∧
    (vmm_create_address_space kpml4 σ).2.supply = rest ∧
    ∀ g n, (vmm_create_address_space kpml4 σ).2.tab g n =
      if g = f ∧ 256 ≤ n ∧ n < 512 then
        (if kpml4 = f ∧ n < 256 then 0 else σ.tab kpml4 n)
      else if g = f ∧ n < 256 then 0 else σ.tab g n := by
  refine ⟨?_, ?_, ?_⟩ <;> simp [vmm_create_address_space, vAlloc, hs]

/-- A successful `vmm_create_address_space` does not touch the kernel
PML4, zeroes the user half of the new root, copies the kernel half from
the kernel PML4, and establishes the (empty-sets) clone invariant. -/
theorem create_some (kpml4 f : Nat) (σ σ' : VmmSt)
    (hgs : GoodSupply kpml4 σ.supply)
    (h : vmm_create_address_space kpml4 σ = (some f, σ')) :
    (∀ n, σ'.tab kpml4 n = σ.tab kpml4 n) ∧
    (∀ n, n < 256 → σ'.tab f n = 0) ∧
    (∀ n, 256 ≤ n → n < 512 → σ'.tab f n = σ.tab kpml4 n) ∧
    TreeInv kpml4 f σ.supply (fun n => σ.tab kpml4 n) σ'
      (fun _ => False) (fun _ => False) (fun _ => False) := by
  cases hsupe : σ.supply with
  | nil =>
    have hred : vmm_create_address_space kpml4 σ = (none, σ) := by
      simp [vmm_create_address_space, vAlloc, hsupe]
    rw [hred] at h
    injection h with h1 h2
    cases h1
  | cons f0 rest =>
    obtain ⟨hr1, hr2, hr3⟩ := create_cons_facts kpml4 f0 σ rest hsupe
    have h1 : (vmm_create_address_space kpml4 σ).1 = some f :=
      congrArg Prod.fst h
    have h2 : (vmm_create_address_space kpml4 σ).2 = σ' :=
      congrArg Prod.snd h
    rw [hr1] at h1
    injection h1 with h1
    subst h1
    have htab : ∀ g n, σ'.tab g n =
        if g = f0 ∧ 256 ≤ n ∧ n < 512 then
          (if kpml4 = f0 ∧ n < 256 then 0 else σ.tab kpml4 n)
        else if g = f0 ∧ n < 256 then 0 else σ.tab g n := by
      intro g n
      rw [← h2]
      exact hr3 g n
    have hsupply : σ'.supply = rest := by
      rw [← h2]
      exact hr2
    have hf0in : f0 ∈ σ.supply := by
      rw [hsupe]
      exact List.mem_cons_self f0 rest
    have hfk : f0 ≠ kpml4 := fun hx => hgs.2.1 (hx ▸ hf0in)
    have hkrow : ∀ n, σ'.tab kpml4 n = σ.tab kpml4 n := by
      intro n
      rw [htab kpml4 n, if_neg (fun hc => hfk hc.1.symm),
        if_neg (fun hc => hfk hc.1.symm)]
    have hlow : ∀ n, n < 256 → σ'.tab f0 n = 0 := by
      intro n hn
      rw [htab f0 n, if_neg (fun hc => absurd hc.2.1 (by omega)),
        if_pos ⟨rfl, hn⟩]
    have hhigh : ∀ n, 256 ≤ n → n < 512 → σ'.tab f0 n = σ.tab kpml4 n := by
      intro n hn1 hn2
      rw [htab f0 n, if_pos ⟨rfl, hn1, hn2⟩,
        if_neg (fun hc => hfk hc.1.symm)]
    have hfnr : f0 ∉ rest := by
      have hnd : σ.supply.Nodup := hgs.1
      rw [hsupe] at hnd
      exact (List.nodup_cons.mp hnd).1
    refine ⟨hkrow, hlow, hhigh, hkrow, ?_, ?_, hfk,
      ?_, ?_, ?_, ?_, ?_, ?_, ?_, ?_, ?_⟩
    · rw [hsupply]
      exact List.sublist_cons_self f0 rest
    · rw [hsupply]
      exact hfnr
    · intro n hn hpn
      rw [hlow n hn, entPresent_zero] at hpn
      cases hpn
    · exact fun T hT => hT.elim
    · exact fun T hT => hT.elim
    · exact fun x hx => hx.elim
    · exact fun x hx => hx.elim
    · exact fun x hx => hx.elim
    · exact fun x hx => hx.elim
    · exact fun x hx => hx.elim
    · exact fun x hx => hx.elim

/-- `vmm_clone_address_space` never changes any entry of the kernel PML4,
whether it succeeds or aborts. -/
theorem clone_preserves_kernel (kpml4 src : Nat) (σ : VmmSt)
    (r : Option Nat) (σ' : VmmSt)
    (hgs : GoodSupply kpml4 σ.supply)
    (h : vmm_clone_address_space kpml4 σ src = (r, σ')) :
    ∀ n, σ'.tab kpml4 n = σ.tab kpml4 n := by
  rcases hc : vmm_create_address_space kpml4 σ with ⟨rc, σc⟩
  cases rc with
  | none =>
    have hred : vmm_clone_address_space kpml4 σ src = (none, σc) := by
      simp [vmm_clone_address_space, hc]
    rw [hred] at h
    injection h with h1 h2
    subst h2
    have hcs := create_none kpml4 σ σc hc
    intro n
    rw [hcs]
  | some dst =>
    have hcs := create_some kpml4 dst σ σc hgs hc
    have hbase : TreeInvE kpml4 dst σ.supply (fun n => σ.tab kpml4 n)
        (.inr σc) :=
      ⟨fun _ => False, fun _ => False, fun _ => False, hcs.2.2.2⟩
    have hfold := foldl_inv
      (TreeInvE kpml4 dst σ.supply (fun n => σ.tab kpml4 n))
      (cloneTopStep src dst) (List.range 256) (.inr σc) hbase
      (fun b a ha hb => cloneTopStep_inv kpml4 src dst a σ.supply
        (fun n => σ.tab kpml4 n) b hgs (List.mem_range.mp ha) hb)
    rcases hacc : (List.range 256).foldl (cloneTopStep src dst) (.inr σc)
      with σf | σf
    · have hred : vmm_clone_address_space kpml4 σ src = (none, σf) := by
        simp [vmm_clone_address_space, hc, hacc]
      rw [hred] at h
      injection h with h1 h2
      subst h2
      rw [hacc] at hfold
      obtain ⟨L1x, L2x, L3x, hinv⟩ := hfold
      exact hinv.1
    · have hred : vmm_clone_address_space kpml4 σ src = (some dst, σf) := by
        simp [vmm_clone_address_space, hc, hacc]
      rw [hred] at h
      injection h with h1 h2
      subst h2
      rw [hacc] at hfold
      obtain ⟨L1x, L2x, L3x, hinv⟩ := hfold
      exact hinv.1

/-- Every frame freed by `vmm_destroy_user_mappings` is the root itself or
a table page / leaf frame reachable through a low-half entry of the root;
and the root frame is always freed. -/
theorem destroy_freed_spec (t : Nat → Nat → Nat) (root : Nat) :
    (∀ f, f ∈ vmm_destroy_user_mappings t root →
        f = root ∨ LowReachable t root f) ∧
    root ∈ vmm_destroy_user_mappings t root := by
  constructor
  · intro f hf
    unfold vmm_destroy_user_mappings at hf
    rcases List.mem_append.mp hf with hf | hf
    · obtain ⟨i, hi, hfi⟩ := List.mem_flatMap.mp hf
      have hi' : i < 256 := List.mem_range.mp hi
      by_cases hp1 : entPresent (t root i) = true
      · rw [if_neg (by simp [hp1])] at hfi
        rcases List.mem_append.mp hfi with hfi | hfi
        · obtain ⟨j, hj, hfj⟩ := List.mem_flatMap.mp hfi
          have hj' : j < 512 := List.mem_range.mp hj
          by_cases hp2 : entPresent (t (frameOf (t root i)) j) = true
          · rw [if_neg (by simp [hp2])] at hfj
            rcases List.mem_append.mp hfj with hfj | hfj
            · obtain ⟨k, hk, hfk3⟩ := List.mem_flatMap.mp hfj
              have hk' : k < 512 := List.mem_range.mp hk
              by_cases hp3 : entPresent
                  (t (frameOf (t (frameOf (t root i)) j)) k) = true
              · rw [if_neg (by simp [hp3])] at hfk3
                rcases List.mem_append.mp hfk3 with hfk3 | hfk3
                · obtain ⟨l, hl, hfl⟩ := List.mem_flatMap.mp hfk3
                  have hl' : l < 512 := List.mem_range.mp hl
                  by_cases hp4 : entPresent
                      (t (frameOf (t (frameOf (t (frameOf (t root i)) j)) k))
                        l) = true
                  · rw [if_neg (by simp [hp4])] at hfl
                    have hfe : f = frameOf
                        (t (frameOf (t (frameOf (t (frameOf (t root i)) j))
                          k)) l) :=
                      List.mem_singleton.mp hfl
                    right
                    exact Or.inr (Or.inr (Or.inr ⟨_, _, _,
                      ⟨i, hi', hp1, rfl⟩, ⟨j, hj', hp2, rfl⟩,
                      ⟨k, hk', hp3, rfl⟩, ⟨l, hl', hp4, hfe.symm⟩⟩))
                  · rw [if_pos (by simp [hp4])] at hfl
                    cases hfl
                · have hfe : f = frameOf
                      (t (frameOf (t (frameOf (t root i)) j)) k) :=
                    List.mem_singleton.mp hfk3
                  right
                  exact Or.inr (Or.inr (Or.inl ⟨_, _,
                    ⟨i, hi', hp1, rfl⟩, ⟨j, hj', hp2, rfl⟩,
                    ⟨k, hk', hp3, hfe.symm⟩⟩))
              · rw [if_pos (by simp [hp3])] at hfk3
                cases hfk3
            · have hfe : f = frameOf (t (frameOf (t root i)) j) :=
                List.mem_singleton.mp hfj
              right
              exact Or.inr (Or.inl ⟨_, ⟨i, hi', hp1, rfl⟩,
                ⟨j, hj', hp2, hfe.symm⟩⟩)
          · rw [if_pos (by simp [hp2])] at hfj
            cases hfj
        · have hfe : f = frameOf (t root i) := List.mem_singleton.mp hfi
          right
          exact Or.inl ⟨i, hi', hp1, hfe.symm⟩
      · rw [if_pos (by simp [hp1])] at hfi
        cases hfi
    · exact Or.inl (List.mem_singleton.mp hf)
  · unfold vmm_destroy_user_mappings
    exact List.mem_append.mpr (Or.inr (List.mem_singleton.mpr rfl))

/-- C2: `vmm_create_address_space` and `vmm_clone_address_space` never
write any entry of the kernel PML4 (`kpml4`) — creation only reads its
entries 256-511 to copy them into the new root, whose user half is zeroed
— and `vmm_destroy_user_mappings` frees only the given root frame itself
and table pages / leaf frames reachable through low-half entries 0-255 of
that root (so never a shared high-half kernel table), the root frame being
freed as well.  The allocator supply is assumed duplicate-free,
page-aligned and never handing out the kernel PML4 frame. -/
theorem c2_address_space_frame_effects (kpml4 src root : Nat) (σ : VmmSt)
    (t : Nat → Nat → Nat)
    (hgs : GoodSupply kpml4 σ.supply) :
    (∀ r σ', vmm_create_address_space kpml4 σ = (r, σ') →
       (∀ n, σ'.tab kpml4 n = σ.tab kpml4 n) ∧
       ∀ f, r = some f →
         (∀ n, n < 256 → σ'.tab f n = 0) ∧
         (∀ n, 256 ≤ n → n < 512 → σ'.tab f n = σ.tab kpml4 n)) ∧
    (∀ r σ', vmm_clone_address_space kpml4 σ src = (r, σ') →
       ∀ n, σ'.tab kpml4 n = σ.tab kpml4 n) ∧
    (∀ f, f ∈ vmm_destroy_user_mappings t root →
       f = root ∨ LowReachable t root f) ∧
    root ∈ vmm_destroy_user_mappings t root := by
  refine ⟨?_, ?_, (destroy_freed_spec t root).1,
    (destroy_freed_spec t root).2⟩
  · intro r σ' h
    cases r with
    | none =>
      have he := create_none kpml4 σ σ' h
      subst he
      exact ⟨fun n => rfl, fun f hf => by cases hf⟩
    | some f =>
      have hcs := create_some kpml4 f σ σ' hgs h
      refine ⟨hcs.1, fun g hg => ?_⟩
      injection hg with hg
      subst hg
      exact ⟨hcs.2.1, hcs.2.2.1⟩
  · intro r σ' h
    exact clone_preserves_kernel kpml4 src σ r σ' hgs h

/-- C2 witness: a concrete well-formed supply satisfying the hypothesis,
and the instantiated destroy clause. -/
theorem c2_address_space_frame_effects_witness :
    GoodSupply 12288 [4096, 8192] ∧
    (0 : Nat) ∈ vmm_destroy_user_mappings (fun _ _ => 0) 0 := by
  have hgs : GoodSupply 12288 [4096, 8192] := by
    refine ⟨?_, ?_, ?_⟩
    · decide
    · decide
    · decide
  refine ⟨hgs, ?_⟩
  exact (c2_address_space_frame_effects 12288 0 0
    ⟨fun _ _ => 0, [4096, 8192]⟩ (fun _ _ => 0) hgs).2.2.2

/-- The match test ignores the record length. -/
theorem entMatches_rec_len (de : Dirent) (x : Nat) (nm : String) :
    entMatches { de with rec_len := x } nm = entMatches de nm := rfl

/-- A record whose inode was zeroed never matches. -/
theorem entMatches_zero_inode (de : Dirent) (nm : String) :
    entMatches { de with inode := 0 } nm = false := by
  simp [entMatches]

/-- The in-block scan fails exactly when the walked portion holds no
match. -/
theorem findInBlock_none_iff (bs : Nat) (nm : String) (l : List Dirent) :
    ∀ off, findInBlock bs nm off l = none ↔
      matchCountInBlock bs nm off l = 0 := by
  induction l with
  | nil =>
    intro off
    simp [findInBlock, matchCountInBlock]
  | cons de rest ih =>
    intro off
    by_cases h1 : bs ≤ off
    · simp [findInBlock, matchCountInBlock, h1]
    · by_cases h2 : de.rec_len = 0
      · simp [findInBlock, matchCountInBlock, h1, h2]
      · by_cases h3 : entMatches de nm = true
        · simp [findInBlock, matchCountInBlock, h1, h2, h3]
        · simp [findInBlock, matchCountInBlock, h1, h2, h3,
            ih (off + de.rec_len)]

/-- The removal tail scan fails exactly when the plain scan fails. -/
theorem removeTail_none_iff (bs : Nat) (nm : String) (l : List Dirent) :
    ∀ prev off, removeTail bs nm prev off l = none ↔
      findInBlock bs nm off l = none := by
  induction l with
  | nil =>
    intro prev off
    simp [removeTail, findInBlock]
  | cons de rest ih =>
    intro prev off
    by_cases h1 : bs ≤ off
    · simp [removeTail, findInBlock, h1]
    · by_cases h2 : de.rec_len = 0
      · simp [removeTail, findInBlock, h1, h2]
      · by_cases h3 : entMatches de nm = true
        · simp [removeTail, findInBlock, h1, h2, h3]
        · simp [removeTail, findInBlock, h1, h2, h3, Option.map_eq_none',
            ih de (off + de.rec_len)]

/-- In-block removal fails exactly when the plain scan fails. -/
theorem removeInBlock_none_iff (bs : Nat) (nm : String) (l : List Dirent) :
    removeInBlock bs nm l = none ↔ findInBlock bs nm 0 l = none := by
  cases l with
  | nil => simp [removeInBlock, findInBlock]
  | cons de rest =>
    by_cases h1 : bs ≤ 0
    · simp [removeInBlock, findInBlock, h1]
    · by_cases h2 : de.rec_len = 0
      · simp [removeInBlock, findInBlock, h1, h2]
      · by_cases h3 : entMatches de nm = true
        · simp [removeInBlock, findInBlock, h1, h2, h3]
        · simp [removeInBlock, findInBlock, h1, h2, h3, Option.map_eq_none',
            removeTail_none_iff bs nm rest de de.rec_len]

/-- Removing the unique match from the tail of a chain leaves a chain
with no match (counted from the previous record's offset). -/
theorem removeTail_count (bs : Nat) (nm : String) (l : List Dirent) :
    ∀ prev off offp p' l',
      removeTail bs nm prev off l = some (p', l') →
      matchCountInBlock bs nm off l = 1 →
      offp + prev.rec_len = off →
      ¬ bs ≤ offp → prev.rec_len ≠ 0 → entMatches prev nm = false →
      matchCountInBlock bs nm offp (p' :: l') = 0 := by
  induction l with
  | nil =>
    intro prev off offp p' l' h
    simp [removeTail] at h
  | cons de rest ih =>
    intro prev off offp p' l' h hc hoff hbsp hprl hpm
    by_cases h1 : bs ≤ off
    · simp [removeTail, h1] at h
    · by_cases h2 : de.rec_len = 0
      · simp [removeTail, h1, h2] at h
      · by_cases h3 : entMatches de nm = true
        · simp [removeTail, h1, h2, h3] at h
          obtain ⟨hp', hl'⟩ := h
          have hcrest : matchCountInBlock bs nm (off + de.rec_len) rest = 0 := by
            rw [matchCountInBlock, if_neg h1, if_neg h2, if_pos h3] at hc
            omega
          rw [matchCountInBlock, if_neg hbsp]
          rw [← hp', ← hl']
          rw [if_neg (by
            show ¬ ({ prev with rec_len := prev.rec_len + de.rec_len }).rec_len = 0
            simp
            omega)]
          rw [if_neg (by rw [entMatches_rec_len, hpm]; exact Bool.false_ne_true)]
          have hoffs : offp +
              ({ prev with rec_len := prev.rec_len + de.rec_len }).rec_len =
              off + de.rec_len := by
            simp
            omega
          rw [hoffs]
          simpa using hcrest
        · have h3' : entMatches de nm = false := by
            cases hx : entMatches de nm
            · rfl
            · exact absurd hx h3
          simp [removeTail, h1, h2, h3'] at h
          obtain ⟨q, l2, hq, hpq, hlq⟩ := h
          have hcrest : matchCountInBlock bs nm (off + de.rec_len) rest = 1 := by
            rw [matchCountInBlock, if_neg h1, if_neg h2, h3'] at hc
            simpa using hc
          have hih := ih de (off + de.rec_len) off q l2 hq hcrest rfl h1 h2 h3'
          rw [← hpq, ← hlq]
          rw [matchCountInBlock, if_neg hbsp, if_neg hprl,
            if_neg (by rw [hpm]; exact Bool.false_ne_true)]
          rw [hoff]
          simpa using hih

/-- Removing the unique match of a block leaves a block with no match. -/
theorem removeInBlock_count (bs : Nat) (nm : String) (l : List Dirent)
    (l' : List Dirent)
    (h : removeInBlock bs nm l = some l')
    (hc : matchCountInBlock bs nm 0 l = 1) :
    matchCountInBlock bs nm 0 l' = 0 := by
  cases l with
  | nil => simp [removeInBlock] at h
  | cons de rest =>
    by_cases h1 : bs ≤ (0 : Nat)
    · simp [removeInBlock, h1] at h
    · by_cases h2 : de.rec_len = 0
      · simp [removeInBlock, h1, h2] at h
      · by_cases h3 : entMatches de nm = true
        · simp [removeInBlock, h1, h2, h3] at h
          have hcrest : matchCountInBlock bs nm (0 + de.rec_len) rest = 0 := by
            rw [matchCountInBlock, if_neg h1, if_neg h2, if_pos h3] at hc
            omega
          rw [← h]
          rw [matchCountInBlock, if_neg h1]
          rw [if_neg (by
            show ¬ ({ de with inode := 0 }).rec_len = 0
            simpa using h2)]
          rw [entMatches_zero_inode]
          simpa using hcrest
        · have h3' : entMatches de nm = false := by
            cases hx : entMatches de nm
            · rfl
            · exact absurd hx h3
          simp [removeInBlock, h1, h2, h3'] at h
          obtain ⟨q, l2, hq, hl'⟩ := h
          have hcrest : matchCountInBlock bs nm (0 + de.rec_len) rest = 1 := by
            rw [matchCountInBlock, if_neg h1, if_neg h2, h3'] at hc
            simpa using hc
          have hcr : matchCountInBlock bs nm de.rec_len rest = 1 := by
            simpa using hcrest
          have hih := removeTail_count bs nm rest de de.rec_len 0 q l2
            hq hcr (by omega) h1 h2 h3'
          rw [← hl']
          exact hih

/-- A skipped or match-free block does not change the directory scan. -/
theorem dirFindGo_cons_none (st : Ext2State) (di : Ext2Inode) (nm : String)
    (fb : Nat) (fbs : List Nat)
    (h : get_block_num (st.block_size / 4) di.i_block st.readPtr fb = 0 ∨
      findInBlock st.block_size nm 0
        (st.dirData
          (get_block_num (st.block_size / 4) di.i_block st.readPtr fb)) =
        none) :
    dirFindGo st di nm (fb :: fbs) = dirFindGo st di nm fbs := by
  by_cases hbn : get_block_num (st.block_size / 4) di.i_block st.readPtr fb = 0
  · simp [dirFindGo, hbn]
  · cases h with
    | inl h => exact absurd h hbn
    | inr h => simp [dirFindGo, hbn, h]

/-- The directory scan fails exactly when the walk holds no match. -/
theorem dirFindGo_none_iff (st : Ext2State) (di : Ext2Inode) (nm : String)
    (fbs : List Nat) :
    dirFindGo st di nm fbs = none ↔ dirMatchGo st di nm fbs = 0 := by
  induction fbs with
  | nil => simp [dirFindGo, dirMatchGo]
  | cons fb fbs ih =>
    by_cases hbn : get_block_num (st.block_size / 4) di.i_block st.readPtr
        fb = 0
    · simp [dirFindGo, dirMatchGo, hbn, ih]
    · cases hfb : findInBlock st.block_size nm 0
          (st.dirData
            (get_block_num (st.block_size / 4) di.i_block st.readPtr fb)) with
      | some r =>
        have hcnt : matchCountInBlock st.block_size nm 0
            (st.dirData
              (get_block_num (st.block_size / 4) di.i_block st.readPtr fb)) ≠
            0 := by
          intro h0
          have hn := (findInBlock_none_iff st.block_size nm _ 0).mpr h0
          rw [hfb] at hn
          cases hn
        simp [dirFindGo, dirMatchGo, hbn, hfb, hcnt]
      | none =>
        have hcnt := (findInBlock_none_iff st.block_size nm _ 0).mp hfb
        simp [dirFindGo, dirMatchGo, hbn, hfb, hcnt, ih]

/-- The removal walk fails exactly when the directory scan fails. -/
theorem dirRemoveGo_none_iff (st : Ext2State) (di : Ext2Inode) (nm : String)
    (fbs : List Nat) :
    dirRemoveGo st di nm fbs = none ↔ dirFindGo st di nm fbs = none := by
  induction fbs with
  | nil => simp [dirRemoveGo, dirFindGo]
  | cons fb fbs ih =>
    by_cases hbn : get_block_num (st.block_size / 4) di.i_block st.readPtr
        fb = 0
    · simp [dirRemoveGo, dirFindGo, hbn, ih]
    · cases hrb : removeInBlock st.block_size nm
          (st.dirData
            (get_block_num (st.block_size / 4) di.i_block st.readPtr fb)) with
      | some blk1 =>
        cases hfb : findInBlock st.block_size nm 0
            (st.dirData
              (get_block_num (st.block_size / 4) di.i_block st.readPtr
                fb)) with
        | none =>
          have hn := (removeInBlock_none_iff st.block_size nm _).mpr hfb
          rw [hrb] at hn
          cases hn
        | some r => simp [dirRemoveGo, dirFindGo, hbn, hrb, hfb]
      | none =>
        have hfb := (removeInBlock_none_iff st.block_size nm _).mp hrb
        simp [dirRemoveGo, dirFindGo, hbn, hrb, hfb, ih]

/-- A match-free walk stays match-free when blocks are only replaced by
match-free contents. -/
theorem dirMatchGo_zero_transfer (st st1 : Ext2State) (di : Ext2Inode)
    (nm : String)
    (hbs : st1.block_size = st.block_size)
    (hrp : st1.readPtr = st.readPtr)
    (hdd : ∀ b, matchCountInBlock st.block_size nm 0 (st1.dirData b) = 0 ∨
      st1.dirData b = st.dirData b) :
    ∀ fbs, dirMatchGo st di nm fbs = 0 → dirMatchGo st1 di nm fbs = 0 := by
  intro fbs
  induction fbs with
  | nil =>
    intro hz
    simp [dirMatchGo]
  | cons fb fbs ih =>
    intro hz
    rw [dirMatchGo] at hz
    rw [dirMatchGo, hbs, hrp]
    have hz1 : (if get_block_num (st.block_size / 4) di.i_block st.readPtr
        fb = 0 then 0 else matchCountInBlock st.block_size nm 0
          (st.dirData
            (get_block_num (st.block_size / 4) di.i_block st.readPtr fb))) =
        0 := by omega
    have hz2 : dirMatchGo st di nm fbs = 0 := by omega
    rw [ih hz2, Nat.add_zero]
    by_cases hbn : get_block_num (st.block_size / 4) di.i_block st.readPtr
        fb = 0
    · rw [if_pos hbn]
    · rw [if_neg hbn]
      cases hdd (get_block_num (st.block_size / 4) di.i_block st.readPtr
          fb) with
      | inl hb => exact hb
      | inr hb =>
        rw [hb]
        rw [if_neg hbn] at hz1
        exact hz1

/-- A successful removal walk with a unique match touches only the one
directory block that held the match: every other volume field is
unchanged, every block of the new state is either match-free or
untouched, and re-scanning the walk finds nothing. -/
theorem dirRemoveGo_some_spec (st : Ext2State) (di : Ext2Inode)
    (nm : String) :
    ∀ (fbs : List Nat) (st1 : Ext2State),
      dirRemoveGo st di nm fbs = some st1 →
      dirMatchGo st di nm fbs = 1 →
      st1.block_size = st.block_size ∧
      st1.inodes = st.inodes ∧
      st1.readPtr = st.readPtr ∧
      st1.freedBlocks = st.freedBlocks ∧
      st1.freedInodes = st.freedInodes ∧
      (∀ b, matchCountInBlock st.block_size nm 0 (st1.dirData b) = 0 ∨
        st1.dirData b = st.dirData b) ∧
      dirFindGo st1 di nm fbs = none := by
  intro fbs
  induction fbs with
  | nil =>
    intro st1 h
    simp [dirRemoveGo] at h
  | cons fb fbs ih =>
    intro st1 h hc
    by_cases hbn : get_block_num (st.block_size / 4) di.i_block st.readPtr
        fb = 0
    · rw [dirMatchGo, if_pos hbn, Nat.zero_add] at hc
      have h' : dirRemoveGo st di nm fbs = some st1 := by
        simpa [dirRemoveGo, hbn] using h
      obtain ⟨f1, f2, f3, f4, f5, f6, f7⟩ := ih st1 h' hc
      refine ⟨f1, f2, f3, f4, f5, f6, ?_⟩
      rw [dirFindGo_cons_none st1 di nm fb fbs, f7]
      left
      rw [f1, f3]
      exact hbn
    · rw [dirMatchGo, if_neg hbn] at hc
      cases hrb : removeInBlock st.block_size nm
          (st.dirData
            (get_block_num (st.block_size / 4) di.i_block st.readPtr
              fb)) with
      | some blk1 =>
        have h' := h
        simp only [dirRemoveGo, hbn, if_false, hrb, Option.some.injEq] at h'
        have hcb1 : matchCountInBlock st.block_size nm 0
            (st.dirData
              (get_block_num (st.block_size / 4) di.i_block st.readPtr
                fb)) ≠ 0 := by
          intro h0
          have hn := (findInBlock_none_iff st.block_size nm _ 0).mpr h0
          have hn2 := (removeInBlock_none_iff st.block_size nm _).mpr hn
          rw [hrb] at hn2
          cases hn2
        have hcb : matchCountInBlock st.block_size nm 0
            (st.dirData
              (get_block_num (st.block_size / 4) di.i_block st.readPtr
                fb)) = 1 := by omega
        have hrest : dirMatchGo st di nm fbs = 0 := by omega
        have hblk1 : matchCountInBlock st.block_size nm 0 blk1 = 0 :=
          removeInBlock_count st.block_size nm _ blk1 hrb hcb
        subst h'
        refine ⟨rfl, rfl, rfl, rfl, rfl, ?_, ?_⟩
        · intro b
          by_cases hb : b = get_block_num (st.block_size / 4) di.i_block
              st.readPtr fb
          · left
            simpa [hb] using hblk1
          · right
            simp [hb]
        · rw [dirFindGo_cons_none]
          · rw [(dirFindGo_none_iff _ di nm fbs)]
            refine dirMatchGo_zero_transfer st _ di nm ?_ ?_ ?_ fbs hrest
            · rfl
            · rfl
            intro b
            by_cases hb : b = get_block_num (st.block_size / 4) di.i_block
                st.readPtr fb
            · left
              simpa [hb] using hblk1
            · right
              simp [hb]
          · right
            show findInBlock _ nm 0 _ = none
            refine (findInBlock_none_iff _ nm _ 0).mpr ?_
            simpa using hblk1
      | none =>
        have h' : dirRemoveGo st di nm fbs = some st1 := by
          simpa [dirRemoveGo, hbn, hrb] using h
        have hfb := (removeInBlock_none_iff st.block_size nm _).mp hrb
        have hcb0 := (findInBlock_none_iff st.block_size nm _ 0).mp hfb
        rw [hcb0, Nat.zero_add] at hc
        obtain ⟨f1, f2, f3, f4, f5, f6, f7⟩ := ih st1 h' hc
        refine ⟨f1, f2, f3, f4, f5, f6, ?_⟩
        rw [dirFindGo_cons_none st1 di nm fb fbs, f7]
        right
        rw [f1, f3]
        cases f6 (get_block_num (st.block_size / 4) di.i_block st.readPtr
            fb) with
        | inl hb => exact (findInBlock_none_iff st.block_size nm _ 0).mpr hb
        | inr hb =>
          rw [hb]
          exact hfb

/-- The directory scan only depends on the block size, the directory
data and the indirect-pointer view. -/
theorem dirFindGo_congr (st st' : Ext2State) (di : Ext2Inode) (nm : String)
    (hbs : st'.block_size = st.block_size)
    (hdd : st'.dirData = st.dirData)
    (hrp : st'.readPtr = st.readPtr) :
    ∀ fbs, dirFindGo st' di nm fbs = dirFindGo st di nm fbs := by
  intro fbs
  induction fbs with
  | nil => simp [dirFindGo]
  | cons fb fbs ih =>
    rw [dirFindGo, dirFindGo, hbs, hdd, hrp, ih]

/-- C8: with a unique root-directory entry `nm` for a non-directory inode
`eino`, `ext2_unlink` removes that entry, decrements the 16-bit link
count, frees the whole block tree (`free_inode_blocks_list`) and the
inode exactly when the count reaches zero, and a subsequent lookup of the
path fails with `-ENOENT`; and `ext2_rmdir` on a directory that still
holds a live entry other than `.`/`..` returns `-ENOTEMPTY` with the
volume state completely unchanged. -/
theorem c8_unlink_rmdir_spec (st : Ext2State) (nm : String)
    (eino ft : Nat) (comps : List String) (dino : Nat) (dinode : Ext2Inode)
    (hroot : (st.inodes EXT2_ROOT_INODE).i_mode &&& EXT2_S_IFMT =
      EXT2_S_IFDIR)
    (hfind : dir_find_entry st (st.inodes EXT2_ROOT_INODE) nm =
      some (eino, ft))
    (hnotdir : ¬ (st.inodes eino).i_mode &&& EXT2_S_IFMT = EXT2_S_IFDIR)
    (huniq : dirMatchCount st (st.inodes EXT2_ROOT_INODE) nm = 1)
    (hne : comps ≠ [])
    (hres : resolve_path st comps = .ok (dino, dinode))
    (hdir : dinode.i_mode &&& EXT2_S_IFMT = EXT2_S_IFDIR)
    (hlive : dirCountEntries st dinode ≠ 0) :
    (∃ st1, dir_remove_entry st (st.inodes EXT2_ROOT_INODE) nm = some st1 ∧
      ext2_unlink st [nm] =
        (0, if ((st.inodes eino).i_links_count + 65535) % 65536 = 0 then
              { st1 with
                freedBlocks := st1.freedBlocks ++
                  free_inode_blocks_list (st1.block_size / 4) st1.readPtr
                    (st.inodes eino).i_block,
                freedInodes := st1.freedInodes ++ [eino] }
            else
              write_inode st1 eino
                { st.inodes eino with
                  i_links_count :=
                    ((st.inodes eino).i_links_count + 65535) % 65536 }) ∧
      resolve_path (ext2_unlink st [nm]).2 [nm] = .error (-ENOENT)) ∧
    ext2_rmdir st comps = (-ENOTEMPTY, st) := by
  constructor
  · -- unlink part
    cases hre : dir_remove_entry st (st.inodes EXT2_ROOT_INODE) nm with
    | none =>
      exfalso
      rw [dir_remove_entry] at hre
      have hfn := (dirRemoveGo_none_iff st (st.inodes EXT2_ROOT_INODE) nm
        _).mp hre
      rw [dir_find_entry] at hfind
      rw [hfind] at hfn
      cases hfn
    | some st1 =>
      have hre' := hre
      rw [dir_remove_entry] at hre'
      have huniq' := huniq
      rw [dirMatchCount] at huniq'
      obtain ⟨f1, f2, f3, f4, f5, f6, f7⟩ :=
        dirRemoveGo_some_spec st (st.inodes EXT2_ROOT_INODE) nm _ st1
          hre' huniq'
      have hres1 : resolve_path st [nm] = .ok (eino, st.inodes eino) := by
        simp [resolve_path, resolvePathGo, hroot, hfind]
      have heino2 : ¬ eino = EXT2_ROOT_INODE := by
        intro he
        exact hnotdir (by rw [he]; exact hroot)
      have hres0 : resolve_path st ([] : List String) =
          .ok (EXT2_ROOT_INODE, st.inodes EXT2_ROOT_INODE) := rfl
      have hunl : ext2_unlink st [nm] =
          (0, if ((st.inodes eino).i_links_count + 65535) % 65536 = 0 then
                { st1 with
                  freedBlocks := st1.freedBlocks ++
                    free_inode_blocks_list (st1.block_size / 4) st1.readPtr
                      (st.inodes eino).i_block,
                  freedInodes := st1.freedInodes ++ [eino] }
              else
                write_inode st1 eino
                  { st.inodes eino with
                    i_links_count :=
                      ((st.inodes eino).i_links_count + 65535) % 65536 }) := by
        have hlast : ([nm] : List String).getLastD "" = nm := rfl
        simp only [ext2_unlink, hres1, List.dropLast_single, hres0, hlast,
          hre, if_neg hnotdir]
        by_cases hl0 : ((st.inodes eino).i_links_count + 65535) % 65536 = 0
        · rw [if_pos hl0, if_pos hl0]
        · rw [if_neg hl0, if_neg hl0]
      refine ⟨st1, rfl, hunl, ?_⟩
      rw [hunl]
      by_cases hl0 : ((st.inodes eino).i_links_count + 65535) % 65536 = 0
      · rw [if_pos hl0]
        show resolve_path
          { st1 with
            freedBlocks := st1.freedBlocks ++
              free_inode_blocks_list (st1.block_size / 4) st1.readPtr
                (st.inodes eino).i_block,
            freedInodes := st1.freedInodes ++ [eino] } [nm] =
          .error (-ENOENT)
        rw [resolve_path, resolvePathGo]
        rw [if_neg (by
          show ¬ ((st1.inodes EXT2_ROOT_INODE).i_mode &&& EXT2_S_IFMT ≠
            EXT2_S_IFDIR)
          rw [f2, hroot]
          exact fun hx => hx rfl)]
        have hfnone : dir_find_entry
            { st1 with
              freedBlocks := st1.freedBlocks ++
                free_inode_blocks_list (st1.block_size / 4) st1.readPtr
                  (st.inodes eino).i_block,
              freedInodes := st1.freedInodes ++ [eino] }
            (st1.inodes EXT2_ROOT_INODE) nm = none := by
          rw [dir_find_entry]
          have hcg := dirFindGo_congr st1
            { st1 with
              freedBlocks := st1.freedBlocks ++
                free_inode_blocks_list (st1.block_size / 4) st1.readPtr
                  (st.inodes eino).i_block,
              freedInodes := st1.freedInodes ++ [eino] }
            (st1.inodes EXT2_ROOT_INODE) nm rfl rfl rfl
          rw [hcg]
          show dirFindGo st1 (st1.inodes EXT2_ROOT_INODE) nm
            (dirBlocksIdx st1.block_size
              (st1.inodes EXT2_ROOT_INODE).i_size) = none
          rw [f1, f2]
          exact f7
        rw [hfnone]
      · rw [if_neg hl0]
        show resolve_path
          (write_inode st1 eino
            { st.inodes eino with
              i_links_count :=
                ((st.inodes eino).i_links_count + 65535) % 65536 }) [nm] =
          .error (-ENOENT)
        have hwroot : (write_inode st1 eino
            { st.inodes eino with
              i_links_count :=
                ((st.inodes eino).i_links_count + 65535) % 65536 }).inodes
            EXT2_ROOT_INODE = st1.inodes EXT2_ROOT_INODE := by
          rw [write_inode]
          exact if_neg (fun hx => heino2 hx.symm)
        rw [resolve_path, resolvePathGo]
        rw [hwroot]
        rw [if_neg (by
          show ¬ ((st1.inodes EXT2_ROOT_INODE).i_mode &&& EXT2_S_IFMT ≠
            EXT2_S_IFDIR)
          rw [f2, hroot]
          exact fun hx => hx rfl)]
        have hfnone : dir_find_entry
            (write_inode st1 eino
              { st.inodes eino with
                i_links_count :=
                  ((st.inodes eino).i_links_count + 65535) % 65536 })
            (st1.inodes EXT2_ROOT_INODE) nm = none := by
          rw [dir_find_entry]
          have hcg := dirFindGo_congr st1
            (write_inode st1 eino
              { st.inodes eino with
                i_links_count :=
                  ((st.inodes eino).i_links_count + 65535) % 65536 })
            (st1.inodes EXT2_ROOT_INODE) nm rfl rfl rfl
          rw [hcg]
          show dirFindGo st1 (st1.inodes EXT2_ROOT_INODE) nm
            (dirBlocksIdx st1.block_size
              (st1.inodes EXT2_ROOT_INODE).i_size) = none
          rw [f1, f2]
          exact f7
        rw [hfnone]
  · -- rmdir part
    have hempty : dir_is_empty st dinode = false := by
      rw [dir_is_empty]
      exact beq_eq_false_iff_ne.mpr hlive
    simp only [ext2_rmdir, if_neg hne, hres, if_neg (by
        show ¬ (dinode.i_mode &&& EXT2_S_IFMT ≠ EXT2_S_IFDIR)
        rw [hdir]
        exact fun hx => hx rfl),
      hempty, Bool.not_false, if_pos]

/-- C8 witness: on the concrete volume `c8St`, the root entry `a` is the
unique match for the file inode 3, the subdirectory `d` (inode 4) holds a
live entry, and removing `d` reports `-ENOTEMPTY` with the state
untouched. -/
theorem c8_unlink_rmdir_spec_witness :
    dir_find_entry c8St (c8St.inodes EXT2_ROOT_INODE) "a" = some (3, 1) ∧
    dirMatchCount c8St (c8St.inodes EXT2_ROOT_INODE) "a" = 1 ∧
    dirCountEntries c8St (c8St.inodes 4) ≠ 0 ∧
    ext2_rmdir c8St ["d"] = (-ENOTEMPTY, c8St) := by
  refine ⟨by decide, by decide, by decide, ?_⟩
  exact (c8_unlink_rmdir_spec c8St "a" 3 1 ["d"] 4 (c8St.inodes 4)
    (by decide) (by decide) (by decide) (by decide)
    (by decide) (by rfl) (by decide) (by decide)).2

end Alcor2
